import Mathlib

/-!
Elephant: wire codec, dispatcher, subscription engine and copilot command extraction

A shallow embedding of parts of the elephant service
(`internal/comm`, `internal/comm/handlers`, `internal/comm/client`,
`internal/providers/copilot`) together with theorems about them.

Conventions of the embedding:

* a byte is a `Fin 256`; a `uint32` is a natural number reduced `% 2 ^ 32`;
* the read side of a connection is the list of bytes the peer sends before
  it closes its end;
* a Go `string` holding valid UTF-8 is the list of its code points
  (`List Char`);
* a Go `map` is an association list with distinct keys, ranged over in list
  order (any order is a legal `range` order);
* whether a socket write succeeds is an input of the model (an oracle).
-/

namespace Elephant

/-! ## Bytes and big-endian 32-bit integers (`encoding/binary`) -/

/-- One byte on the wire. -/
abbrev Byte := Fin 256

/-- The conversion `byte(v)` of an unsigned integer: the low eight bits. -/
def toByte (v : Nat) : Byte := ⟨v % 256, Nat.mod_lt _ (by decide)⟩

/-- The conversion `uint32(n)` of a non-negative `int`. -/
def toUint32 (n : Nat) : Nat := n % 2 ^ 32

/-- Go's `binary.BigEndian.PutUint32(buf, v)`: the four bytes stored in `buf`. -/
def putUint32 (v : Nat) : List Byte :=
  [toByte (v / 2 ^ 24), toByte (v / 2 ^ 16), toByte (v / 2 ^ 8), toByte v]

/-- Go's `binary.BigEndian.Uint32(b)` on a four-byte slice (a shorter slice
panics on the bounds check, modelled as `none`). -/
def uint32BE : List Byte → Option Nat
  | [b0, b1, b2, b3] =>
      some (b3.val + b2.val * 2 ^ 8 + b1.val * 2 ^ 16 + b0.val * 2 ^ 24)
  | _ => none

/-! ## Client side: building a request frame (`client.Query`, `client.ProviderState`) -/

/-- The buffer both clients assemble before `conn.Write`: the type byte, the
format byte, the big-endian `uint32(len(b))` and the payload `b`. -/
def requestFrame (t f : Byte) (b : List Byte) : List Byte :=
  [t] ++ [f] ++ putUint32 (toUint32 b.length) ++ b

/-- The frame `client.Query` writes for the marshalled request `b`
(type 0, format 1 = JSON). -/
def queryFrame (b : List Byte) : List Byte := requestFrame 0 1 b

/-- The frame `client.ProviderState` writes for the marshalled request `b`
(type 4, format 1 = JSON). -/
def providerStateFrame (b : List Byte) : List Byte := requestFrame 4 1 b

/-! ## Server side: `io.ReadFull` and the read loop of `comm.handle` -/

/-- Result of `io.ReadFull(conn, buf)`. -/
inductive ReadFull where
  /-- `buf` was filled; the rest of the stream follows. -/
  | ok (buf : List Byte) (rest : List Byte)
  /-- `io.EOF`: the stream ended before a single byte was read. -/
  | eof
  /-- `io.ErrUnexpectedEOF`: the stream ended after some, not all, bytes. -/
  | unexpectedEOF
  deriving DecidableEq, Repr

/-- Go's `io.ReadFull(conn, make([]byte, n))` on the remaining input `s`. -/
def readFull (n : Nat) (s : List Byte) : ReadFull :=
  if n = 0 then .ok [] s
  else if n ≤ s.length then .ok (s.take n) (s.drop n)
  else if s = [] then .eof
  else .unexpectedEOF

/-- What one pass through the body of the `for` loop of `comm.handle` does
before the dispatch statement. -/
inductive FrameRead where
  /-- All four reads succeeded: type, format, payload and the unread rest. -/
  | frame (mType : Nat) (format : Byte) (p : List Byte) (rest : List Byte)
  /-- A read of the type or format byte hit `io.EOF`: `break`. -/
  | stop
  /-- A read failed otherwise: `continue` (the stream is exhausted). -/
  | retry
  deriving DecidableEq, Repr

/-- The four `io.ReadFull` calls of one iteration of `comm.handle`. -/
def readFrame (s : List Byte) : FrameRead :=
  match readFull 1 s with
  | .eof => .stop
  | .unexpectedEOF => .retry
  | .ok tb s1 =>
    let mType := (tb.headD 0).val
    match readFull 1 s1 with
    | .eof => .stop
    | .unexpectedEOF => .retry
    | .ok fb s2 =>
      let format := fb.headD 0
      match readFull 4 s2 with
      | .eof => .retry
      | .unexpectedEOF => .retry
      | .ok lb s3 =>
        match uint32BE lb with
        | none => .retry
        | some l =>
          match readFull l s3 with
          | .eof => .retry
          | .unexpectedEOF => .retry
          | .ok p rest => .frame mType format p rest

/-- The message handlers registered in `comm.init`. -/
inductive Handler where
  | queryRequest
  | activateRequest
  | subscribeRequest
  | menuRequest
  | stateRequest
  deriving DecidableEq, Repr

def QueryRequestHandlerPos : Nat := 0
def ActivateRequestHandlerPos : Nat := 1
def SubscribeRequestHandlerPos : Nat := 2
def MenuRequestHandlerPos : Nat := 3
def StateRequestHandlerPos : Nat := 4

/-- The slice `registry` after `comm.init`: `make([]MessageHandler, 255)`
(255 nil interfaces) with the five handlers stored at their positions. -/
def registry : List (Option Handler) :=
  let r0 := List.replicate 255 (none : Option Handler)
  let r1 := r0.set QueryRequestHandlerPos (some .queryRequest)
  let r2 := r1.set ActivateRequestHandlerPos (some .activateRequest)
  let r3 := r2.set SubscribeRequestHandlerPos (some .subscribeRequest)
  let r4 := r3.set MenuRequestHandlerPos (some .menuRequest)
  r4.set StateRequestHandlerPos (some .stateRequest)

/-- One handler task started by the `go` statement of `comm.handle`. -/
structure Dispatch where
  handler : Handler
  format : Byte
  payload : List Byte
  deriving DecidableEq, Repr

/-- How the connection task of `comm.handle` ended. -/
inductive Exit where
  /-- The loop was left by `break`; the deferred `conn.Close()` ran and the
  task returned. -/
  | closed
  /-- A run-time panic was raised in the task (index out of range on
  `registry`, or a method call on a nil `MessageHandler`). Nothing in the
  program recovers it, so the whole process terminates. -/
  | panicked
  /-- The model ran out of fuel (never the case for `handle`). -/
  | outOfFuel
  deriving DecidableEq, Repr

/-- Trace of one connection task: the handler tasks it started, in order, and
how it ended. -/
structure Run where
  dispatched : List Dispatch
  exit : Exit
  deriving DecidableEq, Repr

/-- The evaluation of `registry[mType].Handle` in the `go` statement:
`none` is a run-time panic (the index is out of range, or the interface
stored there is nil). -/
def lookupHandler (mType : Nat) : Option Handler :=
  match registry.get? mType with
  | none => none
  | some none => none
  | some (some h) => some h

/-- The `for` loop of `comm.handle` on the remaining input `s`. -/
def handleLoop : Nat → List Byte → Run
  | 0, _ => ⟨[], .outOfFuel⟩
  | fuel + 1, s =>
    match readFrame s with
    | .stop => ⟨[], .closed⟩
    | .retry => handleLoop fuel []
    | .frame mType format p rest =>
      match lookupHandler mType with
      | none => ⟨[], .panicked⟩
      | some h =>
        let r := handleLoop fuel rest
        ⟨⟨h, format, p⟩ :: r.dispatched, r.exit⟩

/-- Go's `comm.handle(conn, cid)` where the peer sends `s` and then closes:
every iteration but the last two consumes at least six bytes, so
`s.length + 2` iterations are enough. -/
def handle (s : List Byte) : Run := handleLoop (s.length + 2) s

/-! ## Strings (`strings` package) -/

/-- A Go string holding valid UTF-8, as the list of its code points. -/
abbrev GoString := List Char

/-- Go's `strings.HasPrefix(s, pre)`. -/
def hasPrefix (s pre : GoString) : Bool := pre.isPrefixOf s

/-! ## Messages (`pkg/pb`) and their encodings -/

/-- Modelled from the spec: the `fuzzy` part of an item (`pkg/pb` is not
among the sources): `{field: string, start: int32, positions: list<int32>}`. -/
structure FuzzyInfo where
  field : GoString
  start : Int
  positions : List Int
  deriving DecidableEq, Repr

/-- Modelled from the spec: `pb.QueryResponse_Item` (`pkg/pb` is not among the
sources), with the fields the spec lists for an Item; `score` is an `int32`,
`fuzzy` is a pointer that may be nil. -/
structure Item where
  identifier : GoString
  text : GoString
  subtext : GoString
  icon : GoString
  provider : GoString
  score : Int
  state : List GoString
  actions : List GoString
  preview : GoString
  previewType : GoString
  fuzzy : Option FuzzyInfo
  deriving DecidableEq, Repr

/-- Modelled from the spec: `pb.SubscribeResponse`, of which the code sets the
one field `Value`. -/
structure SubscribeResponse where
  value : GoString
  deriving DecidableEq, Repr

/-- Modelled from the spec: `pb.MenuRequest`, of which the code reads the one
field `Menu`. -/
structure MenuRequestMsg where
  menu : GoString
  deriving DecidableEq, Repr

/-- Modelled from the spec: `pb.ProviderStateRequest`. -/
structure ProviderStateRequest where
  provider : GoString
  deriving DecidableEq, Repr

/-- Modelled from the spec: `pb.ProviderStateResponse`:
`provider: string`, `states: list<string>`, `actions: list<string>`. -/
structure ProviderStateResponse where
  provider : GoString
  states : List GoString
  actions : List GoString
  deriving DecidableEq, Repr

/-- Modelled from the spec: `pb.ActivateRequest`:
`provider, identifier, action, query, arguments: string`, `single: bool`. -/
structure ActivateRequestMsg where
  provider : GoString
  identifier : GoString
  action : GoString
  query : GoString
  arguments : GoString
  single : Bool
  deriving DecidableEq, Repr

/-- The two external encoders/decoders (`proto` and `encoding/json`) for the
messages used here, taken as parameters. `Unmarshal` may fail (`none`);
marshalling a `SubscribeResponse` built from a valid string cannot. -/
structure Codec where
  protoMarshalSubscribe : SubscribeResponse → List Byte
  jsonMarshalSubscribe : SubscribeResponse → List Byte
  protoUnmarshalMenu : List Byte → Option MenuRequestMsg
  jsonUnmarshalMenu : List Byte → Option MenuRequestMsg
  protoUnmarshalState : List Byte → Option ProviderStateRequest
  jsonUnmarshalState : List Byte → Option ProviderStateRequest
  protoMarshalState : ProviderStateResponse → Option (List Byte)
  jsonMarshalState : ProviderStateResponse → Option (List Byte)
  jsonUnmarshalStateResponse : List Byte → Option ProviderStateResponse
  protoUnmarshalActivate : List Byte → Option ActivateRequestMsg
  jsonUnmarshalActivate : List Byte → Option ActivateRequestMsg

/-! ## The provider registry (`internal/providers/load.go`) -/

/-- A connection, by identity. -/
abbrev Conn := Nat

/-- The type of a provider's `Query` function field:
`func(conn, query, single, exact, format) []*pb.QueryResponse_Item`. -/
abbrev QueryFn := Conn → GoString → Bool → Bool → Byte → List Item

/-- The type of a provider's `State` function field:
`func(string) *pb.ProviderStateResponse` (the result may be a nil pointer). -/
abbrev StateFn := GoString → Option ProviderStateResponse

/-- The type of a provider's `Activate` function field:
`func(single bool, identifier, action, query, args string, format uint8, conn net.Conn)`.
Of what the call does, the model keeps the frames the provider itself writes
on `conn` before it returns. -/
abbrev ActivateFn :=
  Bool → GoString → GoString → GoString → GoString → Byte → Conn → List (List Byte)

/-- The struct `providers.Provider`, restricted to the function fields the
handlers call. A function field is `none` when it is nil. -/
structure Provider where
  State : Option StateFn
  Query : Option QueryFn
  Activate : Option ActivateFn

/-- The zero value of `Provider`: what indexing the map `Providers` yields for
a key that is not in it. -/
def Provider.zero : Provider := ⟨none, none, none⟩

/-- The map `providers.Providers`. -/
abbrev Providers := List (GoString × Provider)

/-- The index expression `providers.Providers[name]`. -/
def Providers.index (ps : Providers) (name : GoString) : Provider :=
  (ps.lookup name).getD Provider.zero

/-- The comma-ok form `p, ok := providers.Providers[name]`. -/
def Providers.indexOk (ps : Providers) (name : GoString) : Option Provider :=
  ps.lookup name

/-! ## Subscription engine (`handlers/subscriberequesthandler.go`) -/

def SubscriptionDataChanged : Byte := 0
def SubscriptionHealthCheck : Byte := 230

/-- The struct `sub`. `interval` is an `int`, `sid` a `uint32`. -/
structure Sub where
  format : Byte
  sid : Nat
  interval : Int
  provider : GoString
  query : GoString
  results : List Item
  conn : Conn
  deriving DecidableEq, Repr

/-- The map `subs` (`map[uint32]*sub`). -/
abbrev Subs := List (Nat × Sub)

/-- The comma-ok lookup `_, ok := subs[sid]`. -/
def Subs.has (subs : Subs) (sid : Nat) : Bool := (subs.lookup sid).isSome

/-- Go's `delete(subs, sid)`. -/
def Subs.delete (subs : Subs) (sid : Nat) : Subs := subs.filter (fun e => e.1 != sid)

/-- The assignment `s.results = res` through the pointer `s`, which is also
the value stored in `subs` under `s.sid`: the entry with that key sees it. -/
def Subs.storeResults (subs : Subs) (sid : Nat) (res : List Item) : Subs :=
  subs.map (fun e => if e.1 = sid then (e.1, { e.2 with results := res }) else e)

/-- One call of `conn.Write` on an update frame: the connection, the
`SubscribeResponse` that was encoded, and the bytes handed to `Write`. -/
structure Written where
  conn : Conn
  resp : SubscribeResponse
  bytes : List Byte
  deriving DecidableEq, Repr

/-- The buffer built by `updated(format, conn, value)`: the message
`SubscribeResponse{Value: value}` encoded in `format` (nothing is encoded for
a format other than 0 and 1), behind the status byte and the length. -/
def updatedFrame (c : Codec) (format : Byte) (conn : Conn) (value : GoString) : Written :=
  let resp : SubscribeResponse := ⟨value⟩
  let b : List Byte :=
    if format = 0 then c.protoMarshalSubscribe resp
    else if format = 1 then c.jsonMarshalSubscribe resp
    else []
  ⟨conn, resp, [SubscriptionDataChanged] ++ putUint32 (toUint32 b.length) ++ b⟩

/-- Go's `updated(format, conn, value)`: the write that is attempted and the
returned flag, which is `writeOk`, the outcome of `conn.Write`. -/
def updated (c : Codec) (writeOk : Bool) (format : Byte) (conn : Conn) (value : GoString) :
    Written × Bool :=
  (updatedFrame c format conn value, writeOk)

/-- Go's `equals(a, b)`. -/
def equals (a b : Item) : Bool :=
  if a.icon ≠ b.icon ∨ a.text ≠ b.text ∨ a.subtext ≠ b.subtext ∨ a.score ≠ b.score then
    false
  else
    true

/-- The loop `for k, v := range res { if !equals(v, s.results[k]) { ...; break } }`
of `watch`: `some true` when the body of the `if` is reached (once, because of
the `break`), `some false` when the loop runs to its end, `none` when
`s.results[k]` is out of range. -/
def rangeDiff : List Item → List Item → Option Bool
  | [], _ => some false
  | _ :: _, [] => none
  | v :: res, o :: old => if !equals v o then some true else rangeDiff res old

/-- How one iteration of the `for` loop of `watch` ended. -/
inductive TickStatus where
  /-- The iteration finished; the task sleeps again. -/
  | running
  /-- The task found its sid gone from `subs` and returned. -/
  | returned
  /-- A run-time panic (nil `Query` function, or index out of range). -/
  | panicked
  deriving DecidableEq, Repr

/-- The state the task `watch(format, s, conn)` works on: its arguments, with
the object behind the pointer `s`, and the table `subs`. -/
structure Watch where
  format : Byte
  s : Sub
  conn : Conn
  subs : Subs
  deriving DecidableEq, Repr

/-- Result of one iteration of the loop of `watch`. -/
structure Tick where
  state : Watch
  writes : List Written
  queried : Bool
  status : TickStatus
  deriving DecidableEq, Repr

/-- The block `s.results = res; if ok := updated(format, conn, ""); !ok { delete(subs, s.sid) }`
that occurs twice in `watch`. -/
def fireUpdate (c : Codec) (writeOk : Bool) (w : Watch) (res : List Item) : Tick :=
  let w1 : Watch := { w with s := { w.s with results := res },
                             subs := w.subs.storeResults w.s.sid res }
  let u := updated c writeOk w.format w.conn []
  if !u.2 then
    ⟨{ w1 with subs := w1.subs.delete w.s.sid }, [u.1], true, .running⟩
  else
    ⟨w1, [u.1], true, .running⟩

/-- One iteration of the `for` loop of `watch`, after the sleep. `p` is the
provider looked up before the loop, `sortFunc` stands for
`slices.SortFunc(res, sortEntries)` (the comparator `sortEntries` is not among
the sources) and `writeOk` tells whether a `conn.Write` in this iteration
succeeds. -/
def watchTick (c : Codec) (p : Provider) (sortFunc : List Item → List Item) (writeOk : Bool)
    (w : Watch) : Tick :=
  if !w.subs.has w.s.sid then
    ⟨w, [], false, .returned⟩
  else
    match p.Query with
    | none => ⟨w, [], false, .panicked⟩
    | some query =>
      let res := sortFunc (query w.conn w.s.query true false w.format)
      if w.s.results.length ≠ 0 then
        if res.length ≠ w.s.results.length then
          fireUpdate c writeOk w res
        else
          match rangeDiff res w.s.results with
          | none => ⟨w, [], true, .panicked⟩
          | some true => fireUpdate c writeOk w res
          | some false => ⟨w, [], true, .running⟩
      else
        ⟨{ w with s := { w.s with results := res },
                  subs := w.subs.storeResults w.s.sid res }, [], true, .running⟩

/-- The provider name an event value is matched against in the event router
(the goroutine started in `init`): the two `strings.HasPrefix` tests, in the
order of the source. -/
def routerKey (value : GoString) : GoString :=
  let p := value
  let p := if hasPrefix p "menus:".toList then "menus".toList else p
  let p := if hasPrefix p "bluetooth:".toList then "bluetooth".toList else p
  p

/-- The condition `v.provider == p && v.interval == 0 && v.query == ""`. -/
def routerMatch (p : GoString) (v : Sub) : Bool :=
  v.provider == p && v.interval == 0 && v.query == []

/-- Result of the event router handling one value. -/
structure FanOut where
  subs : Subs
  writes : List (Nat × Written)
  toDelete : List Nat
  deriving DecidableEq, Repr

/-- The loop `for k, v := range subs` of the event router: the writes made so
far (with the key of the subscription) and the keys collected in `toDelete`.
`writeOk k` tells whether the write for the subscription under key `k`
succeeds. -/
def routerRange (c : Codec) (writeOk : Nat → Bool) (p value : GoString) :
    Subs → List (Nat × Written) × List Nat
  | [] => ([], [])
  | (k, v) :: rest =>
    let r := routerRange c writeOk p value rest
    if routerMatch p v then
      let u := updated c (writeOk k) v.format v.conn value
      if !u.2 then ((k, u.1) :: r.1, k :: r.2) else ((k, u.1) :: r.1, r.2)
    else r

/-- The body of `for p := range ProviderUpdated` in the event router, for one
received value. -/
def routerStep (c : Codec) (writeOk : Nat → Bool) (subs : Subs) (value : GoString) : FanOut :=
  let p := routerKey value
  let r := routerRange c writeOk p value subs
  ⟨r.2.foldl (fun t k => Subs.delete t k) subs, r.1, r.2⟩

/-! ## Menu and state handlers -/

/-- The `switch format` at the head of `(*MenuRequest).Handle`: the decoded
request, `none` when `Unmarshal` returned an error. For a format other than 0
and 1 nothing is decoded and `req` keeps its zero value. -/
def MenuRequest.decode (c : Codec) (format : Byte) (data : List Byte) : Option MenuRequestMsg :=
  if format = 0 then c.protoUnmarshalMenu data
  else if format = 1 then c.jsonUnmarshalMenu data
  else some ⟨[]⟩

/-- Go's `(*MenuRequest).Handle`: the value sent on `ProviderUpdated`
(`fmt.Sprintf("%s:%s", "menus", req.Menu)`), or `none` when decoding failed and
the handler returned. -/
def MenuRequest.Handle (c : Codec) (format : Byte) (data : List Byte) : Option GoString :=
  match MenuRequest.decode c format data with
  | none => none
  | some req => some ("menus".toList ++ ":".toList ++ req.menu)

/-- Outcome of a handler task. -/
inductive HandlerExit where
  /-- The handler returned. -/
  | returned
  /-- A run-time panic (call of a nil function, nil pointer dereference);
  nothing recovers it, so the process terminates. -/
  | panicked
  deriving DecidableEq, Repr

/-- Trace of `(*StateRequest).Handle`: the frames handed to `conn.Write`, and
how the task ended. -/
structure StateRun where
  writes : List (List Byte)
  exit : HandlerExit
  deriving DecidableEq, Repr

/-- The `switch format` at the head of `(*StateRequest).Handle`: the decoded
request, `none` when `Unmarshal` returned an error. For a format other than 0
and 1 nothing is decoded and `req` keeps its zero value. -/
def StateRequest.decode (c : Codec) (format : Byte) (data : List Byte) :
    Option ProviderStateRequest :=
  if format = 0 then c.protoUnmarshalState data
  else if format = 1 then c.jsonUnmarshalState data
  else some ⟨[]⟩

/-- The provider name `(*StateRequest).Handle` indexes the registry with. -/
def StateRequest.route (provider : GoString) : GoString :=
  if hasPrefix provider "menus:".toList then "menus".toList else provider

/-- Go's `(*StateRequest).Handle`. `ps` is the registry, `writeOk` the outcome
of the first `conn.Write`, and `statusDone` the frame `writeStatus(StatusDone,
conn)` writes (`writeStatus` is not among the sources). -/
def StateRequest.Handle (c : Codec) (ps : Providers) (writeOk : Bool) (statusDone : List Byte)
    (format : Byte) (data : List Byte) : StateRun :=
  match StateRequest.decode c format data with
  | none => ⟨[], .returned⟩
  | some req =>
    let p := StateRequest.route req.provider
    match (ps.index p).State with
    | none => ⟨[], .panicked⟩
    | some state =>
      match state req.provider with
      | none => ⟨[], .panicked⟩
      | some res =>
        let res := { res with provider := req.provider }
        let b : Option (List Byte) :=
          if format = 0 then c.protoMarshalState res
          else if format = 1 then c.jsonMarshalState res
          else some []
        match b with
        | none => ⟨[], .returned⟩
        | some b =>
          let frame := [(3 : Byte)] ++ putUint32 (toUint32 b.length) ++ b
          if !writeOk then ⟨[frame], .returned⟩
          else ⟨[frame, statusDone], .returned⟩


/-! ## Strings: `strings.TrimSpace`, `strings.TrimPrefix`, `strings.ToLower`, lines -/

/-- Go's `unicode.IsSpace`. -/
def isSpace (c : Char) : Bool :=
  let n := c.toNat
  n = 0x09 || n = 0x0A || n = 0x0B || n = 0x0C || n = 0x0D || n = 0x20 || n = 0x85 || n = 0xA0 ||
    n = 0x1680 || (0x2000 ≤ n && n ≤ 0x200A) || n = 0x2028 || n = 0x2029 || n = 0x202F ||
    n = 0x205F || n = 0x3000

/-- Go's `strings.TrimSpace`: white space is cut from the left end, then from
the right end. -/
def trimSpace (s : GoString) : GoString := (s.dropWhile isSpace).rdropWhile isSpace

/-- Go's `strings.TrimPrefix(s, pre)`. -/
def trimPrefix (s pre : GoString) : GoString :=
  if hasPrefix s pre then s.drop pre.length else s

/-- Go's `unicode.ToLower` on the characters that reach it in this program
(see `toLower`): an upper-case ASCII letter is mapped to its lower-case letter,
every other character is kept. -/
def lowerChar (c : Char) : Char :=
  if 65 ≤ c.toNat ∧ c.toNat ≤ 90 then Char.ofNat (c.toNat + 32) else c

/-- Go's `strings.ToLower` on the strings that reach it in this program:
language tags, which the regular expression of `extractCodeBlocks` restricts to
ASCII letters, digits, `_` and `-`. -/
def toLower (s : GoString) : GoString := s.map lowerChar

/-- The number of bytes of the UTF-8 encoding of a string (`len(s)` in Go). -/
def byteLen (s : GoString) : Nat := (s.map Char.utf8Size).sum

/-- The segments of a string between its newline characters. -/
def lines : GoString → List GoString
  | [] => [[]]
  | c :: t =>
    if c = '\n' then [] :: lines t
    else
      match lines t with
      | [] => [[c]]
      | l :: ls => (c :: l) :: ls

/-- The constant `bufio.MaxScanTokenSize`, the size limit of the buffer of a
`bufio.Scanner`. -/
def MaxScanTokenSize : Nat := 64 * 1024

/-- The function `dropCR` of `bufio`: one trailing carriage return is dropped. -/
def dropCR (l : GoString) : GoString :=
  if l.getLast? = some '\r' then l.dropLast else l

/-- The tokens the split function `bufio.ScanLines` cuts a text into: the
segments between newlines, without the last segment when it is empty (nothing
follows the last newline, or the text is empty). -/
def scanTokens (s : GoString) : List GoString :=
  if (lines s).getLast? = some [] then (lines s).dropLast else lines s

/-- The values of `scanner.Text()` in a loop `for scanner.Scan() { ... }`
over `bufio.NewScanner(strings.NewReader(s))`: the lines of `s`, each without
its trailing carriage return, up to the first line that does not fit the
buffer (a line of `MaxScanTokenSize` bytes or more makes `Scan` return false
with `ErrTooLong`, which the loop does not look at). -/
def scanLines (s : GoString) : List GoString :=
  ((scanTokens s).takeWhile (fun l => decide (byteLen l < MaxScanTokenSize))).map dropCR

/-! ## Copilot provider: extracting commands from an answer (`copilot.go`) -/

/-- The character class `[a-zA-Z0-9_-]` of the regular expression. -/
def isLangChar (c : Char) : Bool :=
  let n := c.toNat
  (97 ≤ n && n ≤ 122) || (65 ≤ n && n ≤ 90) || (48 ≤ n && n ≤ 57) || n = 95 || n = 45

/-- The part `(.*?)` followed by the closing fence of the regular expression,
matched as early as possible: the text before the first run of three backticks
and the text after it. -/
def findFence : GoString → Option (GoString × GoString)
  | [] => none
  | c :: t =>
    if hasPrefix (c :: t) "```".toList then some ([], (c :: t).drop 3)
    else
      match findFence t with
      | none => none
      | some (content, rest) => some (c :: content, rest)

/-- A match of the regular expression "(?s)```([a-zA-Z0-9_-]+)?\n(.*?)```" at
the very start of `s`: the two submatches and the text after the match. The
language tag is the longest run of tag characters after the opening fence (a
shorter one cannot be followed by the newline), and the body ends at the first
closing fence. -/
def matchFence (s : GoString) : Option (GoString × GoString × GoString) :=
  if hasPrefix s "```".toList then
    let s1 := s.drop 3
    let lang := s1.takeWhile isLangChar
    match s1.dropWhile isLangChar with
    | c :: s3 =>
      if c = '\n' then
        match findFence s3 with
        | some (content, rest) => some (lang, content, rest)
        | none => none
      else none
    | [] => none
  else none

/-- The successive leftmost matches of the regular expression in `s`
(`re.FindAllStringSubmatch(s, -1)`), as pairs of submatches; every step
consumes a character, so `fuel` above the length of `s` is never used up. -/
def findAllFences : Nat → GoString → List (GoString × GoString)
  | 0, _ => []
  | fuel + 1, s =>
    match matchFence s with
    | some (lang, content, rest) => (lang, content) :: findAllFences fuel rest
    | none =>
      match s with
      | [] => []
      | _ :: t => findAllFences fuel t

/-- The fenced code blocks of an answer: the matches of the regular expression
of `extractCodeBlocks`, as (language tag, body). -/
def fencedBlocks (answer : GoString) : List (GoString × GoString) :=
  findAllFences (answer.length + 1) answer

/-- The struct `codeBlock`. -/
structure codeBlock where
  lang : GoString
  content : GoString
  deriving DecidableEq, Repr

/-- Go's `extractCodeBlocks`. -/
def extractCodeBlocks (answer : GoString) : List codeBlock :=
  (fencedBlocks answer).foldl (fun blocks m =>
    let lang := trimSpace m.1
    let content := trimSpace m.2
    if content = [] then blocks
    else blocks ++ [⟨toLower lang, content⟩]) []

/-- Go's `isShellLang`. -/
def isShellLang (lang : GoString) : Bool :=
  let l := toLower (trimSpace lang)
  l = "sh".toList || l = "bash".toList || l = "zsh".toList || l = "shell".toList

/-- The local state of `extractCommands`: the slice `commands` and the key set
of the map `seen`. -/
structure CommandAcc where
  commands : List GoString
  seen : List GoString
  deriving DecidableEq, Repr

/-- The closure `add` of `extractCommands`. -/
def add (acc : CommandAcc) (cmd : GoString) : CommandAcc :=
  let cmd := trimSpace cmd
  if cmd = [] then acc
  else if cmd ∈ acc.seen then acc
  else ⟨acc.commands ++ [cmd], cmd :: acc.seen⟩

/-- The body of the scanner loop over the lines of one code block. -/
def blockLineStep (isShell : Bool) (acc : CommandAcc) (text : GoString) : CommandAcc :=
  let line := trimSpace text
  if line = [] ∨ hasPrefix line "#".toList then acc
  else if hasPrefix line "$ ".toList then add acc (trimSpace (trimPrefix line "$ ".toList))
  else if hasPrefix line "> ".toList then add acc (trimSpace (trimPrefix line "> ".toList))
  else if isShell then add acc line
  else acc

/-- The body of the scanner loop over the lines of the whole answer. -/
def answerLineStep (acc : CommandAcc) (text : GoString) : CommandAcc :=
  let line := trimSpace text
  let acc :=
    if hasPrefix line "$ ".toList then add acc (trimSpace (trimPrefix line "$ ".toList)) else acc
  let acc :=
    if hasPrefix line "> ".toList then add acc (trimSpace (trimPrefix line "> ".toList)) else acc
  acc

/-- Go's `extractCommands`. `commandRegex` is `some r` when a command regex is
configured and compiled (`commandRegex != nil && commandRegexErr == nil`), `r`
standing for `regexCommands` with that regex. -/
def extractCommands (commandRegex : Option (GoString → List GoString)) (answer : GoString) :
    List GoString :=
  match commandRegex with
  | some regexCommands => regexCommands answer
  | none =>
    let acc : CommandAcc := ⟨[], []⟩
    let acc := (extractCodeBlocks answer).foldl (fun acc block =>
      let content := block.content
      let isShell := isShellLang block.lang
      (scanLines content).foldl (blockLineStep isShell) acc) acc
    let acc := (scanLines answer).foldl answerLineStep acc
    acc.commands

/-- The answer of `TestExtractCommands`. -/
def testAnswer : GoString :=
  "Here are some commands:\n\n```bash\nls -la\necho \"hi\"\n```\n\nThen run:\n$ git status\n".toList

/-! ## Subscription ids (`subscribe` in `handlers/subscriberequesthandler.go`) -/

/-- The package state of `handlers` that `subscribe` works on: the counter
`sid` (an `atomic.Uint32`) and the table `subs`. -/
structure Engine where
  sid : Nat
  subs : Subs
  deriving DecidableEq, Repr

/-- The state after `init`: `sid.Store(100_000_000)` and an empty table. -/
def Engine.init : Engine := ⟨100000000, []⟩

/-- The map assignment `subs[k] = v`. -/
def Subs.set (subs : Subs) (k : Nat) (v : Sub) : Subs :=
  if subs.has k then subs.map (fun e => if e.1 = k then (k, v) else e) else subs ++ [(k, v)]

/-- The arguments of one call of `subscribe`. -/
structure SubscribeArgs where
  format : Byte
  interval : Int
  provider : GoString
  query : GoString
  conn : Conn
  deriving DecidableEq, Repr

/-- Go's `subscribe(format, interval, provider, query, conn)`, run without
interleaving: the new package state, the subscription created, and whether a
`watch` task is started for it. `sid.Add(1)` wraps around at `2 ^ 32`. -/
def subscribe (e : Engine) (a : SubscribeArgs) : Engine × Sub × Bool :=
  let sid := toUint32 (e.sid + 1)
  let sub : Sub := ⟨a.format, sid, a.interval, a.provider, a.query, [], a.conn⟩
  (⟨sid, e.subs.set sub.sid sub⟩, sub, a.interval != 0)

/-- The first `n` subscriptions after `init`, made one after the other, the
`i`-th with arguments `args i`: the package state after them and the
subscription created last (`none` when `n = 0`). -/
def subscribeSeq (args : Nat → SubscribeArgs) : Nat → Engine × Option Sub
  | 0 => (Engine.init, none)
  | n + 1 =>
    let r := subscribe (subscribeSeq args n).1 (args (n + 1))
    (r.1, some r.2.1)

/-! ## Activation handler (`handlers/activationrequesthandler.go`) -/

/-- Modelled from the spec: the status constant `ActivationFinished`, declared
in a file of the package that is not among the sources; the spec gives
ActivationFinished(2). -/
def ActivationFinished : Byte := 2

/-- Go's `strings.Split(s, sep)` for a separator `sep` of one character. -/
def split (s : GoString) (sep : Char) : List GoString :=
  match s with
  | [] => [[]]
  | c :: t =>
    if c = sep then [] :: split t sep
    else
      match split t sep with
      | [] => [[c]]
      | l :: ls => (c :: l) :: ls

/-- The `switch format` at the head of `(*ActivateRequest).Handle`: the
decoded request, `none` when `Unmarshal` returned an error. For a format other
than 0 and 1 nothing is decoded and `req` keeps its zero value. -/
def ActivateRequest.decode (c : Codec) (format : Byte) (data : List Byte) :
    Option ActivateRequestMsg :=
  if format = 0 then c.protoUnmarshalActivate data
  else if format = 1 then c.jsonUnmarshalActivate data
  else some ⟨[], [], [], [], [], false⟩

/-- The provider name `(*ActivateRequest).Handle` looks up in the registry:
`strings.Split(provider, ":")[0]` when the key starts with "menus:". -/
def ActivateRequest.route (provider : GoString) : GoString :=
  if hasPrefix provider "menus:".toList then (split provider ':').headD [] else provider

/-- What the activation handler task does, in order. -/
inductive ActivateEvent where
  /-- The call `p.Activate(...)` returned; `frames` is what the provider wrote
  on the connection meanwhile. -/
  | activated (frames : List (List Byte))
  /-- The handler handed `bytes` to `conn.Write`. -/
  | wrote (bytes : List Byte)
  deriving DecidableEq, Repr

/-- Trace of `(*ActivateRequest).Handle`. -/
structure ActivateRun where
  trace : List ActivateEvent
  exit : HandlerExit
  deriving DecidableEq, Repr

/-- Go's `(*ActivateRequest).Handle`. A failing write is only logged. -/
def ActivateRequest.Handle (c : Codec) (ps : Providers) (format : Byte) (conn : Conn)
    (data : List Byte) : ActivateRun :=
  match ActivateRequest.decode c format data with
  | none => ⟨[], .returned⟩
  | some req =>
    let provider := ActivateRequest.route req.provider
    match ps.indexOk provider with
    | none => ⟨[], .returned⟩
    | some p =>
      match p.Activate with
      | none => ⟨[], .panicked⟩
      | some activate =>
        let frames :=
          activate req.single req.identifier req.action req.query req.arguments format conn
        let buffer := [ActivationFinished] ++ putUint32 (toUint32 0)
        ⟨[.activated frames, .wrote buffer], .returned⟩

/-! ## 32-bit signed integers -/

/-- The conversion `int32(x)`, and the result of an `int32` operation whose
exact value is `x`: reduction into `[-2 ^ 31, 2 ^ 31)`. -/
def toInt32 (x : Int) : Int := (x + 2 ^ 31) % 2 ^ 32 - 2 ^ 31

/-! ## Multi-field scoring (`calcScore` of the providers) -/

/-- The signature of `common.FuzzyScore(query, candidate, exact)`, which is not
among the sources: it returns `(score, positions, start)`, `int32` values. -/
abbrev FuzzyScoreFn := GoString → GoString → Bool → Int × List Int × Int

/-- The local variables of `calcScore`: `scoreRes`, `posRes`, `startRes`,
`match` and `modifier` (`snippets` keeps neither of the last two, `windows`
no `modifier`; for them the field is carried along unused). -/
structure ScoreVars where
  scoreRes : Int
  posRes : List Int
  startRes : Int
  matched : GoString
  modifier : Int
  deriving DecidableEq, Repr

/-- The zero values the variables are declared with. -/
def ScoreVars.zero : ScoreVars := ⟨0, [], 0, [], 0⟩

/-- The loop `for k, v := range toSearch` of `calcScore`, from index `k` on. -/
def rangeToSearch (FuzzyScore : FuzzyScoreFn) (q : GoString) (exact : Bool) :
    Nat → List GoString → ScoreVars → ScoreVars
  | _, [], vars => vars
  | k, v :: rest, vars =>
    let r := FuzzyScore q v exact
    let vars :=
      if r.1 > vars.scoreRes then
        { scoreRes := r.1, posRes := r.2.1, startRes := r.2.2, matched := v,
          modifier := toInt32 k }
      else vars
    rangeToSearch FuzzyScore q exact (k + 1) rest vars

/-- The result tuple of `calcScore`: the matched text, the score, the
positions (nil is the empty list), the start, and whether a field matched. -/
structure ScoreResult where
  matched : GoString
  score : Int
  positions : List Int
  start : Int
  found : Bool
  deriving DecidableEq, Repr

/-- The end of `calcScore` in `menus`, `desktopapplications` (and `bookmarks`,
`niriactions`): `scoreRes = max(scoreRes-min(modifier*5, 50)-startRes, 10)`,
in `int32` arithmetic. -/
def finishWithModifier (vars : ScoreVars) : ScoreResult :=
  if vars.scoreRes = 0 then ⟨[], 0, [], 0, false⟩
  else
    let scoreRes :=
      max (toInt32 (toInt32 (vars.scoreRes - min (toInt32 (vars.modifier * 5)) 50)
        - vars.startRes)) 10
    ⟨vars.matched, scoreRes, vars.posRes, vars.startRes, true⟩

/-- The end of `calcScore` in `snippets` and `windows`:
`scoreRes = max(scoreRes-startRes, 10)`, in `int32` arithmetic. -/
def finishPlain (vars : ScoreVars) : ScoreResult :=
  if vars.scoreRes = 0 then ⟨[], 0, [], 0, false⟩
  else
    let scoreRes := max (toInt32 (vars.scoreRes - vars.startRes)) 10
    ⟨vars.matched, scoreRes, vars.posRes, vars.startRes, true⟩

/-- The struct `common.Entry`, a menu entry (its declaration is not among the
sources): the fields the `menus` provider reads. -/
structure Entry where
  identifier : GoString
  text : GoString
  subtext : GoString
  menu : GoString
  icon : GoString
  state : List GoString
  actions : List (GoString × GoString)
  preview : GoString
  previewType : GoString
  async : GoString
  value : GoString
  keywords : List GoString
  deriving DecidableEq, Repr

/-- Go's `calcScore` of the `menus` provider. -/
def menus.calcScore (FuzzyScore : FuzzyScoreFn) (q : GoString) (d : Entry) (exact : Bool) :
    ScoreResult :=
  let toSearch := [d.text, d.subtext] ++ d.keywords
  finishWithModifier (rangeToSearch FuzzyScore q exact 0 toSearch ScoreVars.zero)

/-- The struct `Data` of `desktopapplications` (its declaration is not among
the sources): the fields `Query`, `calcScore` and `appHasWindow` read. -/
structure Data where
  name : GoString
  exec : GoString
  parent : GoString
  genericName : GoString
  keywords : List GoString
  comment : GoString
  notShowIn : List GoString
  onlyShowIn : List GoString
  hidden : Bool
  noDisplay : Bool
  icon : GoString
  action : GoString
  startupWMClass : GoString
  deriving DecidableEq, Repr

/-- Go's `strings.Join(elems, sep)`. -/
def join (elems : List GoString) (sep : GoString) : GoString :=
  sep.intercalate elems

/-- Go's `calcScore` of the `desktopapplications` provider; `onlySearchTitle`
is `config.OnlySearchTitle`. -/
def desktopapplications.calcScore (FuzzyScore : FuzzyScoreFn) (onlySearchTitle : Bool)
    (q : GoString) (d : Data) (exact : Bool) : ScoreResult :=
  let toSearch :=
    if !onlySearchTitle then
      [d.name, d.exec, d.parent, d.genericName, join d.keywords ",".toList, d.comment]
    else [d.name]
  finishWithModifier (rangeToSearch FuzzyScore q exact 0 toSearch ScoreVars.zero)

/-- The struct `Snippet` of the `snippets` provider. -/
structure Snippet where
  keywords : List GoString
  name : GoString
  content : GoString
  deriving DecidableEq, Repr

/-- Go's `calcScore` of the `snippets` provider, which returns
`(score, positions, start, found)` and no matched text. -/
def snippets.calcScore (FuzzyScore : FuzzyScoreFn) (q : GoString) (d : Snippet) (exact : Bool) :
    Int × List Int × Int × Bool :=
  let toSearch := [d.name] ++ d.keywords
  let r := finishPlain (rangeToSearch FuzzyScore q exact 0 toSearch ScoreVars.zero)
  (r.score, r.positions, r.start, r.found)

/-- The struct `wlr.Window`, restricted to its two string fields. -/
structure Window where
  appID : GoString
  title : GoString
  deriving DecidableEq, Repr

/-- Go's `calcScore` of the `windows` provider. -/
def windows.calcScore (FuzzyScore : FuzzyScoreFn) (q : GoString) (d : Window) (exact : Bool) :
    ScoreResult :=
  let toSearch := [d.title, d.appID]
  finishPlain (rangeToSearch FuzzyScore q exact 0 toSearch ScoreVars.zero)

/-! ## Desktop applications provider: `Query` (`desktopapplications/query.go`) -/

namespace desktopapplications

/-- The struct `DesktopFile`: the embedded `Data` and the `Actions`. -/
structure DesktopFile where
  data : Data
  actions : List Data
  deriving DecidableEq, Repr

/-- The struct `Config` of the provider, restricted to the options `Query` and
`calcScore` read; `minScore` is the embedded `common.Config.MinScore` (an
`int32`), `actionMinScore` is an `int`. -/
structure Config where
  minScore : Int
  actionMinScore : Int
  showActions : Bool
  showGeneric : Bool
  showActionsWithoutQuery : Bool
  history : Bool
  historyWhenEmpty : Bool
  onlySearchTitle : Bool
  aliases : List (GoString × GoString)
  windowIntegration : Bool
  ignorePinWithWindow : Bool
  windowIntegrationIgnoreActions : Bool
  scoreOpenWindows : Bool

/-- What `Query` reads besides its arguments: the package variables `config`,
`files`, `pins` and `desktop`, and the functions declared outside the sources
(`common.FuzzyScore`, `h.CalcUsageScore`, the flag returned by `appHasWindow`,
and the constant `history.ActionDelete`). -/
structure World where
  config : Config
  files : List (GoString × DesktopFile)
  pins : List GoString
  desktop : GoString
  FuzzyScore : FuzzyScoreFn
  CalcUsageScore : GoString → GoString → Int
  appHasWindow : DesktopFile → Bool
  ActionDelete : GoString

def Name : GoString := "desktopapplications".toList
def ActionPin : GoString := "pin".toList
def ActionPinUp : GoString := "pinup".toList
def ActionPinDown : GoString := "pindown".toList
def ActionUnpin : GoString := "unpin".toList
def ActionStart : GoString := "start".toList
def ActionNewInstance : GoString := "new_instance".toList

/-- Go's `slices.Index(s, v)`, `-1` when `v` is not in `s`. -/
def slicesIndex (s : List GoString) (v : GoString) : Int :=
  match s.indexOf? v with
  | some i => (i : Int)
  | none => -1

/-- The actions `pinup` / `pindown` appended for an element at index `i` of
`pins`: `if i != 0 { PinUp }; if i != len(pins)-1 { PinDown }`. -/
def pinMoves (w : World) (i : Int) : List GoString :=
  (if i ≠ 0 then [ActionPinUp] else []) ++
    (if i ≠ (w.pins.length : Int) - 1 then [ActionPinDown] else [])

/-- The variables `score`, `positions`, `fs`, `field`, `subtext` after the
block `if query != "" { ... calcScore ... }`, for the data `d` shown as `name`
with the default subtext `subtext`. -/
structure Scored where
  score : Int
  positions : List Int
  fs : Int
  field : GoString
  subtext : GoString
  deriving DecidableEq, Repr

/-- The block `if query != "" { match, score, positions, fs, ok = calcScore(...);
if ok && match != name { subtext = match; field = "subtext" } }`. -/
def scoreData (w : World) (query : GoString) (exact : Bool) (d : Data) (subtext : GoString) :
    Scored :=
  if query ≠ [] then
    let r := calcScore w.FuzzyScore w.config.onlySearchTitle query d exact
    if r.found && r.matched != d.name then
      ⟨r.score, r.positions, r.start, "subtext".toList, r.matched⟩
    else ⟨r.score, r.positions, r.start, "text".toList, subtext⟩
  else ⟨0, [], 0, "text".toList, subtext⟩

/-- The pin block: `(pinned, score)` after
`if !IgnorePinWithWindow || IgnorePinWithWindow && !hasWindow { if query == "" { ... } }`. -/
def pinScore (w : World) (query : GoString) (hasWindow : Bool) (key : GoString) (score : Int) :
    Bool × Int :=
  if !w.config.ignorePinWithWindow || w.config.ignorePinWithWindow && !hasWindow then
    if query = [] then
      let index := slicesIndex w.pins key
      if index ≠ -1 then (true, toInt32 (1000000 - toInt32 index)) else (false, score)
    else (false, score)
  else (false, score)

/-- The entries `Query` appends for the application `v` stored under key `k`
itself (not for its actions), after the visibility and alias checks. -/
def appEntries (w : World) (query : GoString) (exact : Bool) (k : GoString)
    (v : DesktopFile) : List Item :=
  let c := w.config
  let s := scoreData w query exact v.data v.data.genericName
  let score := s.score
  let useHistory : Bool :=
    c.history && decide (score > c.minScore) || (decide (query = []) && c.historyWhenEmpty)
  let usageScore : Int := if useHistory then w.CalcUsageScore query k else 0
  let score := if useHistory then toInt32 (score + usageScore) else score
  let hasWindow := if c.windowIntegration then w.appHasWindow v else false
  let p := pinScore w query hasWindow k score
  let pinned := p.1
  let score := p.2
  if decide (score ≠ 0) || decide (usageScore ≠ 0) || c.showActions && c.showGeneric ||
      !c.showActions || (c.showActions && decide (v.actions.length = 0)) ||
      decide (query = []) then
    if decide (score ≥ c.minScore) || decide (query = []) then
      let state : List GoString := []
      let a := [ActionStart]
      let a := if c.windowIntegration then a ++ [ActionNewInstance] else a
      let state := if usageScore ≠ 0 then state ++ ["history".toList] else state
      let a := if usageScore ≠ 0 then a ++ [w.ActionDelete] else a
      let state := if pinned then state ++ ["pinned".toList] else state ++ ["unpinned".toList]
      let a :=
        if w.pins.contains k then a ++ [ActionUnpin] ++ pinMoves w (slicesIndex w.pins k)
        else a ++ [ActionPin]
      let score :=
        if decide (query ≠ []) && c.windowIntegration && c.scoreOpenWindows && hasWindow then
          toInt32 (Int.tdiv score 2)
        else score
      [{ identifier := k, text := v.data.name, subtext := s.subtext, icon := v.data.icon,
         provider := Name, score := score, state := state, actions := a, preview := [],
         previewType := [], fuzzy := some ⟨s.field, s.fs, s.positions⟩ }]
    else []
  else []

/-- The entries one iteration of `for _, a := range v.Actions` appends, for
the action `a` of the application `v` stored under key `k`; `aliased` is the
variable `alias` of `Query`. -/
def actionEntries (w : World) (query aliased : GoString) (exact : Bool) (k : GoString)
    (v : DesktopFile) (a : Data) : List Item :=
  let c := w.config
  let identifier := k ++ ":".toList ++ a.action
  let actions := [ActionStart]
  let actions :=
    if c.windowIntegration && !c.windowIntegrationIgnoreActions then actions ++ [ActionNewInstance]
    else actions
  if identifier = aliased then
    [{ identifier := identifier, text := a.name, subtext := v.data.name, icon := a.icon,
       provider := Name, score := 1000000, state := [], actions := actions, preview := [],
       previewType := [], fuzzy := none }]
  else
    let s := scoreData w query exact a v.data.name
    let score := s.score
    if decide (query ≠ []) && decide (c.actionMinScore > 0) && decide (score < c.minScore) then []
    else
      let useHistory : Bool :=
        c.history && (decide (score > c.minScore) || decide (query = []) && c.historyWhenEmpty)
      let usageScore : Int := if useHistory then w.CalcUsageScore query identifier else 0
      let score := if useHistory then toInt32 (score + usageScore) else score
      let hasWindow := if c.windowIntegration then w.appHasWindow v else false
      let p := pinScore w query hasWindow identifier score
      let pinned := p.1
      let score := p.2
      if (decide (query = []) && c.showActionsWithoutQuery) || decide (query ≠ []) ||
          decide (usageScore ≠ 0) || decide (score ≠ 0) then
        if decide (score ≥ c.minScore) || decide (query = []) then
          let state : List GoString := []
          let state := if usageScore ≠ 0 then state ++ ["history".toList] else state
          let actions := if usageScore ≠ 0 then actions ++ [w.ActionDelete] else actions
          let state := if pinned then state ++ ["pinned".toList] else state ++ ["unpinned".toList]
          let actions :=
            if pinned then actions ++ [ActionUnpin] ++ pinMoves w (slicesIndex w.pins identifier)
            else actions ++ [ActionPin]
          [{ identifier := identifier, text := a.name, subtext := s.subtext, icon := a.icon,
             provider := Name, score := score, state := state, actions := actions,
             preview := [], previewType := [], fuzzy := some ⟨s.field, s.fs, s.positions⟩ }]
        else []
      else []

/-- The entries one iteration of `for k, v := range files` appends. -/
def fileEntries (w : World) (query aliased : GoString) (exact : Bool) (k : GoString)
    (v : DesktopFile) : List Item :=
  let c := w.config
  let d := v.data
  if decide (d.notShowIn.length ≠ 0) && d.notShowIn.contains w.desktop ||
      decide (d.onlyShowIn.length ≠ 0) && !d.onlyShowIn.contains w.desktop ||
      d.hidden || d.noDisplay then []
  else if k = aliased then
    let actions := [ActionStart]
    let actions := if c.windowIntegration then actions ++ [ActionNewInstance] else actions
    [{ identifier := k, text := d.name, subtext := d.genericName, icon := d.icon,
       provider := Name, score := 1000000, state := [], actions := actions, preview := [],
       previewType := [], fuzzy := none }]
  else
    appEntries w query exact k v ++
      (if c.showActions then v.actions.flatMap (actionEntries w query aliased exact k v) else [])

/-- Go's `Query(conn, query, _, exact, _)` of the provider. -/
def Query (w : World) (query : GoString) (exact : Bool) : List Item :=
  let aliased := (w.config.aliases.lookup query).getD []
  w.files.flatMap (fun e => fileEntries w query aliased exact e.1 e.2)

end desktopapplications

/-! ## Copilot provider: filtering entries and pruning messages (`copilot.go`) -/

/-- Go's `matchAndScore(entry, query, exact)`: the entry as the call leaves it
(it is updated through the pointer) and the returned flag. `minScore` is
`config.MinScore`. -/
def matchAndScore (FuzzyScore : FuzzyScoreFn) (minScore : Int) (entry : Item) (query : GoString)
    (exact : Bool) : Item × Bool :=
  if query = [] then
    let entry := if entry.score = 0 then { entry with score := 100000 } else entry
    (entry, true)
  else
    let r := FuzzyScore query entry.text exact
    let entry := { entry with score := r.1 }
    let entry := { entry with fuzzy := some ⟨"text".toList, r.2.2, r.2.1⟩ }
    (entry, decide (entry.score > minScore))

/-- The struct `Message`; a `time.Time` is modelled as a number (an instant). -/
structure Message where
  role : GoString
  content : GoString
  time : Int
  deriving DecidableEq, Repr

/-- The struct `Session`. -/
structure Session where
  id : GoString
  name : GoString
  persistent : Bool
  pinned : Bool
  createdAt : Int
  updatedAt : Int
  messages : List Message
  lastAnswer : GoString
  lastCommands : List GoString
  lastError : GoString
  deriving DecidableEq, Repr

/-- Go's slice expression `s[i:]` for `0 ≤ i ≤ len(s)`. -/
def sliceFrom {α : Type} (s : List α) (i : Int) : List α := s.drop i.toNat

/-- Go's `pruneMessages(session)`: the session behind the pointer afterwards
(`none` for a nil pointer). `maxStoredMessages` is `config.MaxStoredMessages`. -/
def pruneMessages (maxStoredMessages : Int) (session : Option Session) : Option Session :=
  match session with
  | none => none
  | some s =>
    if maxStoredMessages ≤ 0 then some s
    else if (s.messages.length : Int) ≤ maxStoredMessages then some s
    else some { s with messages := sliceFrom s.messages (s.messages.length - maxStoredMessages) }

/-! ## Copilot provider: prompt, CLI mode and session pruning (`copilot.go`) -/

/-- The function `isSeparator` of package `strings`: among the ASCII
characters everything but letters, digits and the underscore; outside ASCII
the white space (Go first excludes letters and digits there, none of which is
white space). -/
def isSeparator (c : Char) : Bool :=
  let n := c.toNat
  if n ≤ 0x7F then
    !((48 ≤ n && n ≤ 57) || (97 ≤ n && n ≤ 122) || (65 ≤ n && n ≤ 90) || n = 95)
  else isSpace c

/-- Go's `unicode.ToTitle`: its ASCII branch maps a lower-case letter to the
upper-case one and keeps everything else; outside ASCII it consults the Unicode
tables, taken as the parameter `unicodeToTitle`. -/
def toTitleRune (unicodeToTitle : Char → Char) (c : Char) : Char :=
  if c.toNat ≤ 0x7F then
    if 97 ≤ c.toNat ∧ c.toNat ≤ 122 then Char.ofNat (c.toNat - 32) else c
  else unicodeToTitle c

/-- The mapping of `strings.Title` over the runes of a string, `prev` being the
rune before the current one. -/
def titleFrom (unicodeToTitle : Char → Char) : Char → GoString → GoString
  | _, [] => []
  | prev, r :: t =>
    (if isSeparator prev then toTitleRune unicodeToTitle r else r) ::
      titleFrom unicodeToTitle r t

/-- Go's `strings.Title`: the first rune of every word is mapped to title case. -/
def title (unicodeToTitle : Char → Char) (s : GoString) : GoString :=
  titleFrom unicodeToTitle ' ' s

/-- Go's `unicode.ToLower`: its ASCII branch is `lowerChar`; outside ASCII it
consults the Unicode tables, taken as the parameter `unicodeToLower`. -/
def toLowerRune (unicodeToLower : Char → Char) (c : Char) : Char :=
  if c.toNat ≤ 0x7F then lowerChar c else unicodeToLower c

/-- Go's `strings.ToLower` on an arbitrary string. -/
def toLowerWith (unicodeToLower : Char → Char) (s : GoString) : GoString :=
  s.map (toLowerRune unicodeToLower)

/-- The line `buildPrompt` writes for one message of the history:
`fmt.Sprintf("%s: %s\n", strings.Title(msg.Role), msg.Content)`. -/
def promptLine (unicodeToTitle : Char → Char) (msg : Message) : GoString :=
  title unicodeToTitle msg.role ++ ": ".toList ++ msg.content ++ "\n".toList

/-- Go's `buildPrompt(session, question)`; `systemPrompt` and
`maxContextMessages` are `config.SystemPrompt` and `config.MaxContextMessages`.
The result is `none` when `session` is a nil pointer (`session.Messages`
panics). The function writes to nothing but its string builder. -/
def buildPrompt (unicodeToTitle : Char → Char) (systemPrompt : GoString)
    (maxContextMessages : Int) (session : Option Session) (question : GoString) :
    Option GoString :=
  match session with
  | none => none
  | some session =>
    let b : GoString := if systemPrompt ≠ [] then systemPrompt ++ "\n\n".toList else []
    let history := session.messages
    let history :=
      if maxContextMessages > 0 ∧ (history.length : Int) > maxContextMessages then
        sliceFrom history (history.length - maxContextMessages)
      else history
    let b :=
      if history.length > 0 then
        b ++ "Conversation so far:\n".toList ++ history.flatMap (promptLine unicodeToTitle) ++
          "\n".toList
      else b
    some (b ++ "User: ".toList ++ question ++ "\nAssistant:".toList)

/-- The struct `CopilotState`. -/
structure CopilotState where
  currentSessionID : GoString
  currentSessionPersistent : Bool
  currentModel : GoString
  currentCliMode : GoString
  currentMode : GoString
  deriving DecidableEq, Repr

/-- Go's `effectiveCliMode()`: `cliMode` is `config.CliMode`, `state` the
package variable (a pointer that may be nil), and `hasCopilot`, `hasGh` the
results of the functions of these names (whether `exec.LookPath` finds the
executable). -/
def effectiveCliMode (unicodeToLower : Char → Char) (cliMode : GoString)
    (state : Option CopilotState) (hasCopilot hasGh : Bool) : GoString :=
  let cfgMode := toLowerWith unicodeToLower (trimSpace cliMode)
  if cfgMode = "copilot".toList then
    if hasCopilot then "copilot".toList else []
  else if cfgMode = "gh".toList then
    if hasGh then "gh".toList else []
  else if cfgMode = "both".toList then
    let selected : Option GoString :=
      match state with
      | none => none
      | some st =>
        if st.currentCliMode = "copilot".toList ∨ st.currentCliMode = "gh".toList then
          if st.currentCliMode = "copilot".toList ∧ hasCopilot = true then some "copilot".toList
          else if st.currentCliMode = "gh".toList ∧ hasGh = true then some "gh".toList
          else none
        else none
    match selected with
    | some r => r
    | none =>
      if hasCopilot then "copilot".toList
      else if hasGh then "gh".toList
      else []
  else if cfgMode = "auto".toList ∨ cfgMode = [] then
    if hasCopilot then "copilot".toList
    else if hasGh then "gh".toList
    else []
  else []

/-- The local type `pair` of `pruneSessionsLocked`. -/
structure pair where
  id : GoString
  time : Int
  deriving DecidableEq, Repr

/-- The map `sessions` (`map[string]*Session`), as the list of its entries in
the order a `range` loop visits them. -/
abbrev Sessions := List (GoString × Session)

/-- Go's `delete(sessions, id)`. -/
def Sessions.delete (sessions : Sessions) (id : GoString) : Sessions :=
  sessions.filter (fun e => e.1 != id)

/-- Outcome of `pruneSessionsLocked`: the map afterwards and the ids whose
files are removed, in order. -/
structure Pruned where
  sessions : Sessions
  removed : List GoString

/-- Go's `pruneSessionsLocked()`: `maxSessions` is `config.MaxSessions` and
`sortSlice less l` the slice `sort.Slice` leaves for the slice `l` and the
comparison `less` (the sort is not stable, so it is a parameter). A
`time.Time` is an instant, and `Before` is `<`. -/
def pruneSessionsLocked (sortSlice : (pair → pair → Bool) → List pair → List pair)
    (maxSessions : Int) (sessions : Sessions) : Pruned :=
  if maxSessions ≤ 0 then ⟨sessions, []⟩
  else if (sessions.length : Int) ≤ maxSessions then ⟨sessions, []⟩
  else
    let list : List pair := sessions.map (fun e => ⟨e.1, e.2.updatedAt⟩)
    let list := sortSlice (fun a b => decide (a.time < b.time)) list
    let excess := ((list.length : Int) - maxSessions).toNat
    let ids := (list.take excess).map (fun p => p.id)
    ⟨ids.foldl Sessions.delete sessions, ids⟩

/-! ## Menus provider: `itemToEntry` (`menus/setup.go`) -/

namespace menus

def Name : GoString := "menus".toList
def ActionOpen : GoString := "menus:open".toList
def ActionDefault : GoString := "menus:default".toList

/-- What a call of `itemToEntry` leaves: the item returned, the entry behind
the pointer `me` afterwards, and the shell command of the goroutine it
started, if any. -/
structure Built where
  item : Item
  me : Entry
  async : Option GoString
  deriving DecidableEq, Repr

/-- What the goroutine started for an entry with `Async` does to the item `e`
before it hands it to `handlers.UpdateItem`: `out` is the output of the
command, `none` when the command failed. -/
def asyncItem (e : Item) (out : Option GoString) : Item :=
  match out with
  | some o => { e with text := trimSpace o }
  | none => { e with text := "%DELETE%".toList }

/-- Go's `itemToEntry(format, query, conn, menuActions, namePretty, single,
icon, me)`. The maps `me.Actions` and `menuActions` are lists of entries in
the order a `range` loop visits them. -/
def itemToEntry (menuActions : List (GoString × GoString)) (namePretty : GoString)
    (single : Bool) (icon : GoString) (me : Entry) : Built :=
  let icon := if me.icon ≠ [] then me.icon else icon
  let sub := me.subtext
  let sub :=
    if !single then
      if sub = [] then namePretty else namePretty ++ ": ".toList ++ sub
    else sub
  let actions : List GoString := me.actions.map (fun e => e.1)
  let actions :=
    menuActions.foldl (fun acc e => if !acc.contains e.1 then acc ++ [e.1] else acc) actions
  let actions :=
    if hasPrefix me.identifier "menus:".toList then actions ++ [ActionOpen] else actions
  let actions := if actions.length = 0 then actions ++ [ActionDefault] else actions
  let e : Item :=
    { identifier := me.identifier, text := me.text, subtext := sub,
      provider := Name ++ ":".toList ++ me.menu, icon := icon, state := me.state,
      actions := actions, preview := me.preview, previewType := me.previewType,
      score := 0, fuzzy := none }
  if me.async ≠ [] then ⟨e, { me with value := [] }, some me.async⟩
  else ⟨e, me, none⟩

end menus

/-! ## Client side: `ProviderState` (`client/providerstate.go`) -/

/-- How a run of the client ended. -/
inductive ClientExit where
  /-- The function returned (`break` out of the read loop). -/
  | returned
  /-- A call of `panic` with this message, or a run-time panic. -/
  | panicked (msg : GoString)
  deriving DecidableEq, Repr

/-- One line the client prints. -/
inductive Printed where
  /-- The output of `fmt.Println(resp)`. -/
  | text (resp : ProviderStateResponse)
  /-- The output of `fmt.Println(string(out))` for the JSON encoding `out`. -/
  | json (out : List Byte)
  deriving DecidableEq, Repr

/-- Trace of the read loop of `ProviderState`. -/
structure ClientRun where
  printed : List Printed
  exit : ClientExit
  deriving DecidableEq, Repr

/-- The read loop `for { ... }` of `client.ProviderState` on the bytes `s` the
server sends before it closes the connection; `j` is the flag of that name.
Every pass that goes on consumes at least five bytes, so `fuel` passes are
enough when `fuel` exceeds the length of `s`. -/
def providerStateLoop (c : Codec) (j : Bool) : Nat → List Byte → ClientRun
  | 0, _ => ⟨[], .returned⟩
  | fuel + 1, s =>
    match s with
    | h0 :: b0 :: b1 :: b2 :: b3 :: _ =>
      if h0 = 253 then ⟨[], .returned⟩
      else if h0 ≠ 3 then ⟨[], .panicked "invalid protocol prefix".toList⟩
      else
        let length := (uint32BE [b0, b1, b2, b3]).getD 0
        let size := toUint32 (5 + length)
        match readFull size s with
        | .ok msg rest =>
          if size < 5 then ⟨[], .panicked "slice bounds out of range".toList⟩
          else
            let payload := msg.drop 5
            match c.jsonUnmarshalStateResponse payload with
            | none => ⟨[], .panicked "json.Unmarshal".toList⟩
            | some resp =>
              if !j then
                let r := providerStateLoop c j fuel rest
                ⟨.text resp :: r.printed, r.exit⟩
              else
                match c.jsonMarshalState resp with
                | none => ⟨[], .panicked "json.Marshal".toList⟩
                | some out =>
                  let r := providerStateLoop c j fuel rest
                  ⟨.json out :: r.printed, r.exit⟩
        | _ => ⟨[], .panicked "unexpected EOF".toList⟩
    | _ => ⟨[], .returned⟩

/-- Go's `client.ProviderState(data, j)` from the point where the request has
been written: the run of its read loop on the bytes `s` received. -/
def ProviderState (c : Codec) (j : Bool) (s : List Byte) : ClientRun :=
  providerStateLoop c j (s.length + 1) s

/-- Modelled from the spec: the status byte `StatusDone` (its declaration is
not among the sources): `Done(230)`. -/
def StatusDone : Byte := 230

/-- Modelled from the spec: the frame `writeStatus(StatusDone, conn)` writes
(`writeStatus` is not among the sources): the status byte with length zero
and no payload. -/
def doneFrame : List Byte := [StatusDone, 0, 0, 0, 0]

/-! ## Copilot provider: transcripts (`copilot.go`) -/

/-- Go's `renderTranscript(session, pendingQuestion, pendingAnswer, pendingError)`. -/
def renderTranscript (unicodeToTitle : Char → Char) (session : Option Session)
    (pendingQuestion pendingAnswer pendingError : GoString) : GoString :=
  match session with
  | none => []
  | some session =>
    let b : GoString :=
      session.messages.flatMap
        (fun msg => title unicodeToTitle msg.role ++ ": ".toList ++ msg.content ++ "\n\n".toList)
    let b :=
      if pendingQuestion ≠ [] then b ++ "User: ".toList ++ pendingQuestion ++ "\n\n".toList
      else b
    let b :=
      if pendingAnswer ≠ [] then b ++ "Assistant: ".toList ++ pendingAnswer ++ "\n\n".toList
      else b
    let b :=
      if pendingError ≠ [] then b ++ "Error: ".toList ++ pendingError ++ "\n".toList
      else b
    trimSpace b

/-- The variables of `parseTranscript` its loop works on. -/
structure ParseState where
  messages : List Message
  currentRole : GoString
  buffer : List GoString
  deriving DecidableEq, Repr

/-- The closure `flush` of `parseTranscript`; `now k` is the reading of
`time.Now()` when the message number `k` is appended. -/
def flush (now : Nat → Int) (st : ParseState) : ParseState :=
  if st.currentRole = [] then { st with buffer := [] }
  else
    let text := trimSpace (join st.buffer "\n".toList)
    if text = [] then { st with buffer := [] }
    else
      { st with
        messages := st.messages ++ [⟨toLower st.currentRole, text, now st.messages.length⟩],
        buffer := [] }

/-- Go's `strings.TrimRight(raw, "\r")`. -/
def trimRightCR (raw : GoString) : GoString := raw.rdropWhile (fun c => c == '\r')

/-- One of the four labelled cases of the `switch` in `parseTranscript`. -/
def startRole (now : Nat → Int) (st : ParseState) (role label line : GoString) : ParseState :=
  let st := flush now st
  { st with currentRole := role, buffer := st.buffer ++ [trimSpace (trimPrefix line label)] }

/-- The body of the loop `for _, raw := range lines` of `parseTranscript`. -/
def parseLine (now : Nat → Int) (st : ParseState) (raw : GoString) : ParseState :=
  let line := trimRightCR raw
  if hasPrefix line "User:".toList then startRole now st "user".toList "User:".toList line
  else if hasPrefix line "Assistant:".toList then
    startRole now st "assistant".toList "Assistant:".toList line
  else if hasPrefix line "System:".toList then
    startRole now st "system".toList "System:".toList line
  else if hasPrefix line "Error:".toList then
    startRole now st "error".toList "Error:".toList line
  else { st with buffer := st.buffer ++ [line] }

/-- Go's `parseTranscript(content)`. -/
def parseTranscript (now : Nat → Int) (content : GoString) : List Message :=
  let st := (lines content).foldl (parseLine now) ⟨[], [], []⟩
  let st := flush now st
  st.messages.filter (fun msg => msg.role != "error".toList)

/-! ## Copilot provider: identifiers and the current session (`copilot.go`) -/

def identifierSep : GoString := "::".toList

/-- The first occurrence of a non-empty separator in a string: what precedes
it and what follows it (`strings.Cut`), `none` when it does not occur. -/
def cut (sep : GoString) : GoString → Option (GoString × GoString)
  | [] => none
  | c :: t =>
    if hasPrefix (c :: t) sep then some ([], (c :: t).drop sep.length)
    else (cut sep t).map (fun p => (c :: p.1, p.2))

/-- Go's `splitIdentifier(identifier)`: `strings.SplitN(identifier, "::", 2)`
has two parts exactly when the separator occurs, the text before and the text
after its first occurrence. -/
def splitIdentifier (identifier : GoString) : GoString × GoString :=
  match cut identifierSep identifier with
  | some p => (p.1, p.2)
  | none => (identifier, [])

/-- The decimal number a string of ASCII digits denotes, read after `acc`;
`none` when a character is not a digit. -/
def parseDigits : Nat → GoString → Option Nat
  | acc, [] => some acc
  | acc, c :: t =>
    if 48 ≤ c.toNat ∧ c.toNat ≤ 57 then parseDigits (acc * 10 + (c.toNat - 48)) t else none

/-- Go's `strconv.Atoi(s)` for a 64-bit `int`: an optional sign and at least
one decimal digit, with an error (`none`) for anything else and for a value
outside the range of `int`. -/
def Atoi (s : GoString) : Option Int :=
  let neg := decide (s.head? = some '-')
  let ds := if s.head? = some '-' ∨ s.head? = some '+' then s.drop 1 else s
  if ds = [] then none
  else
    match parseDigits 0 ds with
    | none => none
    | some n =>
      let v : Int := if neg then -(n : Int) else (n : Int)
      if -(2 : Int) ^ 63 ≤ v ∧ v ≤ (2 : Int) ^ 63 - 1 then some v else none

/-- The decimal digits of `n`, most significant first; `fuel` bounds the
number of digits. -/
def formatNatFuel : Nat → Nat → GoString
  | 0, _ => []
  | fuel + 1, n =>
    if n < 10 then [Char.ofNat (48 + n)]
    else formatNatFuel fuel (n / 10) ++ [Char.ofNat (48 + n % 10)]

/-- The text `fmt.Sprintf("%d", n)` gives for a non-negative `n`. -/
def formatNat (n : Nat) : GoString := formatNatFuel (n + 1) n

/-- The package variables `state`, `sessions`, `ephemeral` and
`lastModeChange`. -/
structure Globals where
  state : Option CopilotState
  sessions : Sessions
  ephemeral : Option Session
  lastModeChange : Int

/-- What a call of `newSessionLocked` reads from outside: the value of
`uuid.NewString()`, the reading `now` of the clock, and the text
`now.Format("2006-01-02 15:04")`. -/
structure Fresh where
  uuid : GoString
  now : Int
  stamp : GoString

/-- The session `newSessionLocked(false)` returns; with `persistent` false the
branch that stores and saves the session is not taken. -/
def newTempSession (f : Fresh) : Session :=
  { id := f.uuid, name := "Session ".toList ++ f.stamp, persistent := false, pinned := false,
    createdAt := f.now, updatedAt := f.now, messages := [], lastAnswer := [],
    lastCommands := [], lastError := [] }

/-- The first statement of `currentSession()`: the session found by
`if state != nil && state.CurrentSessionPersistent { if session, ok :=
sessions[state.CurrentSessionID]; ok { return session } }`, if any. -/
def selectedPersistent (g : Globals) : Option Session :=
  match g.state with
  | some st => if st.currentSessionPersistent then g.sessions.lookup st.currentSessionID else none
  | none => none

/-- Go's `currentSession()`: the session returned and the package variables
afterwards. -/
def currentSession (f : Fresh) (g : Globals) : Session × Globals :=
  match selectedPersistent g with
  | some session => (session, g)
  | none =>
    match g.ephemeral with
    | some e => (e, g)
    | none => (newTempSession f, { g with ephemeral := some (newTempSession f) })

/-- Go's `commandByIdentifier(identifier)`: the command returned and the
package variables afterwards. -/
def commandByIdentifier (f : Fresh) (g : Globals) (identifier : GoString) :
    GoString × Globals :=
  let kv := splitIdentifier identifier
  if kv.1 ≠ "cmd".toList then ([], g)
  else
    match Atoi kv.2 with
    | none => ([], g)
    | some index =>
      let cs := currentSession f g
      let session := cs.1
      if index < 0 ∨ index ≥ (session.lastCommands.length : Int) then ([], cs.2)
      else (session.lastCommands.getD index.toNat [], cs.2)

/-! ## Copilot provider: command entries and the sessions menu (`copilot.go`) -/

namespace copilot

def Name : GoString := "copilot".toList
def ActionCopyCommand : GoString := "copy_command".toList
def ActionCopyAll : GoString := "copy_all_commands".toList
def ActionOpenTerminal : GoString := "open_terminal".toList
def ActionNewSession : GoString := "new_session".toList
def ActionNewTemp : GoString := "new_temp_session".toList
def ActionSelectSession : GoString := "select_session".toList
def ActionDeleteSession : GoString := "delete_session".toList
def ActionModeChat : GoString := "mode_chat".toList
def ActionTogglePersist : GoString := "toggle_persist".toList
def ActionTogglePin : GoString := "toggle_pin".toList
def ActionRenameSession : GoString := "rename_session".toList

end copilot

/-- The statement that follows the construction of an entry in
`buildCommandEntries`: `if query != "" { entry.Score = score; append }
else if matchAndScore(entry, query, exact) { append }`; the result is what is
appended. -/
def appendScored (FuzzyScore : FuzzyScoreFn) (minScore : Int) (entry : Item) (score : Int)
    (query : GoString) (exact : Bool) : List Item :=
  if query ≠ [] then [{ entry with score := score }]
  else
    let r := matchAndScore FuzzyScore minScore entry query exact
    if r.2 then [r.1] else []

/-- The entry `buildCommandEntries` constructs for the command `cmd` at index
`i`, before its score is set. -/
def commandEntry (i : Nat) (cmd : GoString) : Item :=
  let display := cmd
  let display := if display.length > 120 then display.take 120 ++ "…".toList else display
  { identifier := "cmd".toList ++ identifierSep ++ formatNat i, text := display,
    subtext := "Command from last answer".toList, icon := "utilities-terminal".toList,
    provider := copilot.Name, score := 0, state := [],
    actions := [copilot.ActionOpenTerminal, copilot.ActionCopyCommand], preview := cmd,
    previewType := "text".toList, fuzzy := none }

/-- The loop `for i, cmd := range session.LastCommands` of
`buildCommandEntries`, from index `i` on. -/
def commandEntriesFrom (FuzzyScore : FuzzyScoreFn) (minScore : Int) (query : GoString)
    (exact : Bool) : Nat → List GoString → List Item
  | _, [] => []
  | i, cmd :: rest =>
    appendScored FuzzyScore minScore (commandEntry i cmd) (toInt32 (800000000 - (i : Int)))
        query exact ++
      commandEntriesFrom FuzzyScore minScore query exact (i + 1) rest

/-- Go's `buildCommandEntries(session, query, exact)`; `none` when `session`
is a nil pointer (the `range session.LastCommands` panics). -/
def buildCommandEntries (FuzzyScore : FuzzyScoreFn) (minScore : Int) (session : Option Session)
    (query : GoString) (exact : Bool) : Option (List Item) :=
  match session with
  | none => none
  | some session =>
    let entries : List Item :=
      if session.lastCommands.length > 0 then
        let allCommands := join session.lastCommands "\n".toList
        let entry : Item :=
          { identifier := "cmd_all".toList, text := "Copy all commands".toList,
            subtext := formatNat session.lastCommands.length ++ " commands".toList,
            icon := "edit-copy".toList, provider := copilot.Name, score := 0, state := [],
            actions := [copilot.ActionCopyAll], preview := allCommands,
            previewType := "text".toList, fuzzy := none }
        appendScored FuzzyScore minScore entry 850000000 query exact
      else []
    some (entries ++ commandEntriesFrom FuzzyScore minScore query exact 0 session.lastCommands)

/-- Insertion of `x` into a sorted list behind the elements that are less. -/
def insertSorted {α : Type} (less : α → α → Bool) (x : α) : List α → List α
  | [] => [x]
  | y :: ys => if less y x then y :: insertSorted less x ys else x :: y :: ys

/-- Go's `sort.SliceStable(l, less)`: the sorted slice in which elements that
compare equal keep their order (which determines it). -/
def sortSliceStable {α : Type} (less : α → α → Bool) (l : List α) : List α :=
  l.foldr (insertSorted less) []

/-- Go's `listSessions()`; `sortSlice less l` is the slice `sort.Slice`
leaves for `l` and `less`. -/
def listSessions (sortSlice : (Session → Session → Bool) → List Session → List Session)
    (g : Globals) : List Session :=
  let result := g.sessions.map (fun e => e.2)
  let result :=
    match g.ephemeral with
    | some e => result ++ [e]
    | none => result
  sortSlice (fun a b => decide (a.updatedAt > b.updatedAt)) result

/-- Go's `isCurrentSession(session)` for a non-nil `session`. -/
def isCurrentSession (g : Globals) (session : Session) : Bool :=
  match g.state with
  | none => false
  | some st =>
    if session.persistent && st.currentSessionPersistent then
      decide (st.currentSessionID = session.id)
    else
      match g.ephemeral with
      | some e =>
        if !session.persistent && !st.currentSessionPersistent then decide (session.id = e.id)
        else false
      | none => false

/-- Go's `sessionSummary(session)` for a non-nil `session`; `rfc822 t` is
`t.Format(time.RFC822)`. -/
def sessionSummary (rfc822 : Int → GoString) (session : Session) : GoString :=
  let kind := if !session.persistent then "temporary".toList else "persistent".toList
  kind ++ " • updated ".toList ++ rfc822 session.updatedAt

/-- The entry `buildSessionsMenu` appends for one session of the list, with
the current value of the variable `score`. -/
def sessionMenuEntry (rfc822 : Int → GoString) (g : Globals) (score : Int) (session : Session) :
    Item :=
  let state : List GoString := []
  let state := if session.pinned then state ++ ["pinned".toList] else state
  let state := if isCurrentSession g session then state ++ ["current".toList] else state
  let state :=
    if session.persistent then state ++ ["saved".toList] else state ++ ["temp".toList]
  { identifier := "session".toList ++ identifierSep ++ session.id, text := session.name,
    subtext := sessionSummary rfc822 session, icon := "user-available".toList,
    provider := copilot.Name, score := score, state := state,
    actions := [copilot.ActionSelectSession, copilot.ActionRenameSession,
      copilot.ActionTogglePin, copilot.ActionDeleteSession, copilot.ActionTogglePersist,
      copilot.ActionModeChat],
    preview := [], previewType := [], fuzzy := none }

/-- The loop `for _, session := range sessionsList` of `buildSessionsMenu`,
`score` being the variable of that name (an `int32`, decremented each time). -/
def sessionMenuEntries (rfc822 : Int → GoString) (g : Globals) : Int → List Session → List Item
  | _, [] => []
  | score, session :: rest =>
    sessionMenuEntry rfc822 g score session ::
      sessionMenuEntries rfc822 g (toInt32 (score - 1)) rest

/-- The four fixed entries at the head of `buildSessionsMenu`. -/
def sessionsMenuHead : List Item :=
  [{ identifier := "mode_chat".toList, text := "Back to chat".toList,
     subtext := "Return to conversation".toList, icon := "go-previous".toList,
     provider := copilot.Name, score := 1000000000, state := [],
     actions := [copilot.ActionModeChat], preview := [], previewType := [], fuzzy := none },
   { identifier := "new_temp_session".toList, text := "New temporary session".toList,
     subtext := "Default (not saved)".toList, icon := "document-new".toList,
     provider := copilot.Name, score := 900000000, state := [],
     actions := [copilot.ActionNewTemp, copilot.ActionModeChat], preview := [],
     previewType := [], fuzzy := none },
   { identifier := "new_session".toList, text := "New persistent session".toList,
     subtext := "Saved to disk".toList, icon := "document-new".toList,
     provider := copilot.Name, score := 899000000, state := [],
     actions := [copilot.ActionNewSession, copilot.ActionModeChat], preview := [],
     previewType := [], fuzzy := none },
   { identifier := "persist_current".toList, text := "Persist current session".toList,
     subtext := "Save the active session to disk".toList, icon := "document-save".toList,
     provider := copilot.Name, score := 898000000, state := [],
     actions := [copilot.ActionTogglePersist, copilot.ActionModeChat], preview := [],
     previewType := [], fuzzy := none }]

/-- Go's `buildSessionsMenu(_, _)`. -/
def buildSessionsMenu (sortSlice : (Session → Session → Bool) → List Session → List Session)
    (rfc822 : Int → GoString) (g : Globals) : List Item :=
  let sessionsList := listSessions sortSlice g
  let sessionsList :=
    sortSliceStable
      (fun a b => if a.pinned != b.pinned then a.pinned else decide (a.updatedAt > b.updatedAt))
      sessionsList
  sessionsMenuHead ++ sessionMenuEntries rfc822 g 700000000 sessionsList

/-- Go's `selectSession(id)`: the package variables afterwards, `none` when
the assignment through the nil pointer `state` panics. -/
def selectSession (g : Globals) (id : GoString) : Option Globals :=
  let eph : Option Session := if id = "ephemeral".toList then g.ephemeral else none
  match eph with
  | some e =>
    match g.state with
    | none => none
    | some st =>
      some { g with
        state := some { st with currentSessionID := e.id, currentSessionPersistent := false } }
  | none =>
    match g.sessions.lookup id with
    | some _ =>
      match g.state with
      | none => none
      | some st =>
        some { g with
          state := some { st with currentSessionID := id, currentSessionPersistent := true } }
    | none => some g

/-- Go's `setMode(mode)`; `now` is the reading of the clock. -/
def setMode (unicodeToLower : Char → Char) (now : Int) (g : Globals) (mode : GoString) :
    Option Globals :=
  let mode := toLowerWith unicodeToLower (trimSpace mode)
  if mode = "chat".toList ∨ mode = "models".toList ∨ mode = "sessions".toList then
    match g.state with
    | none => none
    | some st =>
      if st.currentMode ≠ mode then
        some { g with state := some { st with currentMode := mode }, lastModeChange := now }
      else some g
  else some g

/-- The case `ActionSelectSession` of Go's `Activate`. -/
def activateSelectSession (unicodeToLower : Char → Char) (now : Int) (g : Globals)
    (identifier : GoString) : Option Globals :=
  let kv := splitIdentifier identifier
  if kv.1 ≠ "session".toList then some g
  else
    match selectSession g kv.2 with
    | none => none
    | some g => setMode unicodeToLower now g "chat".toList

/-! ## Sample data used to instantiate the theorems -/

/-- A codec for instantiating theorems: a `SubscribeResponse` is encoded as
the code points of its value (reduced to bytes), and a request payload is
decoded as the string of its bytes (the provider key, for a request with
several fields). -/
def sampleCodec : Codec where
  protoMarshalSubscribe := fun r => r.value.map (fun ch => toByte ch.toNat)
  jsonMarshalSubscribe := fun r => r.value.map (fun ch => toByte ch.toNat)
  protoUnmarshalMenu := fun d => some ⟨d.map (fun b => Char.ofNat b.val)⟩
  jsonUnmarshalMenu := fun d => some ⟨d.map (fun b => Char.ofNat b.val)⟩
  protoUnmarshalState := fun d => some ⟨d.map (fun b => Char.ofNat b.val)⟩
  jsonUnmarshalState := fun d => some ⟨d.map (fun b => Char.ofNat b.val)⟩
  protoMarshalState := fun r => some (r.provider.map (fun ch => toByte ch.toNat))
  jsonMarshalState := fun r => some (r.provider.map (fun ch => toByte ch.toNat))
  jsonUnmarshalStateResponse := fun d => some ⟨d.map (fun b => Char.ofNat b.val), [], []⟩
  protoUnmarshalActivate := fun d => some ⟨d.map (fun b => Char.ofNat b.val), [], [], [], [], false⟩
  jsonUnmarshalActivate := fun d => some ⟨d.map (fun b => Char.ofNat b.val), [], [], [], [], false⟩

/-- An item with the given text and score and nothing else. -/
def sampleItem (text : GoString) (score : Int) : Item :=
  ⟨[], text, [], [], [], score, [], [], [], [], none⟩

/-- A provider whose `Query` returns the given items and whose `State` and
`Activate` are nil. -/
def sampleProvider (items : List Item) : Provider :=
  ⟨none, some (fun _ _ _ _ _ => items), none⟩

/-- An interval subscription (500 ms) with sid 100000001 on connection 7
whose last snapshot is `prev`. -/
def sampleSub (prev : List Item) : Sub :=
  ⟨1, 100000001, 500, "files".toList, "a".toList, prev, 7⟩

/-- The state of the watch task of `sampleSub prev`, registered in the table. -/
def sampleWatch (prev : List Item) : Watch :=
  ⟨1, sampleSub prev, 7, [(100000001, sampleSub prev)]⟩

/-- An event subscription (interval 0, empty query) for `provider` on
connection 9, format JSON. -/
def eventSub (sid : Nat) (provider : GoString) : Sub :=
  ⟨1, sid, 0, provider, [], [], 9⟩

/-! ## The claim of the spec about the snapshot diff, in its words -/

/-- Two items agree on what the diff looks at: icon, text, subtext and score. -/
def SameShown (a b : Item) : Prop :=
  a.icon = b.icon ∧ a.text = b.text ∧ a.subtext = b.subtext ∧ a.score = b.score

instance (a b : Item) : Decidable (SameShown a b) := by
  unfold SameShown
  infer_instance

/-- The diff between the previous snapshot and the new result is non-empty:
the lengths differ, or some position differs in (icon, text, subtext, score). -/
def SnapshotDiffers (prev res : List Item) : Prop :=
  res.length ≠ prev.length ∨
    ∃ k a b, res.get? k = some a ∧ prev.get? k = some b ∧ ¬ SameShown a b

/-- The normalisation of an event value as the spec words it: "menus" if the
value starts with "menus:", "bluetooth" if it starts with "bluetooth:", the
value itself otherwise. -/
def norm (v : GoString) : GoString :=
  if "menus:".toList <+: v then "menus".toList
  else if "bluetooth:".toList <+: v then "bluetooth".toList
  else v

/-! ## The reference of the spec for `extractCommands`, in its words -/

/-- A line with its leading "$ " or "> " stripped, when it has one. -/
def stripPrompt (l : GoString) : Option GoString :=
  if hasPrefix l "$ ".toList then some (l.drop 2)
  else if hasPrefix l "> ".toList then some (l.drop 2)
  else none

/-- The commands of one code block with lines `ls`: of its trimmed non-blank
lines that do not start with '#', a line with a prompt is kept with the prompt
stripped, and any other line is kept as it is only when the block is a shell
block. -/
def blockCommands (isShell : Bool) (ls : List GoString) : List GoString :=
  ((ls.map trimSpace).filter (fun l => decide (l ≠ []) && !hasPrefix l "#".toList)).filterMap
    (fun l =>
      match stripPrompt l with
      | some cmd => some cmd
      | none => if isShell then some l else none)

/-- Only the first occurrence of each element is kept. -/
def firstOccurrences : List GoString → List GoString
  | [] => []
  | a :: l => a :: (firstOccurrences l).filter (fun b => decide (b ≠ a))

/-- The reference of the spec, with its three notions left open: the lines of
the whole answer, the lines of a block body, and when a language tag is a shell
language. The commands of the fenced code blocks, in order, then the lines of
the whole answer that (after trimming) start with a prompt, with the prompt
stripped; each command trimmed, empty ones dropped, first occurrences kept. -/
def commandsReference (answerLines blockLines : GoString → List GoString)
    (isShell : GoString → Bool) (answer : GoString) : List GoString :=
  let blockCmds :=
    (fencedBlocks answer).flatMap (fun b => blockCommands (isShell b.1) (blockLines b.2))
  let lineCmds := ((answerLines answer).map trimSpace).filterMap stripPrompt
  firstOccurrences (((blockCmds ++ lineCmds).map trimSpace).filter (fun cmd => decide (cmd ≠ [])))

/-- The shell language tags: sh, bash, zsh, shell. -/
def shellLangs : List GoString := ["sh".toList, "bash".toList, "zsh".toList, "shell".toList]

/-- The reference as the claim states it: lines are the segments between
newlines, of the answer and of a block body alike, and a block is a shell block
when its language tag is one of sh, bash, zsh, shell. -/
def extractCommandsRef (answer : GoString) : List GoString :=
  commandsReference lines lines (fun lang => decide (lang ∈ shellLangs)) answer

/-- The segments between newlines up to the first one of `MaxScanTokenSize`
bytes or more. -/
def shortLines (s : GoString) : List GoString :=
  (lines s).takeWhile (fun l => decide (byteLen l < MaxScanTokenSize))

/-- The reference as amended: lines are read up to the first line of 64 KiB
or more, the lines of a block are those of its trimmed body, and a block is a
shell block when its language tag, lower-cased, is one of sh, bash, zsh,
shell. -/
def extractCommandsSpec (answer : GoString) : List GoString :=
  commandsReference shortLines (fun body => shortLines (trimSpace body))
    (fun lang => decide (toLower lang ∈ shellLangs)) answer

/-! ## Auxiliary definitions for the proofs about `extractCommands` -/

/-- The command, if any, that the loop body `blockLineStep` passes to `add`
for a trimmed line. -/
def blockCand (isShell : Bool) (line : GoString) : Option GoString :=
  if line = [] ∨ hasPrefix line "#".toList then none
  else if hasPrefix line "$ ".toList then some (trimSpace (trimPrefix line "$ ".toList))
  else if hasPrefix line "> ".toList then some (trimSpace (trimPrefix line "> ".toList))
  else if isShell then some line
  else none

/-- The command, if any, that the loop body `answerLineStep` passes to `add`
for a trimmed line. -/
def answerCand (line : GoString) : Option GoString :=
  if hasPrefix line "$ ".toList then some (trimSpace (trimPrefix line "$ ".toList))
  else if hasPrefix line "> ".toList then some (trimSpace (trimPrefix line "> ".toList))
  else none

/-- The command, if any, that `blockCommands` keeps for a trimmed line. -/
def blockKeep (isShell : Bool) (l : GoString) : Option GoString :=
  if (decide (l ≠ []) && !hasPrefix l "#".toList) = true then
    match stripPrompt l with
    | some cmd => some cmd
    | none => if isShell then some l else none
  else none

/-- The block `extractCodeBlocks` appends for one match, if any. -/
def matchBlock (m : GoString × GoString) : Option codeBlock :=
  if trimSpace m.2 = [] then none else some ⟨toLower (trimSpace m.1), trimSpace m.2⟩


/-! ## Response frames as the spec lays them out -/

/-- A response frame as the spec gives it: `status(1) | length(4 BE) |
payload(length)`. -/
def responseFrame (status : Byte) (payload : List Byte) : List Byte :=
  [status] ++ putUint32 (toUint32 payload.length) ++ payload

/-- Reading one response frame off a byte stream by that layout: the status,
the payload, and the rest of the stream. -/
def readResponse (s : List Byte) : Option (Byte × List Byte × List Byte) :=
  match s with
  | status :: b0 :: b1 :: b2 :: b3 :: rest =>
    match uint32BE [b0, b1, b2, b3] with
    | some l => if l ≤ rest.length then some (status, rest.take l, rest.drop l) else none
    | none => none
  | _ => none

/-- The routing of a provider key as the spec words it: the entry "menus"
when the key starts with "menus:", the entry named by the key otherwise. -/
def routeSpec (k : GoString) : GoString :=
  if "menus:".toList <+: k then "menus".toList else k

/-! ## More sample data -/

/-- Arguments of a sample event subscription for provider "files". -/
def sampleArgs : SubscribeArgs := ⟨1, 0, "files".toList, [], 7⟩

/-- A provider that has all three functions: `State` returns the given
response, `Query` nothing, and `Activate` writes nothing. -/
def fullProvider (res : ProviderStateResponse) : Provider :=
  ⟨some (fun _ => some res), some (fun _ _ _ _ _ => []), some (fun _ _ _ _ _ _ _ => [])⟩

/-- A scorer for instantiating theorems: the score of a candidate is five
times its length when the query is a prefix of it and 0 otherwise, with no
positions and start 0. -/
def sampleScore : FuzzyScoreFn :=
  fun q v _ => (if q.isPrefixOf v then 5 * (v.length : Int) else 0, [], 0)

/-- A menu entry with the given text, subtext and keywords. -/
def sampleEntry (text subtext : GoString) (keywords : List GoString) : Entry :=
  ⟨[], text, subtext, [], [], [], [], [], [], [], [], keywords⟩

/-- A desktop entry (application or action) with the given name and action id. -/
def sampleData (name action : GoString) : Data :=
  ⟨name, [], [], [], [], [], [], [], false, false, [], action, []⟩

/-- A configuration of the desktop applications provider with `min_score` 30
(the default of `Setup`), window integration off, and the given
`action_min_score`, `history`, `history_when_empty` and `show_actions`. -/
def sampleConfig (actionMinScore : Int) (history historyWhenEmpty showActions : Bool) :
    desktopapplications.Config :=
  { minScore := 30, actionMinScore := actionMinScore, showActions := showActions,
    showGeneric := true,
    showActionsWithoutQuery := false, history := history, historyWhenEmpty := historyWhenEmpty,
    onlySearchTitle := true, aliases := [], windowIntegration := false,
    ignorePinWithWindow := true, windowIntegrationIgnoreActions := true,
    scoreOpenWindows := true }

/-- A world of the desktop applications provider with one application,
"firefox" (named "Firefox"), that has two actions, "incognito" (named
"Incog") and "private" (named "Private"): nothing is pinned, the usage score
of every identifier is 5, and the scorer is `sampleScore`. -/
def sampleWorld (c : desktopapplications.Config) : desktopapplications.World :=
  { config := c,
    files := [("firefox".toList,
      ⟨sampleData "Firefox".toList [],
        [sampleData "Incog".toList "incognito".toList,
         sampleData "Private".toList "private".toList]⟩)],
    pins := [], desktop := [], FuzzyScore := sampleScore,
    CalcUsageScore := fun _ _ => 5, appHasWindow := fun _ => false,
    ActionDelete := "erase_history".toList }

/-- A chat message with the given content. -/
def sampleMessage (content : GoString) : Message := ⟨"user".toList, content, 0⟩

/-- A session with the given messages and nothing else. -/
def sampleSession (messages : List Message) : Session :=
  ⟨"s1".toList, [], false, false, 0, 0, messages, [], [], []⟩

/-! ## The multi-field score adjustment: the program's arithmetic and the spec's formula -/

/-- The score the program computes for a raw score `s` found in the field at
index `k` with start offset `st`: the expression
`max(scoreRes-min(modifier*5, 50)-startRes, 10)` of `calcScore` with
`modifier = int32(k)`, every operation wrapping around as `int32` operations
do. -/
def adjustedScore (s : Int) (k : Nat) (st : Int) : Int :=
  max (toInt32 (toInt32 (s - min (toInt32 (toInt32 k * 5)) 50) - st)) 10

/-- The adjustment as the spec words it, over the integers:
`max(s - min(5k, 50) - st, 10)`. -/
def scoreFormula (s : Int) (k : Nat) (st : Int) : Int :=
  max (s - min (5 * (k : Int)) 50 - st) 10

/-- No operation of the adjustment leaves the range of `int32`: the raw score
and `5k` fit, and so does `s - min(5k, 50) - st`. -/
def ScoreFits (s : Int) (k : Nat) (st : Int) : Prop :=
  s < 2 ^ 31 ∧ 5 * (k : Int) < 2 ^ 31 ∧
    -2 ^ 31 ≤ s - min (5 * (k : Int)) 50 - st ∧ s - min (5 * (k : Int)) 50 - st < 2 ^ 31

/-- A scorer for instantiating theorems: the candidate "abc" scores 1 with
start offset 2147483647, every other candidate scores 0. -/
def overflowScore : FuzzyScoreFn :=
  fun _ v _ => if v = "abc".toList then (1, [], 2147483647) else (0, [], 0)

/-- The result `r` is the multi-field result for the searched fields `ts` in
the program's arithmetic: not found when no field scores above 0; otherwise,
with `s` the maximum per-field score, `k` the first index attaining it, `v`
that field and `pos`, `st` its positions and start, the result is `v`, the
score `adjustedScore s k st`, `pos`, `st` and true; and a found result has a
score of at least 10. -/
def IsMultiFieldResult (FuzzyScore : FuzzyScoreFn) (q : GoString) (exact : Bool)
    (ts : List GoString) (r : ScoreResult) : Prop :=
  ((∀ u ∈ ts, (FuzzyScore q u exact).1 ≤ 0) → r = ⟨[], 0, [], 0, false⟩) ∧
  (∀ (k : Nat) (v : GoString) (s : Int) (pos : List Int) (st : Int),
    ts.get? k = some v → FuzzyScore q v exact = (s, pos, st) → 0 < s →
    (∀ j u, ts.get? j = some u → (FuzzyScore q u exact).1 ≤ s) →
    (∀ j u, j < k → ts.get? j = some u → (FuzzyScore q u exact).1 < s) →
    r = ⟨v, adjustedScore s k st, pos, st, true⟩) ∧
  (r.found = true → 10 ≤ r.score)

/-- The result `r` is the multi-field result of the spec for the searched
fields `ts`, as far as the arithmetic stays in range: as `IsMultiFieldResult`,
with the score `max(s - min(5k, 50) - st, 10)` of the spec's formula whenever
`ScoreFits s k st`. -/
def IsMultiFieldFormulaResult (FuzzyScore : FuzzyScoreFn) (q : GoString) (exact : Bool)
    (ts : List GoString) (r : ScoreResult) : Prop :=
  ((∀ u ∈ ts, (FuzzyScore q u exact).1 ≤ 0) → r = ⟨[], 0, [], 0, false⟩) ∧
  (∀ (k : Nat) (v : GoString) (s : Int) (pos : List Int) (st : Int),
    ts.get? k = some v → FuzzyScore q v exact = (s, pos, st) → 0 < s →
    (∀ j u, ts.get? j = some u → (FuzzyScore q u exact).1 ≤ s) →
    (∀ j u, j < k → ts.get? j = some u → (FuzzyScore q u exact).1 < s) →
    ScoreFits s k st →
    r = ⟨v, scoreFormula s k st, pos, st, true⟩) ∧
  (r.found = true → 10 ≤ r.score)

/-! ## The prompt and the CLI mode as the claims word them -/

/-- The messages of a history that go into the prompt: the last `min(n, c)`
of its `n` messages when `c > 0`, all of them otherwise. -/
def contextMessages (c : Int) (ms : List Message) : List Message :=
  if c > 0 then ms.drop (ms.length - min ms.length c.toNat) else ms

/-- The conversation section of a prompt: nothing for an empty history,
otherwise the heading, one line per message and an empty line. -/
def conversationSection (unicodeToTitle : Char → Char) (c : Int) (ms : List Message) :
    GoString :=
  if ms = [] then []
  else
    "Conversation so far:\n".toList ++
      (contextMessages c ms).flatMap
        (fun m => title unicodeToTitle m.role ++ ": ".toList ++ m.content ++ "\n".toList) ++
      "\n".toList

/-- The decision table of the CLI mode: `mode` is `cli_mode`, lower-cased and
trimmed, `selected` the CLI selected in the state (if there is a state), and
the two flags say whether `copilot` and `gh` are installed. -/
def cliModeTable (mode : GoString) (selected : Option GoString)
    (copilotInstalled ghInstalled : Bool) : GoString :=
  let firstInstalled : GoString :=
    if copilotInstalled then "copilot".toList
    else if ghInstalled then "gh".toList
    else []
  if mode = "copilot".toList then (if copilotInstalled then "copilot".toList else [])
  else if mode = "gh".toList then (if ghInstalled then "gh".toList else [])
  else if mode = "both".toList then
    if selected = some "copilot".toList ∧ copilotInstalled = true then "copilot".toList
    else if selected = some "gh".toList ∧ ghInstalled = true then "gh".toList
    else firstInstalled
  else if mode = "auto".toList ∨ mode = [] then firstInstalled
  else []

/-! ## Sample sessions -/

/-- A persistent session with the given id and time of last update. -/
def storedSession (id : GoString) (updatedAt : Int) : Session :=
  ⟨id, "Session".toList, true, false, 0, updatedAt, [], [], [], []⟩

/-- A map of three stored sessions, last updated at 1 ("a"), 7 ("b") and 4 ("c"). -/
def sampleSessions : Sessions :=
  [("a".toList, storedSession "a".toList 1), ("b".toList, storedSession "b".toList 7),
   ("c".toList, storedSession "c".toList 4)]

/-! ## The transcript round trip as the claim words it -/

/-- The labels that start a message in a transcript. -/
def transcriptLabels : List GoString :=
  ["User:".toList, "Assistant:".toList, "System:".toList, "Error:".toList]

/-- The conditions the round trip puts on a message: a role in {user,
assistant, system} and a content that is non-empty, equal to its own
white-space trim, free of carriage returns and without a line that begins
with one of the labels. -/
def RoundTripMessage (m : Message) : Prop :=
  m.role ∈ ["user".toList, "assistant".toList, "system".toList] ∧
  m.content ≠ [] ∧ trimSpace m.content = m.content ∧ '\r' ∉ m.content ∧
  ∀ l ∈ lines m.content, ∀ label ∈ transcriptLabels, hasPrefix l label = false

instance (m : Message) : Decidable (RoundTripMessage m) := by
  unfold RoundTripMessage
  infer_instance

/-- The first line of the content of a message does not end in white space. -/
def FirstLineTrimmed (m : Message) : Prop :=
  trimSpace ((lines m.content).headD []) = (lines m.content).headD []

instance (m : Message) : Decidable (FirstLineTrimmed m) := by
  unfold FirstLineTrimmed
  infer_instance

/-- The (role, content) pairs of a list of messages. -/
def rolesAndContents (ms : List Message) : List (GoString × GoString) :=
  ms.map (fun m => (m.role, m.content))

/-- One message as `renderTranscript` writes it, without the two newlines
that follow it. -/
def transcriptEntry (unicodeToTitle : Char → Char) (m : Message) : GoString :=
  title unicodeToTitle m.role ++ ": ".toList ++ m.content

/-- The messages as `renderTranscript` writes them, separated by empty lines. -/
def transcriptText (unicodeToTitle : Char → Char) : List Message → GoString
  | [] => []
  | [m] => transcriptEntry unicodeToTitle m
  | m :: m2 :: rest =>
    transcriptEntry unicodeToTitle m ++ "\n\n".toList ++ transcriptText unicodeToTitle (m2 :: rest)

/-- A temporary session whose last answer suggested two commands. -/
def commandSession : Session :=
  { sampleSession [] with lastCommands := ["ls -la".toList, "git status".toList] }

/-- Package variables in which `commandSession` is the current session: it is
the temporary one and no persistent session is selected. -/
def commandGlobals : Globals :=
  ⟨some ⟨[], false, [], "copilot".toList, "chat".toList⟩, [], some commandSession, 0⟩

/-- A temporary session with the given id and time of last update. -/
def tempSession (id : GoString) (updatedAt : Int) : Session :=
  ⟨id, "Scratch".toList, false, false, 0, updatedAt, [], [], [], []⟩

/-- Package variables with one stored session "p1", which is the current
session, and the temporary session "e1". -/
def menuGlobals : Globals :=
  ⟨some ⟨"p1".toList, true, [], "copilot".toList, "sessions".toList⟩,
    [("p1".toList, storedSession "p1".toList 5)], some (tempSession "e1".toList 3), 0⟩
/-! ## Theorems: wire codec and dispatcher -/

theorem uint32BE_putUint32 (v : Nat) (h : v < 2 ^ 32) : uint32BE (putUint32 v) = some v := by
  simp only [putUint32, uint32BE, toByte, Option.some.injEq]
  omega

theorem readFull_append (p rest : List Byte) : readFull p.length (p ++ rest) = .ok p rest := by
  unfold readFull
  by_cases h : p.length = 0
  · have : p = [] := List.length_eq_zero.mp h
    subst this
    simp
  · simp [h]

theorem readFull_one_cons (b : Byte) (s : List Byte) : readFull 1 (b :: s) = .ok [b] s := by
  simp [readFull]

theorem readFull_four_cons (a b c d : Byte) (s : List Byte) :
    readFull 4 (a :: b :: c :: d :: s) = .ok [a, b, c, d] s := by
  simp [readFull]

theorem readFrame_requestFrame_aux (t f : Byte) (p rest : List Byte) (h : p.length < 2 ^ 32) :
    readFrame (requestFrame t f p ++ rest) = .frame t.val f p rest := by
  have hl : toUint32 p.length = p.length := Nat.mod_eq_of_lt h
  have hu := uint32BE_putUint32 p.length h
  simp only [putUint32] at hu
  simp only [requestFrame, hl, putUint32, List.cons_append, List.nil_append, List.append_assoc,
    readFrame, readFull_one_cons, readFull_four_cons, List.headD_cons, hu, readFull_append]

/-- C1. Request frame round trip: the bytes the client writes for type byte
`t`, format byte `f` and a payload `p` shorter than `2 ^ 32` bytes
(`requestFrame`, of which the frames of `client.Query` and
`client.ProviderState` are the instances with `t = 0` and `t = 4`, `f = 1`),
followed by any further input `rest`, are read by one iteration of the read
loop of `comm.handle` as exactly `(t, f, p)`, leaving exactly `rest` unread. -/
theorem request_frame_round_trip (t f : Byte) (p rest : List Byte) (h : p.length < 2 ^ 32) :
    readFrame (requestFrame t f p ++ rest) = .frame t.val f p rest ∧
    readFrame (queryFrame p ++ rest) = .frame 0 1 p rest ∧
    readFrame (providerStateFrame p ++ rest) = .frame 4 1 p rest :=
  ⟨readFrame_requestFrame_aux t f p rest h, readFrame_requestFrame_aux 0 1 p rest h,
    readFrame_requestFrame_aux 4 1 p rest h⟩

theorem request_frame_round_trip_witness :
    ([0x7b, 0x7d] : List Byte).length < 2 ^ 32 ∧
    (readFrame (requestFrame 2 1 [0x7b, 0x7d] ++ [9]) = .frame (2 : Byte).val 1 [0x7b, 0x7d] [9] ∧
     readFrame (queryFrame [0x7b, 0x7d] ++ [9]) = .frame 0 1 [0x7b, 0x7d] [9] ∧
     readFrame (providerStateFrame [0x7b, 0x7d] ++ [9]) = .frame 4 1 [0x7b, 0x7d] [9]) :=
  ⟨by decide, request_frame_round_trip 2 1 [0x7b, 0x7d] [9] (by decide)⟩

theorem lookupHandler_none (t : Nat) (h : 5 ≤ t) : lookupHandler t = none := by
  have h0 : (0 : Nat) ≠ t := by omega
  have h1 : (1 : Nat) ≠ t := by omega
  have h2 : (2 : Nat) ≠ t := by omega
  have h3 : (3 : Nat) ≠ t := by omega
  have h4 : (4 : Nat) ≠ t := by omega
  simp only [lookupHandler, registry, QueryRequestHandlerPos, ActivateRequestHandlerPos,
    SubscribeRequestHandlerPos, MenuRequestHandlerPos, StateRequestHandlerPos,
    List.get?_eq_getElem?, List.getElem?_set_ne h0, List.getElem?_set_ne h1,
    List.getElem?_set_ne h2, List.getElem?_set_ne h3, List.getElem?_set_ne h4,
    List.getElem?_replicate]
  split <;> simp_all

/-- C9 (the code at the failing inputs). A request frame whose type byte is
5 or more makes the connection task of `comm.handle` panic at the dispatch
statement: `registry[mType]` is a nil interface for 5..254 and out of range for
255. No handler is started for the frame, the rest of the input is not read,
and the task does not end by closing the connection and returning. -/
theorem handle_unknown_type_panics (t f : Byte) (p rest : List Byte)
    (ht : 5 ≤ t.val) (h : p.length < 2 ^ 32) :
    handle (requestFrame t f p ++ rest) = ⟨[], .panicked⟩ := by
  simp only [handle, handleLoop, readFrame_requestFrame_aux t f p rest h, lookupHandler_none t.val ht]

theorem handle_unknown_type_panics_witness :
    handle (requestFrame 5 1 [] ++ []) = ⟨[], .panicked⟩ ∧
    handle (requestFrame 255 0 [1, 2] ++ requestFrame 0 1 []) = ⟨[], .panicked⟩ :=
  ⟨handle_unknown_type_panics 5 1 [] [] (by decide) (by decide),
   handle_unknown_type_panics 255 0 [1, 2] (requestFrame 0 1 []) (by decide) (by decide)⟩

/-! ## Theorems: state handler -/

/-- C10 (the code at the failing inputs). For a ProviderState request that
decodes to a provider key whose routed name is not in the registry, the state
handler calls the nil `State` function of the zero `Provider`: the task
panics and nothing is written, neither a state item nor a status frame. -/
theorem state_handler_absent_provider_panics (c : Codec) (ps : Providers) (writeOk : Bool)
    (statusDone : List Byte) (format : Byte) (data : List Byte) (req : ProviderStateRequest)
    (hreq : StateRequest.decode c format data = some req)
    (habsent : ps.indexOk (StateRequest.route req.provider) = none) :
    StateRequest.Handle c ps writeOk statusDone format data = ⟨[], .panicked⟩ := by
  simp only [Providers.indexOk] at habsent
  simp [StateRequest.Handle, hreq, Providers.index, habsent, Provider.zero]

theorem state_handler_absent_provider_panics_witness :
    StateRequest.Handle sampleCodec [("files".toList, sampleProvider [])] true [230, 0, 0, 0, 0] 1
      [110, 111, 110, 101] = ⟨[], .panicked⟩ :=
  state_handler_absent_provider_panics sampleCodec [("files".toList, sampleProvider [])] true
    [230, 0, 0, 0, 0] 1 [110, 111, 110, 101] ⟨"none".toList⟩ (by decide) (by rfl)

/-! ## Theorems: subscription engine -/

theorem equals_iff (a b : Item) : equals a b = true ↔ SameShown a b := by
  unfold equals SameShown
  by_cases h : a.icon ≠ b.icon ∨ a.text ≠ b.text ∨ a.subtext ≠ b.subtext ∨ a.score ≠ b.score
  · simp only [h, if_true]
    constructor
    · intro h'; cases h'
    · rintro ⟨h1, h2, h3, h4⟩
      rcases h with h | h | h | h <;> contradiction
  · simp only [h, if_false, true_iff]
    simp only [not_or, not_not] at h
    exact h

/-- C6. The element comparison of the subscription diff, `equals a b`, is
true if and only if `a` and `b` have the same icon, text, subtext and score;
replacing every other field of either item (identifier, provider, state,
actions, preview, preview type, fuzzy info) does not change its result. -/
theorem equals_compares_shown_fields (a b : Item) :
    (equals a b = true ↔
      a.icon = b.icon ∧ a.text = b.text ∧ a.subtext = b.subtext ∧ a.score = b.score) ∧
    ∀ (identifier provider preview previewType : GoString) (state actions : List GoString)
      (fuzzy : Option FuzzyInfo),
      equals { a with identifier := identifier, provider := provider, state := state,
                      actions := actions, preview := preview, previewType := previewType,
                      fuzzy := fuzzy } b = equals a b ∧
      equals a { b with identifier := identifier, provider := provider, state := state,
                        actions := actions, preview := preview, previewType := previewType,
                        fuzzy := fuzzy } = equals a b :=
  ⟨equals_iff a b, fun _ _ _ _ _ _ _ => ⟨rfl, rfl⟩⟩

theorem rangeDiff_false_of_same : ∀ (res old : List Item), res.length = old.length →
    (∀ k a b, res.get? k = some a → old.get? k = some b → SameShown a b) →
    rangeDiff res old = some false
  | [], _, _, _ => rfl
  | v :: res, [], h, _ => by simp at h
  | v :: res, o :: old, h, hs => by
    have h0 : equals v o = true := (equals_iff v o).mpr (hs 0 v o rfl rfl)
    have ih := rangeDiff_false_of_same res old (by simpa using h)
      (fun k a b ha hb => hs (k + 1) a b (by simpa using ha) (by simpa using hb))
    simp [rangeDiff, h0, ih]

theorem rangeDiff_true_of_differ : ∀ (res old : List Item), res.length = old.length →
    (∃ k a b, res.get? k = some a ∧ old.get? k = some b ∧ ¬ SameShown a b) →
    rangeDiff res old = some true
  | [], _, _, ⟨k, a, b, ha, _, _⟩ => by simp at ha
  | v :: res, [], h, _ => by simp at h
  | v :: res, o :: old, h, ⟨k, a, b, ha, hb, hne⟩ => by
    by_cases h0 : equals v o = true
    · cases k with
      | zero =>
        simp only [List.get?_cons_zero, Option.some.injEq] at ha hb
        subst ha hb
        exact absurd ((equals_iff _ _).mp h0) hne
      | succ k =>
        have ih := rangeDiff_true_of_differ res old (by simpa using h)
          ⟨k, a, b, by simpa using ha, by simpa using hb, hne⟩
        simp [rangeDiff, h0, ih]
    · simp [rangeDiff, h0]

theorem fireUpdate_writes (c : Codec) (ok : Bool) (w : Watch) (res : List Item) :
    (fireUpdate c ok w res).writes = [updatedFrame c w.format w.conn []] := by
  unfold fireUpdate
  cases ok <;> simp [updated]

theorem watchTick_writes_le_one (c : Codec) (p : Provider) (sortFunc : List Item → List Item)
    (ok : Bool) (w : Watch) : (watchTick c p sortFunc ok w).writes.length ≤ 1 := by
  unfold watchTick
  split
  · simp
  · split
    · simp
    · dsimp only
      split
      · split
        · simp [fireUpdate_writes]
        · split <;> simp [fireUpdate_writes]
      · simp

theorem Subs.has_iff (subs : Subs) (k : Nat) :
    subs.has k = true ↔ k ∈ subs.map Prod.fst := by
  induction subs with
  | nil => simp [Subs.has]
  | cons e t ih =>
    obtain ⟨k', v⟩ := e
    simp only [Subs.has] at ih
    by_cases hk : k = k'
    · simp [Subs.has, List.lookup_cons, hk]
    · have hne : (k == k') = false := by simpa using hk
      simp [Subs.has, List.lookup_cons, hne, hk, ih]

theorem Subs.keys_storeResults (subs : Subs) (sid : Nat) (res : List Item) :
    (subs.storeResults sid res).map Prod.fst = subs.map Prod.fst := by
  simp only [Subs.storeResults, List.map_map]
  apply List.map_congr_left
  intro e _
  simp only [Function.comp]
  split <;> rfl

theorem Subs.has_storeResults (subs : Subs) (sid k : Nat) (res : List Item) :
    (subs.storeResults sid res).has k = subs.has k := by
  rw [Bool.eq_iff_iff, Subs.has_iff, Subs.has_iff, Subs.keys_storeResults]

theorem Subs.mem_keys_delete (subs : Subs) (sid k : Nat) :
    k ∈ (subs.delete sid).map Prod.fst ↔ k ∈ subs.map Prod.fst ∧ k ≠ sid := by
  simp only [Subs.delete, List.mem_map, List.mem_filter, bne_iff_ne, ne_eq]
  constructor
  · rintro ⟨e, ⟨he, hne⟩, rfl⟩
    exact ⟨⟨e, he, rfl⟩, hne⟩
  · rintro ⟨⟨e, he, rfl⟩, hne⟩
    exact ⟨e, ⟨he, hne⟩, rfl⟩

theorem Subs.has_delete_self (subs : Subs) (sid : Nat) : (subs.delete sid).has sid = false := by
  rw [← Bool.not_eq_true, Subs.has_iff, Subs.mem_keys_delete]
  simp

theorem watchTick_fire_of_writes (c : Codec) (p : Provider) (sortFunc : List Item → List Item)
    (ok : Bool) (w : Watch) (hw : (watchTick c p sortFunc ok w).writes ≠ []) :
    w.subs.has w.s.sid = true ∧ ∃ res, watchTick c p sortFunc ok w = fireUpdate c ok w res := by
  unfold watchTick at hw ⊢
  split at hw
  · simp at hw
  · rename_i hhas
    have hhas' : w.subs.has w.s.sid = true := by simpa using hhas
    refine ⟨hhas', ?_⟩
    simp only [hhas', Bool.not_true, Bool.false_eq_true, if_false]
    split at hw
    · simp at hw
    · rename_i query hq
      dsimp only at hw ⊢
      split at hw
      · split at hw
        · rename_i h1 h2
          refine ⟨sortFunc (query w.conn w.s.query true false w.format), ?_⟩
          rw [if_pos h1, if_pos h2]
        · rename_i h1 h2
          split at hw
          · simp at hw
          · rename_i h3
            refine ⟨sortFunc (query w.conn w.s.query true false w.format), ?_⟩
            rw [if_pos h1, if_neg h2]
          · simp at hw
      · simp at hw

/-- C3 (counterexample). With an empty previous snapshot and a provider that
returns one item, the lengths differ, yet the tick writes no frame. -/
theorem watchTick_empty_snapshot_writes_nothing :
    SnapshotDiffers (sampleWatch []).s.results (id [sampleItem "a".toList 1]) ∧
    (watchTick sampleCodec (sampleProvider [sampleItem "a".toList 1]) id true
      (sampleWatch [])).writes = [] :=
  ⟨Or.inl (by decide), by decide⟩

theorem fireUpdate_state (c : Codec) (ok : Bool) (w : Watch) (res : List Item) :
    (fireUpdate c ok w res).state.s.results = res ∧
    (fireUpdate c ok w res).state.subs =
      (if ok = true then w.subs.storeResults w.s.sid res
        else (w.subs.storeResults w.s.sid res).delete w.s.sid) := by
  unfold fireUpdate
  cases ok <;> simp [updated]

/-- C3 (amended). In one tick of `watch` in which the subscription is still
in the table and the provider is queried, whenever the diff between the
previous snapshot and the freshly queried, sorted result is non-empty (the
lengths differ, or some position differs in icon, text, subtext or score):
if the previous snapshot is non-empty exactly one update frame is written in
that tick, the frame of `updated(format, conn, "")`; if the previous snapshot
is empty no frame is written, and the tick does nothing but make the new
result the snapshot. In both cases the new result is the snapshot afterwards
(`s.results`, and the entry of the table while it is there: a failed write
removes it). -/
theorem watchTick_fires_once_on_diff (c : Codec) (p : Provider)
    (sortFunc : List Item → List Item) (ok : Bool) (w : Watch) (query : QueryFn)
    (hsub : w.subs.has w.s.sid = true) (hq : p.Query = some query)
    (hdiff : SnapshotDiffers w.s.results
      (sortFunc (query w.conn w.s.query true false w.format))) :
    (watchTick c p sortFunc ok w).writes =
      (if w.s.results = [] then [] else [updatedFrame c w.format w.conn []]) ∧
    (watchTick c p sortFunc ok w).state.s.results =
      sortFunc (query w.conn w.s.query true false w.format) ∧
    (watchTick c p sortFunc ok w).state.subs =
      (if w.s.results = [] ∨ ok = true then
        w.subs.storeResults w.s.sid (sortFunc (query w.conn w.s.query true false w.format))
      else
        (w.subs.storeResults w.s.sid
          (sortFunc (query w.conn w.s.query true false w.format))).delete w.s.sid) ∧
    (w.s.results = [] →
      watchTick c p sortFunc ok w =
        ⟨{ w with
            s := { w.s with results := sortFunc (query w.conn w.s.query true false w.format) },
            subs := w.subs.storeResults w.s.sid
              (sortFunc (query w.conn w.s.query true false w.format)) },
          [], true, .running⟩) := by
  by_cases hprev : w.s.results = []
  · have htick : watchTick c p sortFunc ok w =
        ⟨{ w with
            s := { w.s with results := sortFunc (query w.conn w.s.query true false w.format) },
            subs := w.subs.storeResults w.s.sid
              (sortFunc (query w.conn w.s.query true false w.format)) },
          [], true, .running⟩ := by
      simp [watchTick, hsub, hq, hprev]
    rw [htick]
    simp [hprev]
  · have hlen : w.s.results.length ≠ 0 := by
      simpa [List.length_eq_zero] using hprev
    have htick : watchTick c p sortFunc ok w =
        fireUpdate c ok w (sortFunc (query w.conn w.s.query true false w.format)) := by
      simp only [watchTick, hsub, hq, Bool.not_true, Bool.false_eq_true, if_false, hlen, ne_eq,
        not_false_eq_true, if_true]
      by_cases hl : (sortFunc (query w.conn w.s.query true false w.format)).length
          = w.s.results.length
      · rcases hdiff with hd | hd
        · exact absurd hl hd
        · simp only [hl, not_true_eq_false, if_false, rangeDiff_true_of_differ _ _ hl hd]
      · simp only [hl, not_false_eq_true, if_true]
    rw [htick]
    obtain ⟨h1, h2⟩ := fireUpdate_state c ok w
      (sortFunc (query w.conn w.s.query true false w.format))
    refine ⟨?_, h1, ?_, fun h => absurd h hprev⟩
    · rw [fireUpdate_writes, if_neg hprev]
    · rw [h2]
      cases ok <;> simp [hprev]

theorem watchTick_fires_once_on_diff_witness :
    (watchTick sampleCodec (sampleProvider [sampleItem "a".toList 2]) id false
        (sampleWatch [sampleItem "a".toList 1])).writes
      = [updatedFrame sampleCodec 1 7 []] ∧
    (watchTick sampleCodec (sampleProvider [sampleItem "a".toList 2]) id false
        (sampleWatch [sampleItem "a".toList 1])).state.s.results = [sampleItem "a".toList 2] :=
  have h := watchTick_fires_once_on_diff sampleCodec (sampleProvider [sampleItem "a".toList 2])
    id false (sampleWatch [sampleItem "a".toList 1]) (fun _ _ _ _ _ => [sampleItem "a".toList 2])
    (by decide) rfl
    (Or.inr ⟨0, sampleItem "a".toList 2, sampleItem "a".toList 1, rfl, rfl, by decide⟩)
  ⟨h.1, h.2.1⟩

/-- C4. In one tick of `watch`: if the freshly queried, sorted result has the
same length as the previous snapshot and the elements at every position agree
on icon, text, subtext and score, no frame is written in that tick; and in
every tick, whatever the state and the inputs, at most one frame is written. -/
theorem watchTick_silent_without_diff (c : Codec) (p : Provider)
    (sortFunc : List Item → List Item) (ok : Bool) (w : Watch) (query : QueryFn)
    (hq : p.Query = some query)
    (hl : (sortFunc (query w.conn w.s.query true false w.format)).length = w.s.results.length)
    (hs : ∀ k a b, (sortFunc (query w.conn w.s.query true false w.format)).get? k = some a →
      w.s.results.get? k = some b →
      a.icon = b.icon ∧ a.text = b.text ∧ a.subtext = b.subtext ∧ a.score = b.score) :
    (watchTick c p sortFunc ok w).writes = [] ∧
    ∀ (c2 : Codec) (p2 : Provider) (sortFunc2 : List Item → List Item) (ok2 : Bool) (w2 : Watch),
      (watchTick c2 p2 sortFunc2 ok2 w2).writes.length ≤ 1 := by
  refine ⟨?_, watchTick_writes_le_one⟩
  have hr := rangeDiff_false_of_same _ _ hl hs
  unfold watchTick
  split
  · rfl
  · simp only [hq]
    split
    · simp only [hl, ne_eq, not_true_eq_false, if_false, hr]
    · rfl

theorem watchTick_silent_without_diff_witness :
    (watchTick sampleCodec (sampleProvider [sampleItem "a".toList 1]) id true
      (sampleWatch [{ sampleItem "a".toList 1 with identifier := "x".toList }])).writes = [] ∧
    ∀ (c2 : Codec) (p2 : Provider) (sortFunc2 : List Item → List Item) (ok2 : Bool) (w2 : Watch),
      (watchTick c2 p2 sortFunc2 ok2 w2).writes.length ≤ 1 :=
  watchTick_silent_without_diff sampleCodec (sampleProvider [sampleItem "a".toList 1]) id true
    (sampleWatch [{ sampleItem "a".toList 1 with identifier := "x".toList }])
    (fun _ _ _ _ _ => [sampleItem "a".toList 1]) rfl rfl
    (by
      intro k a b ha hb
      cases k with
      | zero =>
        simp only [sampleWatch, sampleSub, id, List.get?_cons_zero, Option.some.injEq] at ha hb
        subst ha hb
        decide
      | succ k => simp [sampleWatch, sampleSub] at hb)

/-- C5. When a tick of `watch` writes an update frame, the sid of the
subscription is in the table at the end of that tick exactly when the write
succeeded: a failed write removes it, a successful one leaves it. After a
failed write the next tick (on the resulting state, whatever the provider and
the inputs) returns at once: it does not query the provider and writes
nothing. -/
theorem watch_write_failure_removes_subscription (c : Codec) (p : Provider)
    (sortFunc : List Item → List Item) (ok : Bool) (w : Watch)
    (hw : (watchTick c p sortFunc ok w).writes ≠ []) :
    (watchTick c p sortFunc ok w).state.subs.has w.s.sid = ok ∧
    (ok = false →
      ∀ (c2 : Codec) (p2 : Provider) (sortFunc2 : List Item → List Item) (ok2 : Bool),
        watchTick c2 p2 sortFunc2 ok2 (watchTick c p sortFunc ok w).state
          = ⟨(watchTick c p sortFunc ok w).state, [], false, .returned⟩) := by
  obtain ⟨hhas, res, hres⟩ := watchTick_fire_of_writes c p sortFunc ok w hw
  rw [hres]
  cases ok with
  | false =>
    have h1 : (fireUpdate c false w res).state.subs.has w.s.sid = false := by
      simp [fireUpdate, updated, Subs.has_delete_self]
    have h2 : (fireUpdate c false w res).state.s.sid = w.s.sid := by
      simp [fireUpdate, updated]
    refine ⟨h1, ?_⟩
    intro _ c2 p2 sortFunc2 ok2
    simp [watchTick, h2, h1]
  | true =>
    refine ⟨?_, fun h => Bool.noConfusion h⟩
    simp [fireUpdate, updated, Subs.has_storeResults, hhas]

theorem watch_write_failure_removes_subscription_witness :
    (watchTick sampleCodec (sampleProvider [sampleItem "a".toList 2]) id false
      (sampleWatch [sampleItem "a".toList 1])).writes ≠ [] ∧
    (watchTick sampleCodec (sampleProvider [sampleItem "a".toList 2]) id false
      (sampleWatch [sampleItem "a".toList 1])).state.subs.has 100000001 = false ∧
    ∀ (c2 : Codec) (p2 : Provider) (sortFunc2 : List Item → List Item) (ok2 : Bool),
      watchTick c2 p2 sortFunc2 ok2
        (watchTick sampleCodec (sampleProvider [sampleItem "a".toList 2]) id false
          (sampleWatch [sampleItem "a".toList 1])).state
        = ⟨(watchTick sampleCodec (sampleProvider [sampleItem "a".toList 2]) id false
          (sampleWatch [sampleItem "a".toList 1])).state, [], false, .returned⟩ :=
  ⟨by decide,
   (watch_write_failure_removes_subscription sampleCodec
      (sampleProvider [sampleItem "a".toList 2]) id false
      (sampleWatch [sampleItem "a".toList 1]) (by decide)).1,
   (watch_write_failure_removes_subscription sampleCodec
      (sampleProvider [sampleItem "a".toList 2]) id false
      (sampleWatch [sampleItem "a".toList 1]) (by decide)).2 rfl⟩


theorem routerKey_eq_norm (value : GoString) : routerKey value = norm value := by
  unfold routerKey norm hasPrefix
  by_cases h1 : "menus:".toList <+: value
  · have h1' : List.isPrefixOf "menus:".toList value = true := List.isPrefixOf_iff_prefix.mpr h1
    simp only [h1, h1', if_true]
    rfl
  · have h1' : List.isPrefixOf "menus:".toList value = false := by
      rw [← Bool.not_eq_true, List.isPrefixOf_iff_prefix]; exact h1
    simp only [h1, h1', if_false, Bool.false_eq_true]
    by_cases h2 : "bluetooth:".toList <+: value
    · have h2' : List.isPrefixOf "bluetooth:".toList value = true :=
        List.isPrefixOf_iff_prefix.mpr h2
      simp only [h2, h2', if_true]
    · have h2' : List.isPrefixOf "bluetooth:".toList value = false := by
        rw [← Bool.not_eq_true, List.isPrefixOf_iff_prefix]; exact h2
      simp only [h2, h2', if_false, Bool.false_eq_true]

theorem routerRange_writes (c : Codec) (writeOk : Nat → Bool) (p value : GoString) (subs : Subs) :
    (routerRange c writeOk p value subs).1 =
      (subs.filter (fun e => routerMatch p e.2)).map
        (fun e => (e.1, updatedFrame c e.2.format e.2.conn value)) := by
  induction subs with
  | nil => rfl
  | cons e t ih =>
    obtain ⟨k, v⟩ := e
    by_cases hm : routerMatch p v = true
    · cases hok : writeOk k <;> simp [routerRange, hm, updated, hok, ih, List.filter_cons]
    · simp [routerRange, hm, ih, List.filter_cons]

theorem routerRange_toDelete (c : Codec) (writeOk : Nat → Bool) (p value : GoString)
    (subs : Subs) :
    (routerRange c writeOk p value subs).2 =
      (subs.filter (fun e => routerMatch p e.2 && !writeOk e.1)).map Prod.fst := by
  induction subs with
  | nil => rfl
  | cons e t ih =>
    obtain ⟨k, v⟩ := e
    by_cases hm : routerMatch p v = true
    · cases hok : writeOk k <;> simp [routerRange, hm, updated, hok, ih, List.filter_cons]
    · simp [routerRange, hm, ih, List.filter_cons]

theorem Subs.foldl_delete (ks : List Nat) (subs : Subs) :
    ks.foldl (fun t k => Subs.delete t k) subs = subs.filter (fun e => decide (e.1 ∉ ks)) := by
  induction ks generalizing subs with
  | nil => simp
  | cons k ks ih =>
    rw [List.foldl_cons, ih]
    simp only [Subs.delete, List.filter_filter]
    apply List.filter_congr
    intro e _
    by_cases h1 : e.1 = k <;> by_cases h2 : e.1 ∈ ks <;> simp [h1, h2]

theorem routerStep_subs (c : Codec) (writeOk : Nat → Bool) (subs : Subs) (value : GoString)
    (hkeys : (subs.map Prod.fst).Nodup) :
    (routerStep c writeOk subs value).subs =
      subs.filter (fun e => !(routerMatch (routerKey value) e.2 && !writeOk e.1)) := by
  simp only [routerStep, Subs.foldl_delete, routerRange_toDelete]
  apply List.filter_congr
  intro e he
  by_cases hb : (routerMatch (routerKey value) e.2 && !writeOk e.1) = true
  · have : e.1 ∈ (subs.filter
        (fun e => routerMatch (routerKey value) e.2 && !writeOk e.1)).map Prod.fst :=
      List.mem_map.mpr ⟨e, List.mem_filter.mpr ⟨he, hb⟩, rfl⟩
    simp [this, hb]
  · have : e.1 ∉ (subs.filter
        (fun e => routerMatch (routerKey value) e.2 && !writeOk e.1)).map Prod.fst := by
      intro hmem
      obtain ⟨e2, he2, hk⟩ := List.mem_map.mp hmem
      obtain ⟨he2s, hb2⟩ := List.mem_filter.mp he2
      have : e2 = e := List.inj_on_of_nodup_map hkeys he2s he hk
      subst this
      exact hb hb2
    simp only [this, not_false_eq_true, decide_True]
    cases hx : (routerMatch (routerKey value) e.2 && !writeOk e.1)
    · rfl
    · exact absurd hx hb

theorem routerMatch_iff (p : GoString) (v : Sub) :
    routerMatch p v = true ↔ v.interval = 0 ∧ v.query = [] ∧ v.provider = p := by
  simp only [routerMatch, Bool.and_eq_true, beq_iff_eq]
  tauto

/-- C7. Event fan-out. For every value `v` received on the broadcast channel
and every subscription table (a map: distinct sids): the subscriptions that are
sent a frame are exactly those with interval 0, empty query and provider equal
to `norm v` ("menus" if `v` starts with "menus:", "bluetooth" if it starts with
"bluetooth:", `v` otherwise), each once; the frame sent to each is the frame
of `updated` for its format and connection, whose `SubscribeResponse.value` is
the original, un-normalised `v`; and the table afterwards holds exactly the
entries that were not both notified and failed to be written. -/
theorem router_fan_out (c : Codec) (writeOk : Nat → Bool) (subs : Subs) (v : GoString)
    (hkeys : (subs.map Prod.fst).Nodup) :
    (routerStep c writeOk subs v).writes =
      (subs.filter (fun e => decide (e.2.interval = 0 ∧ e.2.query = [] ∧
          e.2.provider = norm v))).map
        (fun e => (e.1, updatedFrame c e.2.format e.2.conn v)) ∧
    (∀ e ∈ (routerStep c writeOk subs v).writes, e.2.resp.value = v) ∧
    (routerStep c writeOk subs v).subs =
      subs.filter (fun e => !(decide (e.2.interval = 0 ∧ e.2.query = [] ∧
          e.2.provider = norm v) && !writeOk e.1)) := by
  have hm : ∀ e : Nat × Sub, routerMatch (routerKey v) e.2 =
      decide (e.2.interval = 0 ∧ e.2.query = [] ∧ e.2.provider = norm v) := by
    intro e
    rw [Bool.eq_iff_iff, routerMatch_iff, routerKey_eq_norm]
    simp
  have hw : (routerStep c writeOk subs v).writes =
      (subs.filter (fun e => decide (e.2.interval = 0 ∧ e.2.query = [] ∧
          e.2.provider = norm v))).map
        (fun e => (e.1, updatedFrame c e.2.format e.2.conn v)) := by
    simp only [routerStep, routerRange_writes, hm]
  refine ⟨hw, ?_, ?_⟩
  · intro e he
    rw [hw] at he
    obtain ⟨e0, _, rfl⟩ := List.mem_map.mp he
    rfl
  · rw [routerStep_subs c writeOk subs v hkeys]
    simp only [hm]

theorem router_fan_out_witness :
    (routerStep sampleCodec (fun k => decide (k ≠ 100000002))
      [(100000001, eventSub 100000001 "bluetooth".toList),
       (100000002, eventSub 100000002 "bluetooth".toList),
       (100000003, eventSub 100000003 "menus".toList),
       (100000004, sampleSub [])] "bluetooth:connect".toList).writes
      = [(100000001, updatedFrame sampleCodec 1 9 "bluetooth:connect".toList),
         (100000002, updatedFrame sampleCodec 1 9 "bluetooth:connect".toList)] ∧
    (routerStep sampleCodec (fun k => decide (k ≠ 100000002))
      [(100000001, eventSub 100000001 "bluetooth".toList),
       (100000002, eventSub 100000002 "bluetooth".toList),
       (100000003, eventSub 100000003 "menus".toList),
       (100000004, sampleSub [])] "bluetooth:connect".toList).subs
      = [(100000001, eventSub 100000001 "bluetooth".toList),
         (100000003, eventSub 100000003 "menus".toList),
         (100000004, sampleSub [])] := by
  have h := router_fan_out sampleCodec (fun k => decide (k ≠ 100000002))
    [(100000001, eventSub 100000001 "bluetooth".toList),
     (100000002, eventSub 100000002 "bluetooth".toList),
     (100000003, eventSub 100000003 "menus".toList),
     (100000004, sampleSub [])] "bluetooth:connect".toList (by decide)
  exact ⟨h.1.trans (by decide), h.2.2.trans (by decide)⟩


/-- C8 (counterexample). Scenario S3 on the code: the table holds one event
subscription for provider "bluetooth"; a MenuNotify request whose menu field is
"bluetooth:connect" makes the menu handler broadcast "menus:bluetooth:connect",
and the event router, handling that value, sends the subscriber no frame. -/
theorem menu_notify_does_not_reach_bluetooth :
    MenuRequest.Handle sampleCodec 1 ("bluetooth:connect".toList.map (fun ch => toByte ch.toNat))
      = some "menus:bluetooth:connect".toList ∧
    (routerStep sampleCodec (fun _ => true)
      [(100000001, eventSub 100000001 "bluetooth".toList)]
      "menus:bluetooth:connect".toList).writes = [] := by
  constructor <;> decide

/-- C8 (amended). A MenuNotify request whose menu field is "bluetooth:connect"
makes the menu handler broadcast "menus:bluetooth:connect". When the event
router handles that value, an event subscription (interval 0, empty query) for
provider "menus" is sent exactly one SubscriptionDataChanged(0) frame whose
value is "menus:bluetooth:connect", and an event subscription for provider
"bluetooth" is sent nothing. The "bluetooth" subscriber is sent exactly one
SubscriptionDataChanged(0) frame with value "bluetooth:connect" when the value
"bluetooth:connect" itself is broadcast, as the bluetooth provider does. -/
theorem menu_notify_reaches_menus_subscriber (c : Codec) (writeOk : Nat → Bool) (format : Byte)
    (data : List Byte) (f : Byte) (sid : Nat) (results : List Item) (conn : Conn)
    (hdec : MenuRequest.decode c format data = some ⟨"bluetooth:connect".toList⟩) :
    MenuRequest.Handle c format data = some "menus:bluetooth:connect".toList ∧
    (routerStep c writeOk [(sid, ⟨f, sid, 0, "menus".toList, [], results, conn⟩)]
      "menus:bluetooth:connect".toList).writes
      = [(sid, updatedFrame c f conn "menus:bluetooth:connect".toList)] ∧
    (routerStep c writeOk [(sid, ⟨f, sid, 0, "bluetooth".toList, [], results, conn⟩)]
      "menus:bluetooth:connect".toList).writes = [] ∧
    (routerStep c writeOk [(sid, ⟨f, sid, 0, "bluetooth".toList, [], results, conn⟩)]
      "bluetooth:connect".toList).writes
      = [(sid, updatedFrame c f conn "bluetooth:connect".toList)] ∧
    ∀ v : GoString, (updatedFrame c f conn v).resp.value = v ∧
      (updatedFrame c f conn v).bytes.head? = some SubscriptionDataChanged := by
  refine ⟨?_, ?_, ?_, ?_, fun v => ⟨rfl, rfl⟩⟩
  · simp only [MenuRequest.Handle, hdec]
    rfl
  · simp only [routerStep, routerRange_writes]
    rfl
  · simp only [routerStep, routerRange_writes]
    rfl
  · simp only [routerStep, routerRange_writes]
    rfl

theorem menu_notify_reaches_menus_subscriber_witness :
    MenuRequest.Handle sampleCodec 1 ("bluetooth:connect".toList.map (fun ch => toByte ch.toNat))
      = some "menus:bluetooth:connect".toList ∧
    (routerStep sampleCodec (fun _ => true)
      [(100000001, ⟨1, 100000001, 0, "menus".toList, [], [], 9⟩)]
      "menus:bluetooth:connect".toList).writes
      = [(100000001, updatedFrame sampleCodec 1 9 "menus:bluetooth:connect".toList)] :=
  ⟨(menu_notify_reaches_menus_subscriber sampleCodec (fun _ => true) 1
      ("bluetooth:connect".toList.map (fun ch => toByte ch.toNat)) 1 100000001 [] 9
      (by decide)).1,
   (menu_notify_reaches_menus_subscriber sampleCodec (fun _ => true) 1
      ("bluetooth:connect".toList.map (fun ch => toByte ch.toNat)) 1 100000001 [] 9
      (by decide)).2.1⟩


/-! ## Theorems: the fuel of the two loops is never used up -/

theorem readFull_length (n : Nat) (s buf rest : List Byte) (h : readFull n s = .ok buf rest) :
    rest.length + n = s.length := by
  unfold readFull at h
  split at h
  · rename_i hn
    simp only [ReadFull.ok.injEq] at h
    rw [← h.2, hn]
    rfl
  · split at h
    · rename_i hle
      simp only [ReadFull.ok.injEq] at h
      rw [← h.2, List.length_drop]
      omega
    · split at h <;> cases h

theorem readFrame_length (s : List Byte) (mType : Nat) (format : Byte) (p rest : List Byte)
    (h : readFrame s = .frame mType format p rest) : rest.length + 6 ≤ s.length := by
  unfold readFrame at h
  split at h
  · cases h
  · cases h
  · rename_i tb s1 h1
    try dsimp only at h
    split at h
    · cases h
    · cases h
    · rename_i fb s2 h2
      try dsimp only at h
      split at h
      · cases h
      · cases h
      · rename_i lb s3 h3
        split at h
        · cases h
        · rename_i l hl
          split at h
          · cases h
          · cases h
          · rename_i p2 rest2 h4
            simp only [FrameRead.frame.injEq] at h
            have e1 := readFull_length _ _ _ _ h1
            have e2 := readFull_length _ _ _ _ h2
            have e3 := readFull_length _ _ _ _ h3
            have e4 := readFull_length _ _ _ _ h4
            rw [← h.2.2.2]
            omega

theorem handleLoop_fuel (fuel : Nat) (s : List Byte) (h : s.length + 2 ≤ fuel) :
    (handleLoop fuel s).exit ≠ .outOfFuel := by
  induction fuel generalizing s with
  | zero => omega
  | succ n ih =>
    unfold handleLoop
    split
    · simp
    · cases n with
      | zero => omega
      | succ m => simp [handleLoop, readFrame, readFull]
    · rename_i mType format p rest hf
      have hlen := readFrame_length s mType format p rest hf
      split
      · simp
      · exact ih rest (by omega)

theorem handle_terminates (s : List Byte) : (handle s).exit ≠ .outOfFuel :=
  handleLoop_fuel _ s (Nat.le_refl _)

theorem findFence_length (s content rest : GoString) (h : findFence s = some (content, rest)) :
    rest.length ≤ s.length := by
  induction s generalizing content rest with
  | nil => simp [findFence] at h
  | cons c t ih =>
    unfold findFence at h
    split at h
    · simp only [Option.some.injEq, Prod.mk.injEq] at h
      rw [← h.2, List.length_drop]
      omega
    · split at h
      · cases h
      · rename_i content2 rest2 hrec
        simp only [Option.some.injEq, Prod.mk.injEq] at h
        have := ih content2 rest2 hrec
        rw [← h.2, List.length_cons]
        omega

theorem matchFence_length (s lang content rest : GoString)
    (h : matchFence s = some (lang, content, rest)) : rest.length < s.length := by
  unfold matchFence at h
  split at h
  · dsimp only at h
    split at h
    · rename_i c s3 hdrop
      split at h
      · split at h
        · rename_i content2 rest2 hf
          simp only [Option.some.injEq, Prod.mk.injEq] at h
          have h1 := findFence_length s3 content2 rest2 hf
          have h2 : (c :: s3).length ≤ (List.drop 3 s).length := by
            rw [← hdrop]
            exact (List.dropWhile_sublist _).length_le
          rw [List.length_drop, List.length_cons] at h2
          rw [← h.2.2]
          omega
        · cases h
      · cases h
    · cases h
  · cases h

theorem findAllFences_fuel (fuel1 fuel2 : Nat) (s : GoString) (h1 : s.length < fuel1)
    (h2 : s.length < fuel2) : findAllFences fuel1 s = findAllFences fuel2 s := by
  induction fuel1 generalizing fuel2 s with
  | zero => omega
  | succ n ih =>
    cases fuel2 with
    | zero => omega
    | succ m =>
      simp only [findAllFences]
      split
      · rename_i lang content rest hm
        have := matchFence_length s lang content rest hm
        rw [ih m rest (by omega) (by omega)]
      · cases s with
        | nil => rfl
        | cons c t =>
          simp only [List.length_cons] at h1 h2
          exact ih m t (by omega) (by omega)

theorem fencedBlocks_fuel (fuel : Nat) (answer : GoString) (h : answer.length < fuel) :
    findAllFences fuel answer = fencedBlocks answer :=
  findAllFences_fuel _ _ answer h (Nat.lt_succ_self _)

/-! ## Theorems: strings -/

theorem trimSpace_nil : trimSpace [] = [] := rfl

theorem dropWhile_head_not {α : Type} (p : α → Bool) (l : List α) (a : α) (t : List α)
    (h : l.dropWhile p = a :: t) : p a = false := by
  induction l with
  | nil => simp at h
  | cons b l ih =>
    by_cases hb : p b = true
    · rw [List.dropWhile_cons_of_pos hb] at h
      exact ih h
    · rw [List.dropWhile_cons_of_neg hb] at h
      simp only [List.cons.injEq] at h
      rw [← h.1]
      simpa using hb

theorem dropWhile_eq_self_of_head {α : Type} (p : α → Bool) (a : α) (t : List α)
    (h : p a = false) : (a :: t).dropWhile p = a :: t := by
  simp [List.dropWhile_cons, h]

theorem trimSpace_idem (s : GoString) : trimSpace (trimSpace s) = trimSpace s := by
  unfold trimSpace
  have hpre : (s.dropWhile isSpace).rdropWhile isSpace <+: s.dropWhile isSpace :=
    List.rdropWhile_prefix _ _
  have hd : ((s.dropWhile isSpace).rdropWhile isSpace).dropWhile isSpace
      = (s.dropWhile isSpace).rdropWhile isSpace := by
    cases hu : (s.dropWhile isSpace).rdropWhile isSpace with
    | nil => rfl
    | cons a t =>
      rw [hu] at hpre
      obtain ⟨r, hr⟩ := hpre
      have : isSpace a = false := dropWhile_head_not isSpace s a (t ++ r) (by rw [← hr]; rfl)
      exact dropWhile_eq_self_of_head isSpace a t this
  rw [hd, List.rdropWhile_idempotent]

theorem trimSpace_concat_space (l : GoString) (c : Char) (hc : isSpace c = true) :
    trimSpace (l ++ [c]) = trimSpace l := by
  unfold trimSpace
  by_cases hall : ∀ x ∈ l, isSpace x = true
  · have h1 : (l ++ [c]).dropWhile isSpace = [] := by
      rw [List.dropWhile_eq_nil_iff]
      intro x hx
      rcases List.mem_append.mp hx with hx | hx
      · exact hall x hx
      · simp only [List.mem_singleton] at hx
        rw [hx]; exact hc
    have h2 : l.dropWhile isSpace = [] := by
      rw [List.dropWhile_eq_nil_iff]; exact hall
    rw [h1, h2]
  · have h1 : (l ++ [c]).dropWhile isSpace = l.dropWhile isSpace ++ [c] := by
      clear hc
      induction l with
      | nil => simp at hall
      | cons b l ih =>
        by_cases hb : isSpace b = true
        · rw [List.cons_append, List.dropWhile_cons_of_pos hb, List.dropWhile_cons_of_pos hb]
          apply ih
          intro hl
          apply hall
          intro x hx
          rcases List.mem_cons.mp hx with hx | hx
          · rw [hx]; exact hb
          · exact hl x hx
        · rw [List.cons_append, List.dropWhile_cons_of_neg hb, List.dropWhile_cons_of_neg hb]
          rfl
    rw [h1, List.rdropWhile_concat_pos _ _ _ hc]

theorem trimSpace_dropCR (l : GoString) : trimSpace (dropCR l) = trimSpace l := by
  unfold dropCR
  split
  · rename_i h
    have hne : l ≠ [] := by
      intro h0; rw [h0] at h; simp at h
    have hl : l = l.dropLast ++ ['\r'] := by
      have h2 := List.dropLast_append_getLast hne
      have h3 : l.getLast hne = '\r' := by
        rw [List.getLast?_eq_getLast _ hne] at h
        exact Option.some.inj h
      rw [h3] at h2
      exact h2.symm
    conv_rhs => rw [hl]
    exact (trimSpace_concat_space _ _ (by decide)).symm
  · rfl

theorem trimSpace_eq_self (s : GoString) (h : ∀ c ∈ s, isSpace c = false) : trimSpace s = s := by
  unfold trimSpace
  have h1 : s.dropWhile isSpace = s := by
    cases s with
    | nil => rfl
    | cons a t => exact dropWhile_eq_self_of_head isSpace a t (h a (List.mem_cons_self _ _))
  rw [h1, List.rdropWhile_eq_self_iff]
  intro hl
  have := h _ (List.getLast_mem hl)
  simp [this]

theorem lowerChar_cases (c : Char) (h1 : 65 ≤ c.toNat) (h2 : c.toNat ≤ 90) :
    c ∈ "ABCDEFGHIJKLMNOPQRSTUVWXYZ".toList := by
  obtain ⟨n, hn⟩ : ∃ n, c.toNat = n := ⟨_, rfl⟩
  have hc : c = Char.ofNat n := by rw [← hn, Char.ofNat_toNat]
  rw [hn] at h1 h2
  subst hc
  interval_cases n <;> decide

theorem isLangChar_lowerChar (c : Char) (h : isLangChar c = true) :
    isLangChar (lowerChar c) = true := by
  by_cases hc : 65 ≤ c.toNat ∧ c.toNat ≤ 90
  · have := lowerChar_cases c hc.1 hc.2
    simp only [String.toList, List.mem_cons, List.mem_singleton] at this
    rcases this with h | h | h | h | h | h | h | h | h | h | h | h | h | h | h | h | h | h | h | h
      | h | h | h | h | h | h | h <;> first | (subst h; decide) | (simp at h)
  · simp only [lowerChar, hc, if_false]
    exact h

theorem lowerChar_idem (c : Char) : lowerChar (lowerChar c) = lowerChar c := by
  by_cases hc : 65 ≤ c.toNat ∧ c.toNat ≤ 90
  · have := lowerChar_cases c hc.1 hc.2
    simp only [String.toList, List.mem_cons, List.mem_singleton] at this
    rcases this with h | h | h | h | h | h | h | h | h | h | h | h | h | h | h | h | h | h | h | h
      | h | h | h | h | h | h | h <;> first | (subst h; decide) | (simp at h)
  · simp only [lowerChar, hc, if_false]

theorem isSpace_of_isLangChar (c : Char) (h : isLangChar c = true) : isSpace c = false := by
  unfold isLangChar at h
  unfold isSpace
  simp only [Bool.or_eq_true, Bool.and_eq_true, decide_eq_true_eq] at h
  simp only [Bool.or_eq_false_iff, Bool.and_eq_false_iff, decide_eq_false_iff_not]
  omega

/-! ## Theorems: lines and the line scanner -/

theorem lines_ne_nil (s : GoString) : lines s ≠ [] := by
  cases s with
  | nil => simp [lines]
  | cons c t =>
    unfold lines
    split
    · simp
    · split <;> simp

theorem map_trimSpace_scanLines (s : GoString) :
    (scanLines s).map trimSpace =
      ((scanTokens s).takeWhile (fun l => decide (byteLen l < MaxScanTokenSize))).map
        trimSpace := by
  unfold scanLines
  rw [List.map_map]
  apply List.map_congr_left
  intro l _
  exact trimSpace_dropCR l

theorem filterMap_scanLines {β : Type} (g : GoString → Option β) (hg : g [] = none)
    (s : GoString) :
    ((scanLines s).map trimSpace).filterMap g = ((shortLines s).map trimSpace).filterMap g := by
  rw [map_trimSpace_scanLines]
  unfold scanTokens shortLines
  split
  · rename_i hlast
    have hne := lines_ne_nil s
    have hl : lines s = (lines s).dropLast ++ [[]] := by
      have h2 := List.dropLast_append_getLast hne
      have h3 : (lines s).getLast hne = [] := by
        rw [List.getLast?_eq_getLast _ hne] at hlast
        exact Option.some.inj hlast
      rw [h3] at h2
      exact h2.symm
    generalize (lines s).dropLast = T at hl
    rw [hl, List.takeWhile_append]
    split
    · rename_i hlen
      have hT : T.takeWhile (fun l => decide (byteLen l < MaxScanTokenSize)) = T := by
        have hpre := List.takeWhile_prefix (fun l => decide (byteLen l < MaxScanTokenSize))
          (l := T)
        exact hpre.eq_of_length hlen
      have hnil : List.takeWhile (fun l => decide (byteLen l < MaxScanTokenSize)) [([] : GoString)]
          = [[]] := by decide
      rw [hT, hnil, List.map_append, List.filterMap_append]
      simp [trimSpace_nil, hg]
    · rfl
  · rfl

/-! ## Theorems: the accumulator of `extractCommands` -/

theorem foldl_add_commands (cs : List GoString) (acc : CommandAcc) :
    (cs.foldl add acc).commands =
      acc.commands ++
        (firstOccurrences ((cs.map trimSpace).filter (fun cmd => decide (cmd ≠ [])))).filter
          (fun cmd => decide (cmd ∉ acc.seen)) := by
  induction cs generalizing acc with
  | nil => simp [firstOccurrences]
  | cons c t ih =>
    rw [List.foldl_cons, ih]
    by_cases h0 : trimSpace c = []
    · simp [add, h0]
    · by_cases h1 : trimSpace c ∈ acc.seen
      · have hadd : add acc c = acc := by simp [add, h0, h1]
        rw [hadd]
        simp only [List.map_cons, List.filter_cons, h0, ne_eq, not_false_eq_true, decide_True,
          if_true, firstOccurrences, h1, not_true_eq_false, decide_False, Bool.false_eq_true,
          if_false, List.filter_filter]
        congr 1
        apply List.filter_congr
        intro x _
        by_cases hx : x = trimSpace c
        · simp [hx, h1]
        · simp [hx]
      · have hadd : add acc c = ⟨acc.commands ++ [trimSpace c], trimSpace c :: acc.seen⟩ := by
          simp [add, h0, h1]
        rw [hadd]
        simp only [List.map_cons, List.filter_cons, h0, ne_eq, not_false_eq_true, decide_True,
          if_true, firstOccurrences, h1, List.filter_filter, List.append_assoc,
          List.singleton_append]
        congr 2
        apply List.filter_congr
        intro x _
        by_cases hx : x = trimSpace c
        · simp [hx]
        · simp [hx]

theorem foldl_add_flatMap {α : Type} (f : α → List GoString) (l : List α) (acc : CommandAcc) :
    l.foldl (fun acc a => (f a).foldl add acc) acc = (l.flatMap f).foldl add acc := by
  induction l generalizing acc with
  | nil => rfl
  | cons a t ih => simp [List.flatMap_cons, List.foldl_append, ih]

/-! ## Theorems: `extractCommands` -/

theorem hasPrefix_dollar_not_gt (line : GoString) (h : hasPrefix line "$ ".toList = true) :
    hasPrefix line "> ".toList = false := by
  cases line with
  | nil => rfl
  | cons c t =>
    by_cases hc : c = '$'
    · subst hc; rfl
    · have : hasPrefix (c :: t) "$ ".toList = false := by
        simp [hasPrefix, String.toList, List.isPrefixOf, Ne.symm hc]
      rw [this] at h; cases h

theorem blockLineStep_eq (isShell : Bool) (acc : CommandAcc) (text : GoString) :
    blockLineStep isShell acc text =
      match blockCand isShell (trimSpace text) with
      | some cmd => add acc cmd
      | none => acc := by
  unfold blockLineStep blockCand
  dsimp only
  split_ifs <;> rfl

theorem answerLineStep_eq (acc : CommandAcc) (text : GoString) :
    answerLineStep acc text =
      match answerCand (trimSpace text) with
      | some cmd => add acc cmd
      | none => acc := by
  unfold answerLineStep answerCand
  dsimp only
  by_cases h1 : hasPrefix (trimSpace text) "$ ".toList = true
  · have h2 := hasPrefix_dollar_not_gt _ h1
    simp only [h1, h2, if_true, if_false, Bool.false_eq_true]
  · by_cases h2 : hasPrefix (trimSpace text) "> ".toList = true
    · simp only [h1, h2, if_true, if_false, Bool.false_eq_true]
    · simp only [h1, h2, if_false, Bool.false_eq_true]

theorem foldl_blockLineStep (isShell : Bool) (texts : List GoString) (acc : CommandAcc) :
    texts.foldl (blockLineStep isShell) acc =
      ((texts.map trimSpace).filterMap (blockCand isShell)).foldl add acc := by
  induction texts generalizing acc with
  | nil => rfl
  | cons t ts ih =>
    rw [List.foldl_cons, ih, blockLineStep_eq, List.map_cons, List.filterMap_cons]
    cases blockCand isShell (trimSpace t) <;> rfl

theorem foldl_answerLineStep (texts : List GoString) (acc : CommandAcc) :
    texts.foldl answerLineStep acc =
      ((texts.map trimSpace).filterMap answerCand).foldl add acc := by
  induction texts generalizing acc with
  | nil => rfl
  | cons t ts ih =>
    rw [List.foldl_cons, ih, answerLineStep_eq, List.map_cons, List.filterMap_cons]
    cases answerCand (trimSpace t) <;> rfl

theorem blockCommands_eq (isShell : Bool) (ls : List GoString) :
    blockCommands isShell ls = (ls.map trimSpace).filterMap (blockKeep isShell) := by
  unfold blockCommands
  generalize ls.map trimSpace = L
  induction L with
  | nil => rfl
  | cons l L ih =>
    by_cases h : (decide (l ≠ []) && !hasPrefix l "#".toList) = true
    · simp only [List.filter_cons, h, if_true, List.filterMap_cons, ih]
      simp only [blockKeep, h, if_true]
    · simp only [List.filter_cons, h, if_false, List.filterMap_cons, ih, Bool.false_eq_true]
      simp only [blockKeep, h, if_false, Bool.false_eq_true]

theorem trimPrefix_of_hasPrefix (l pre : GoString) (h : hasPrefix l pre = true) :
    trimPrefix l pre = l.drop pre.length := by
  simp [trimPrefix, h]

theorem blockCand_trim (isShell : Bool) (l : GoString) :
    (blockCand isShell l).map trimSpace = (blockKeep isShell l).map trimSpace := by
  unfold blockCand blockKeep stripPrompt
  by_cases h0 : l = []
  · subst h0; rfl
  · by_cases h1 : hasPrefix l "#".toList = true
    · simp only [h0, h1, or_true, if_true, ne_eq, not_false_eq_true, decide_True,
        Bool.not_true, Bool.and_false, Bool.false_eq_true, if_false]
    · have h1f : hasPrefix l "#".toList = false := by simpa using h1
      by_cases h2 : hasPrefix l "$ ".toList = true
      · simp only [h0, h1f, or_self, if_false, h2, if_true, ne_eq, not_false_eq_true,
          decide_True, Bool.not_false, Bool.and_self, Bool.false_eq_true, Option.map_some',
          trimSpace_idem, trimPrefix_of_hasPrefix _ _ h2]
        rfl
      · by_cases h3 : hasPrefix l "> ".toList = true
        · simp only [h0, h1f, or_self, if_false, h2, h3, if_true, ne_eq, not_false_eq_true,
            decide_True, Bool.not_false, Bool.and_self, Bool.false_eq_true, Option.map_some',
            trimSpace_idem, trimPrefix_of_hasPrefix _ _ h3]
          rfl
        · simp only [h0, h1f, or_self, if_false, h2, h3, ne_eq, not_false_eq_true,
            decide_True, Bool.not_false, Bool.and_self, Bool.false_eq_true, if_true]

theorem answerCand_trim (l : GoString) :
    (answerCand l).map trimSpace = (stripPrompt l).map trimSpace := by
  unfold answerCand stripPrompt
  by_cases h2 : hasPrefix l "$ ".toList = true
  · simp only [h2, if_true, Option.map_some', trimSpace_idem, trimPrefix_of_hasPrefix _ _ h2]
    rfl
  · by_cases h3 : hasPrefix l "> ".toList = true
    · simp only [h2, h3, if_true, if_false, Option.map_some', trimSpace_idem,
        trimPrefix_of_hasPrefix _ _ h3, Bool.false_eq_true]
      rfl
    · simp only [h2, h3, if_false, Bool.false_eq_true]

theorem extractCodeBlocks_eq (answer : GoString) :
    extractCodeBlocks answer = (fencedBlocks answer).filterMap matchBlock := by
  unfold extractCodeBlocks
  have key : ∀ (F : List (GoString × GoString)) (init : List codeBlock),
      F.foldl (fun blocks m =>
        let lang := trimSpace m.1
        let content := trimSpace m.2
        if content = [] then blocks
        else blocks ++ [⟨toLower lang, content⟩]) init = init ++ F.filterMap matchBlock := by
    intro F
    induction F with
    | nil => intro init; simp
    | cons m F ih =>
      intro init
      rw [List.foldl_cons, ih, List.filterMap_cons]
      unfold matchBlock
      by_cases h : trimSpace m.2 = [] <;> simp [h]
  simpa using key (fencedBlocks answer) []

theorem findAllFences_lang (fuel : Nat) (s : GoString) (m : GoString × GoString)
    (hm : m ∈ findAllFences fuel s) : ∀ c ∈ m.1, isLangChar c = true := by
  induction fuel generalizing s with
  | zero => simp [findAllFences] at hm
  | succ n ih =>
    simp only [findAllFences] at hm
    split at hm
    · rename_i lang content rest hmatch
      rcases List.mem_cons.mp hm with h | h
      · subst h
        unfold matchFence at hmatch
        split at hmatch
        · dsimp only at hmatch
          split at hmatch
          · split at hmatch
            · split at hmatch
              · simp only [Option.some.injEq, Prod.mk.injEq] at hmatch
                intro c hc
                rw [← hmatch.1] at hc
                exact List.mem_takeWhile_imp hc
              · cases hmatch
            · cases hmatch
          · cases hmatch
        · cases hmatch
      · exact ih rest h
    · split at hm
      · simp at hm
      · exact ih _ hm

theorem isShellLang_lower (lang : GoString) (h : ∀ c ∈ lang, isLangChar c = true) :
    isShellLang (toLower (trimSpace lang)) = decide (toLower lang ∈ shellLangs) := by
  have h1 : trimSpace lang = lang :=
    trimSpace_eq_self lang (fun c hc => isSpace_of_isLangChar c (h c hc))
  have h2 : ∀ c ∈ toLower lang, isLangChar c = true := by
    intro c hc
    obtain ⟨d, hd, rfl⟩ := List.mem_map.mp hc
    exact isLangChar_lowerChar d (h d hd)
  have h3 : trimSpace (toLower lang) = toLower lang :=
    trimSpace_eq_self _ (fun c hc => isSpace_of_isLangChar c (h2 c hc))
  have h4 : toLower (toLower lang) = toLower lang := by
    unfold toLower
    rw [List.map_map]
    apply List.map_congr_left
    intro c _
    exact lowerChar_idem c
  unfold isShellLang
  simp only [h1, h3, h4, shellLangs, List.mem_cons, List.mem_singleton, List.not_mem_nil,
    or_false, Bool.decide_or, Bool.or_assoc]

theorem blockCands_trim (isShell : Bool) (content : GoString) :
    (((scanLines content).map trimSpace).filterMap (blockCand isShell)).map trimSpace =
      (blockCommands isShell (shortLines content)).map trimSpace := by
  rw [List.map_filterMap, blockCommands_eq, List.map_filterMap,
    filterMap_scanLines (fun x => (blockCand isShell x).map trimSpace) rfl]
  congr 1
  funext x
  exact blockCand_trim isShell x

theorem lineCands_trim (answer : GoString) :
    (((scanLines answer).map trimSpace).filterMap answerCand).map trimSpace =
      (((shortLines answer).map trimSpace).filterMap stripPrompt).map trimSpace := by
  rw [List.map_filterMap, List.map_filterMap,
    filterMap_scanLines (fun x => (answerCand x).map trimSpace) rfl]
  congr 1
  funext x
  exact answerCand_trim x

theorem blocksCands_trim (F : List (GoString × GoString))
    (hF : ∀ m ∈ F, ∀ c ∈ m.1, isLangChar c = true) :
    ((F.filterMap matchBlock).flatMap (fun block =>
        ((scanLines block.content).map trimSpace).filterMap
          (blockCand (isShellLang block.lang)))).map trimSpace =
      (F.flatMap (fun b => blockCommands (decide (toLower b.1 ∈ shellLangs))
        (shortLines (trimSpace b.2)))).map trimSpace := by
  induction F with
  | nil => rfl
  | cons m F ih =>
    have ih2 := ih (fun m2 hm2 => hF m2 (List.mem_cons_of_mem _ hm2))
    rw [List.filterMap_cons, List.flatMap_cons, List.map_append, ← ih2]
    by_cases hc : trimSpace m.2 = []
    · have h1 : matchBlock m = none := by simp [matchBlock, hc]
      rw [h1, hc]
      rfl
    · have h1 : matchBlock m = some ⟨toLower (trimSpace m.1), trimSpace m.2⟩ := by
        simp [matchBlock, hc]
      rw [h1]
      simp only [List.flatMap_cons, List.map_append]
      rw [blockCands_trim, isShellLang_lower m.1 (hF m (List.mem_cons_self _ _))]

theorem extractCommands_as_fold (answer : GoString) :
    extractCommands none answer =
      firstOccurrences ((((extractCodeBlocks answer).flatMap (fun block =>
          ((scanLines block.content).map trimSpace).filterMap
            (blockCand (isShellLang block.lang))) ++
        ((scanLines answer).map trimSpace).filterMap answerCand).map trimSpace).filter
          (fun cmd => decide (cmd ≠ []))) := by
  have h1 : (fun (acc : CommandAcc) (block : codeBlock) =>
        (scanLines block.content).foldl (blockLineStep (isShellLang block.lang)) acc) =
      (fun acc block =>
        (((scanLines block.content).map trimSpace).filterMap
          (blockCand (isShellLang block.lang))).foldl add acc) := by
    funext acc block
    exact foldl_blockLineStep _ _ _
  simp only [extractCommands]
  rw [h1, foldl_add_flatMap, foldl_answerLineStep, ← List.foldl_append, foldl_add_commands]
  simp

theorem extractCommands_eq_spec_aux (answer : GoString) :
    extractCommands none answer = extractCommandsSpec answer := by
  rw [extractCommands_as_fold]
  unfold extractCommandsSpec commandsReference
  dsimp only
  have hF : ∀ m ∈ fencedBlocks answer, ∀ c ∈ m.1, isLangChar c = true :=
    fun m hm => findAllFences_lang _ _ m hm
  rw [List.map_append, List.map_append, extractCodeBlocks_eq,
    blocksCands_trim (fencedBlocks answer) hF, lineCands_trim]

theorem lines_of_no_newline (s : GoString) (h : ∀ c ∈ s, c ≠ '\n') : lines s = [s] := by
  induction s with
  | nil => rfl
  | cons c t ih =>
    have hc : c ≠ '\n' := h c (List.mem_cons_self _ _)
    have ht := ih (fun d hd => h d (List.mem_cons_of_mem _ hd))
    simp only [lines, hc, if_false, ht]

theorem matchFence_of_head (s : GoString) (h : ∀ c ∈ s.head?, c ≠ '`') : matchFence s = none := by
  cases s with
  | nil => rfl
  | cons c t =>
    have hc : c ≠ '`' := h c rfl
    have : hasPrefix (c :: t) "```".toList = false := by
      simp [hasPrefix, String.toList, List.isPrefixOf, Ne.symm hc]
    simp only [matchFence, this, Bool.false_eq_true, if_false]

theorem findAllFences_of_no_backtick (fuel : Nat) (s : GoString) (h : ∀ c ∈ s, c ≠ '`') :
    findAllFences fuel s = [] := by
  induction fuel generalizing s with
  | zero => rfl
  | succ n ih =>
    have hm : matchFence s = none := by
      apply matchFence_of_head
      intro c hc
      exact h c (List.mem_of_mem_head? hc)
    cases s with
    | nil => simp only [findAllFences, hm]
    | cons c t =>
      simp only [findAllFences, hm]
      exact ih t (fun d hd => h d (List.mem_cons_of_mem _ hd))

theorem byteLen_replicate_a (n : Nat) : byteLen (List.replicate n 'a') = n := by
  induction n with
  | zero => rfl
  | succ n ih =>
    simp only [byteLen, List.replicate_succ, List.map_cons, List.sum_cons] at ih ⊢
    rw [ih]
    have : Char.utf8Size 'a' = 1 := by decide
    omega

theorem trimSpace_of_ends (a : Char) (t : GoString) (ha : isSpace a = false)
    (hl : isSpace ((a :: t).getLast (List.cons_ne_nil a t)) = false) :
    trimSpace (a :: t) = a :: t := by
  unfold trimSpace
  rw [dropWhile_eq_self_of_head isSpace a t ha, List.rdropWhile_eq_self_iff]
  intro _
  simp [hl]

theorem long_line_commands (n : Nat) (hn : MaxScanTokenSize ≤ n + 2) (hpos : 0 < n) :
    extractCommands none ('$' :: ' ' :: List.replicate n 'a') = [] ∧
    extractCommandsRef ('$' :: ' ' :: List.replicate n 'a') = [List.replicate n 'a'] := by
  have hbt : ∀ c ∈ '$' :: ' ' :: List.replicate n 'a', c ≠ '`' := by
    intro c hc
    simp only [List.mem_cons, List.mem_replicate] at hc
    rcases hc with h | h | ⟨_, h⟩ <;> (rw [h]; decide)
  have hnl : ∀ c ∈ '$' :: ' ' :: List.replicate n 'a', c ≠ '\n' := by
    intro c hc
    simp only [List.mem_cons, List.mem_replicate] at hc
    rcases hc with h | h | ⟨_, h⟩ <;> (rw [h]; decide)
  have hfb : fencedBlocks ('$' :: ' ' :: List.replicate n 'a') = [] :=
    findAllFences_of_no_backtick _ _ hbt
  have hlines := lines_of_no_newline _ hnl
  have hlen : byteLen ('$' :: ' ' :: List.replicate n 'a') = n + 2 := by
    have h1 := byteLen_replicate_a n
    simp only [byteLen, List.map_cons, List.sum_cons] at h1 ⊢
    rw [h1]
    have h2 : Char.utf8Size '$' = 1 := by decide
    have h3 : Char.utf8Size ' ' = 1 := by decide
    omega
  have hrep : trimSpace (List.replicate n 'a') = List.replicate n 'a' := by
    apply trimSpace_eq_self
    intro c hc
    rw [(List.mem_replicate.mp hc).2]
    decide
  have hne : List.replicate n 'a' ≠ [] := by
    intro h0
    have := congrArg List.length h0
    simp at this
    omega
  have htrim : trimSpace ('$' :: ' ' :: List.replicate n 'a')
      = '$' :: ' ' :: List.replicate n 'a' := by
    apply trimSpace_of_ends _ _ (by decide)
    have hlast : ('$' :: ' ' :: List.replicate n 'a').getLast (List.cons_ne_nil _ _) = 'a' := by
      have hmem := List.getLast_mem (List.cons_ne_nil '$' (' ' :: List.replicate n 'a'))
      have h2 : ('$' :: ' ' :: List.replicate n 'a').getLast (List.cons_ne_nil _ _)
          = (List.replicate n 'a').getLast hne := by
        rw [List.getLast_cons (List.cons_ne_nil _ _), List.getLast_cons hne]
      rw [h2]
      exact (List.mem_replicate.mp (List.getLast_mem hne)).2
    rw [hlast]
    decide
  have hstrip : stripPrompt ('$' :: ' ' :: List.replicate n 'a')
      = some (List.replicate n 'a') := by
    simp [stripPrompt, hasPrefix, String.toList]
  constructor
  · rw [extractCommands_eq_spec_aux]
    have hshort : shortLines ('$' :: ' ' :: List.replicate n 'a') = [] := by
      unfold shortLines
      rw [hlines]
      have : ¬ (byteLen ('$' :: ' ' :: List.replicate n 'a') < MaxScanTokenSize) := by
        rw [hlen]; omega
      simp only [List.takeWhile_cons, this, decide_False, Bool.false_eq_true, if_false]
    simp only [extractCommandsSpec, commandsReference, hfb, hshort, List.flatMap_nil,
      List.map_nil, List.filterMap_nil, List.append_nil, List.filter_nil, firstOccurrences]
  · simp only [extractCommandsRef, commandsReference, hfb, hlines, List.flatMap_nil,
      List.map_cons, List.map_nil, htrim, List.filterMap_cons, hstrip, List.filterMap_nil,
      List.nil_append, hrep, List.filter_cons, hne, ne_eq, not_false_eq_true, decide_True,
      if_true, List.filter_nil, firstOccurrences]

/-- C2 (counterexample). Two answers on which `extractCommands` differs from
the reference of the claim. A fenced block tagged "Bash" is a shell block for
the code, which lower-cases the tag, and not for the reference. An answer that
is one line of 65538 bytes, "$ " followed by 65536 letters, yields nothing in
the code, whose line scanner gives up on a line of 64 KiB or more, while the
reference yields the line without its prompt. -/
theorem extractCommands_differs_from_reference :
    (extractCommands none "```Bash\nls\n```".toList = ["ls".toList] ∧
      extractCommandsRef "```Bash\nls\n```".toList = []) ∧
    (extractCommands none ('$' :: ' ' :: List.replicate 65536 'a') = [] ∧
      extractCommandsRef ('$' :: ' ' :: List.replicate 65536 'a')
        = [List.replicate 65536 'a']) :=
  ⟨⟨by decide, by decide⟩, long_line_commands 65536 (by decide) (by decide)⟩

/-- C2 (amended). With no command regex configured, `extractCommands answer`
equals the reference read as follows: lines are the newline-separated segments
up to the first one of 65536 bytes or more (where the line scanner stops); the
lines of a fenced code block are those of its trimmed body; and a block is a
shell block when its language tag, lower-cased, is sh, bash, zsh or shell.
For the answer of the test this yields "ls -la", "echo \"hi\"", "git status". -/
theorem extractCommands_eq_spec :
    (∀ answer : GoString, extractCommands none answer = extractCommandsSpec answer) ∧
    extractCommands none testAnswer
      = ["ls -la".toList, "echo \"hi\"".toList, "git status".toList] :=
  ⟨extractCommands_eq_spec_aux, by decide⟩

/-! ## Theorems: subscription ids -/

theorem subscribeSeq_counter (args : Nat → SubscribeArgs) (n : Nat) :
    (subscribeSeq args n).1.sid = (100000000 + n) % 2 ^ 32 := by
  induction n with
  | zero => rfl
  | succ n ih =>
    simp only [subscribeSeq, subscribe, toUint32, ih]
    omega

theorem subscribeSeq_sid (args : Nat → SubscribeArgs) (n : Nat) (h : 1 ≤ n) :
    (subscribeSeq args n).2.map Sub.sid = some ((100000000 + n) % 2 ^ 32) := by
  cases n with
  | zero => omega
  | succ n =>
    have hc := subscribeSeq_counter args n
    simp only [subscribeSeq, subscribe, toUint32, Option.map_some', hc, Option.some.injEq]
    omega

/-- C11 (counterexample). The 4194967296-th subscription after `init`
(4194967296 = 2 ^ 32 - 100000000) is assigned sid 0: the 32-bit counter has
wrapped around, so the sid is below 100000000 and below the sid of the
subscription before it, which is 4294967295. -/
theorem subscribe_sid_wraps :
    (subscribeSeq (fun _ => sampleArgs) 4194967296).2.map Sub.sid = some 0 ∧
    (subscribeSeq (fun _ => sampleArgs) 4194967295).2.map Sub.sid = some 4294967295 :=
  ⟨subscribeSeq_sid _ 4194967296 (by decide), subscribeSeq_sid _ 4194967295 (by decide)⟩

/-- C11 (amended). The n-th subscription made after `init`, one after the
other, is assigned sid 100000000 + n for every n from 1 up to
4194967295 = 2 ^ 32 - 100000000 - 1 (so these sids are at least 100000000 and
strictly increasing); in general it is assigned (100000000 + n) mod 2 ^ 32,
the counter being an unsigned 32-bit integer that wraps around. -/
theorem subscribe_sid_before_wrap (args : Nat → SubscribeArgs) (n : Nat) (h1 : 1 ≤ n)
    (h2 : n ≤ 4194967295) :
    (subscribeSeq args n).2.map Sub.sid = some (100000000 + n) ∧
    (∀ m, 1 ≤ m → m < n → (subscribeSeq args m).2.map Sub.sid = some (100000000 + m)) ∧
    ∀ k, 1 ≤ k → (subscribeSeq args k).2.map Sub.sid = some ((100000000 + k) % 2 ^ 32) := by
  refine ⟨?_, ?_, fun k hk => subscribeSeq_sid args k hk⟩
  · rw [subscribeSeq_sid args n h1]
    congr 1
    omega
  · intro m hm1 hm2
    rw [subscribeSeq_sid args m hm1]
    congr 1
    omega

theorem subscribe_sid_before_wrap_witness :
    (subscribeSeq (fun _ => sampleArgs) 3).2.map Sub.sid = some 100000003 :=
  (subscribe_sid_before_wrap (fun _ => sampleArgs) 3 (by decide) (by decide)).1

/-! ## Theorems: response frames, routing, state handler -/

theorem readResponse_responseFrame (status : Byte) (payload rest : List Byte)
    (h : payload.length < 2 ^ 32) :
    readResponse (responseFrame status payload ++ rest) = some (status, payload, rest) := by
  have hl : toUint32 payload.length = payload.length := Nat.mod_eq_of_lt h
  have hu := uint32BE_putUint32 payload.length h
  simp only [putUint32] at hu
  simp only [responseFrame, hl, putUint32, List.cons_append, List.nil_append, List.append_assoc,
    readResponse, hu, List.length_append, Nat.le_add_right, if_true, List.take_left',
    List.drop_left']

theorem StateRequest.Handle_state_found (c : Codec) (ps : Providers) (writeOk : Bool)
    (statusDone : List Byte) (format : Byte) (data : List Byte) (req : ProviderStateRequest)
    (p : Provider) (state : StateFn) (res : ProviderStateResponse) (b : List Byte)
    (hreq : StateRequest.decode c format data = some req)
    (hp : ps.indexOk (StateRequest.route req.provider) = some p)
    (hstate : p.State = some state) (hres : state req.provider = some res)
    (henc : (if format = 0 then c.protoMarshalState ⟨req.provider, res.states, res.actions⟩
      else if format = 1 then c.jsonMarshalState ⟨req.provider, res.states, res.actions⟩
      else some []) = some b) :
    StateRequest.Handle c ps writeOk statusDone format data =
      ⟨if writeOk then [responseFrame 3 b, statusDone] else [responseFrame 3 b], .returned⟩ := by
  simp only [Providers.indexOk] at hp
  simp only [StateRequest.Handle, hreq, Providers.index, hp, Option.getD_some, hstate, hres]
  simp only [henc]
  cases writeOk <;> rfl

theorem ActivateRequest.Handle_activate_found (c : Codec) (ps : Providers) (format : Byte) (conn : Conn)
    (data : List Byte) (req : ActivateRequestMsg) (p : Provider) (activate : ActivateFn)
    (hreq : ActivateRequest.decode c format data = some req)
    (hp : ps.indexOk (ActivateRequest.route req.provider) = some p)
    (hact : p.Activate = some activate) :
    ActivateRequest.Handle c ps format conn data =
      ⟨[.activated (activate req.single req.identifier req.action req.query req.arguments
          format conn), .wrote (responseFrame ActivationFinished [])], .returned⟩ := by
  simp only [ActivateRequest.Handle, hreq, hp, hact]
  rfl

/-- C12. Layout of the response frames, `status byte ++ 4-byte big-endian
payload length ++ payload` (`responseFrame`). The frame `updated` builds has
status 0 and as payload the encoded `SubscribeResponse` (for a format byte
other than 0 and 1 nothing is encoded and the payload is empty). For a state
request that is decoded, routed to an existing provider and encoded, the first
frame the state handler writes has status 3 and the encoded state response as
payload. For an activation request that is decoded and routed to an existing
provider, the handler writes, after `Activate` has returned and exactly once,
the 5-byte frame of `ActivationFinished` followed by four zero bytes. A frame
of this layout with a payload shorter than `2 ^ 32` bytes is read back as its
status and payload. -/
theorem response_frames_layout (c : Codec) (ps : Providers) (writeOk : Bool)
    (statusDone : List Byte) (format : Byte) (conn : Conn) (value : GoString)
    (sdata adata : List Byte) (sreq : ProviderStateRequest) (sp ap : Provider)
    (state : StateFn) (res : ProviderStateResponse) (b : List Byte)
    (areq : ActivateRequestMsg) (activate : ActivateFn)
    (hsreq : StateRequest.decode c format sdata = some sreq)
    (hsp : ps.indexOk (StateRequest.route sreq.provider) = some sp)
    (hstate : sp.State = some state) (hres : state sreq.provider = some res)
    (henc : (if format = 0 then c.protoMarshalState ⟨sreq.provider, res.states, res.actions⟩
      else if format = 1 then c.jsonMarshalState ⟨sreq.provider, res.states, res.actions⟩
      else some []) = some b)
    (hareq : ActivateRequest.decode c format adata = some areq)
    (hap : ps.indexOk (ActivateRequest.route areq.provider) = some ap)
    (hact : ap.Activate = some activate) :
    (updatedFrame c format conn value).bytes =
      responseFrame 0 (if format = 0 then c.protoMarshalSubscribe ⟨value⟩
        else if format = 1 then c.jsonMarshalSubscribe ⟨value⟩ else []) ∧
    (StateRequest.Handle c ps writeOk statusDone format sdata).writes.head?
      = some (responseFrame 3 b) ∧
    (ActivateRequest.Handle c ps format conn adata).trace =
      [.activated (activate areq.single areq.identifier areq.action areq.query areq.arguments
        format conn), .wrote [ActivationFinished, 0, 0, 0, 0]] ∧
    ∀ (status : Byte) (payload rest : List Byte), payload.length < 2 ^ 32 →
      readResponse (responseFrame status payload ++ rest) = some (status, payload, rest) := by
  refine ⟨rfl, ?_, ?_, readResponse_responseFrame⟩
  · rw [StateRequest.Handle_state_found c ps writeOk statusDone format sdata sreq sp state res b hsreq
      hsp hstate hres henc]
    cases writeOk <;> rfl
  · rw [ActivateRequest.Handle_activate_found c ps format conn adata areq ap activate hareq hap hact]
    rfl

theorem response_frames_layout_witness :
    (updatedFrame sampleCodec 1 7 "x".toList).bytes = [0, 0, 0, 0, 1, 120] ∧
    (StateRequest.Handle sampleCodec [("files".toList, fullProvider ⟨[], [], []⟩)] true
      [230, 0, 0, 0, 0] 1 [102, 105, 108, 101, 115]).writes.head?
      = some [3, 0, 0, 0, 5, 102, 105, 108, 101, 115] ∧
    (ActivateRequest.Handle sampleCodec [("files".toList, fullProvider ⟨[], [], []⟩)] 1 7
      [102, 105, 108, 101, 115]).trace = [.activated [], .wrote [2, 0, 0, 0, 0]] := by
  have h := response_frames_layout sampleCodec [("files".toList, fullProvider ⟨[], [], []⟩)] true
    [230, 0, 0, 0, 0] 1 7 "x".toList [102, 105, 108, 101, 115] [102, 105, 108, 101, 115]
    ⟨"files".toList⟩ (fullProvider ⟨[], [], []⟩) (fullProvider ⟨[], [], []⟩)
    (fun _ => some ⟨[], [], []⟩) ⟨[], [], []⟩ [102, 105, 108, 101, 115]
    ⟨"files".toList, [], [], [], [], false⟩ (fun _ _ _ _ _ _ _ => [])
    (by decide) rfl rfl rfl (by decide) (by decide) rfl rfl
  exact ⟨h.1.trans (by decide), h.2.1.trans (by decide), h.2.2.1⟩

theorem split_ne_nil (s : GoString) (sep : Char) : split s sep ≠ [] := by
  cases s with
  | nil => simp [split]
  | cons c t =>
    unfold split
    split
    · simp
    · split <;> simp

theorem split_head (s : GoString) (sep : Char) :
    (split s sep).headD [] = s.takeWhile (fun c => decide (c ≠ sep)) := by
  induction s with
  | nil => rfl
  | cons c t ih =>
    by_cases hc : c = sep
    · simp [split, hc]
    · have hd : decide (c ≠ sep) = true := by simpa using hc
      rw [List.takeWhile_cons, hd, if_pos rfl, ← ih]
      simp only [split, hc, if_false]
      cases hs : split t sep with
      | nil => exact absurd hs (split_ne_nil t sep)
      | cons l ls => rfl

theorem ActivateRequest.route_activate_eq (k : GoString) : ActivateRequest.route k = routeSpec k := by
  unfold ActivateRequest.route routeSpec hasPrefix
  by_cases h : "menus:".toList <+: k
  · have h1 : List.isPrefixOf "menus:".toList k = true := List.isPrefixOf_iff_prefix.mpr h
    obtain ⟨r, rfl⟩ := h
    simp only [h1, if_true, split_head, List.prefix_append]
    rfl
  · have h1 : List.isPrefixOf "menus:".toList k = false := by
      rw [← Bool.not_eq_true, List.isPrefixOf_iff_prefix]; exact h
    simp only [h1, h, if_false, Bool.false_eq_true]

theorem StateRequest.route_state_eq (k : GoString) : StateRequest.route k = routeSpec k := by
  unfold StateRequest.route routeSpec hasPrefix
  by_cases h : "menus:".toList <+: k
  · have h1 : List.isPrefixOf "menus:".toList k = true := List.isPrefixOf_iff_prefix.mpr h
    simp only [h1, h, if_true]
  · have h1 : List.isPrefixOf "menus:".toList k = false := by
      rw [← Bool.not_eq_true, List.isPrefixOf_iff_prefix]; exact h
    simp only [h1, h, if_false, Bool.false_eq_true]

/-- C13. For every provider key `k`, the activation handler and the state
handler look up the same registry entry: "menus" when `k` starts with
"menus:", and `k` itself otherwise. The provider function each handler calls
is the one of that entry: whenever the registry has an entry `p` under that
name, the activation handler's trace is the call of `p.Activate` followed by
the completion frame, and the state handler encodes the result of `p.State`. -/
theorem handlers_route_menus (k : GoString) :
    ActivateRequest.route k = routeSpec k ∧ StateRequest.route k = routeSpec k ∧
    (∀ (c : Codec) (ps : Providers) (format : Byte) (conn : Conn) (data : List Byte)
      (req : ActivateRequestMsg) (p : Provider) (activate : ActivateFn),
      ActivateRequest.decode c format data = some req → req.provider = k →
      ps.indexOk (routeSpec k) = some p → p.Activate = some activate →
      ActivateRequest.Handle c ps format conn data =
        ⟨[.activated (activate req.single req.identifier req.action req.query req.arguments
            format conn), .wrote (responseFrame ActivationFinished [])], .returned⟩) ∧
    (∀ (c : Codec) (ps : Providers) (writeOk : Bool) (statusDone : List Byte) (format : Byte)
      (data : List Byte) (req : ProviderStateRequest) (p : Provider) (state : StateFn)
      (res : ProviderStateResponse) (b : List Byte),
      StateRequest.decode c format data = some req → req.provider = k →
      ps.indexOk (routeSpec k) = some p → p.State = some state → state k = some res →
      (if format = 0 then c.protoMarshalState ⟨k, res.states, res.actions⟩
        else if format = 1 then c.jsonMarshalState ⟨k, res.states, res.actions⟩
        else some []) = some b →
      StateRequest.Handle c ps writeOk statusDone format data =
        ⟨if writeOk then [responseFrame 3 b, statusDone] else [responseFrame 3 b],
          .returned⟩) := by
  refine ⟨ActivateRequest.route_activate_eq k, StateRequest.route_state_eq k, ?_, ?_⟩
  · intro c ps format conn data req p activate hreq hk hp hact
    subst hk
    rw [← ActivateRequest.route_activate_eq] at hp
    exact ActivateRequest.Handle_activate_found c ps format conn data req p activate hreq hp hact
  · intro c ps writeOk statusDone format data req p state res b hreq hk hp hstate hres henc
    subst hk
    rw [← StateRequest.route_state_eq] at hp
    exact StateRequest.Handle_state_found c ps writeOk statusDone format data req p state res b hreq hp
      hstate hres henc

theorem handlers_route_menus_witness :
    ActivateRequest.route "menus:bookmarks".toList = "menus".toList ∧
    StateRequest.route "menus:bookmarks".toList = "menus".toList ∧
    ActivateRequest.Handle sampleCodec [("menus".toList, fullProvider ⟨[], [], []⟩)] 1 7
      ("menus:bookmarks".toList.map (fun ch => toByte ch.toNat))
      = ⟨[.activated [], .wrote [2, 0, 0, 0, 0]], .returned⟩ := by
  have h := handlers_route_menus "menus:bookmarks".toList
  refine ⟨h.1.trans (by decide), h.2.1.trans (by decide), ?_⟩
  exact h.2.2.1 sampleCodec [("menus".toList, fullProvider ⟨[], [], []⟩)] 1 7
    ("menus:bookmarks".toList.map (fun ch => toByte ch.toNat))
    ⟨"menus:bookmarks".toList, [], [], [], [], false⟩ (fullProvider ⟨[], [], []⟩)
    (fun _ _ _ _ _ _ _ => []) (by decide) rfl rfl rfl

/-- C14. For every ProviderState request in format 0 or 1 that is decoded
and whose routed provider exists (its `State` returns a response `res`), the
payload of the StateItem(3) frame the handler writes is the encoding of the
message whose provider field is the provider key of the request, verbatim,
whatever `res.provider` was, and whose states and actions are those of `res`;
the Done frame follows when the write succeeds. -/
theorem state_handler_stamps_provider (c : Codec) (ps : Providers) (writeOk : Bool)
    (statusDone : List Byte) (format : Byte) (data : List Byte) (req : ProviderStateRequest)
    (p : Provider) (state : StateFn) (res : ProviderStateResponse) (b : List Byte)
    (hf : format = 0 ∨ format = 1)
    (hreq : StateRequest.decode c format data = some req)
    (hp : ps.indexOk (StateRequest.route req.provider) = some p)
    (hstate : p.State = some state) (hres : state req.provider = some res)
    (henc : (if format = 0 then c.protoMarshalState ⟨req.provider, res.states, res.actions⟩
      else c.jsonMarshalState ⟨req.provider, res.states, res.actions⟩) = some b) :
    StateRequest.Handle c ps writeOk statusDone format data =
      ⟨if writeOk then [responseFrame 3 b, statusDone] else [responseFrame 3 b], .returned⟩ := by
  apply StateRequest.Handle_state_found c ps writeOk statusDone format data req p state res b hreq hp
    hstate hres
  rcases hf with hf | hf
  · subst hf; simpa using henc
  · subst hf; simpa using henc

theorem state_handler_stamps_provider_witness :
    StateRequest.Handle sampleCodec
      [("menus".toList, fullProvider ⟨"other".toList, ["s".toList], ["a".toList]⟩)] true
      [230, 0, 0, 0, 0] 1 ("menus:bookmarks".toList.map (fun ch => toByte ch.toNat))
      = ⟨[responseFrame 3 ("menus:bookmarks".toList.map (fun ch => toByte ch.toNat)),
          [230, 0, 0, 0, 0]], .returned⟩ :=
  state_handler_stamps_provider sampleCodec
    [("menus".toList, fullProvider ⟨"other".toList, ["s".toList], ["a".toList]⟩)] true
    [230, 0, 0, 0, 0] 1 ("menus:bookmarks".toList.map (fun ch => toByte ch.toNat))
    ⟨"menus:bookmarks".toList⟩ (fullProvider ⟨"other".toList, ["s".toList], ["a".toList]⟩)
    (fun _ => some ⟨"other".toList, ["s".toList], ["a".toList]⟩)
    ⟨"other".toList, ["s".toList], ["a".toList]⟩
    ("menus:bookmarks".toList.map (fun ch => toByte ch.toNat))
    (Or.inr rfl) (by decide) rfl rfl rfl (by decide)

/-! ## Theorems: multi-field scoring -/

theorem toInt32_of_range (x : Int) (h1 : -2 ^ 31 ≤ x) (h2 : x < 2 ^ 31) : toInt32 x = x := by
  unfold toInt32
  omega

theorem rangeToSearch_le (F : FuzzyScoreFn) (q : GoString) (exact : Bool) :
    ∀ (rest : List GoString) (k : Nat) (vars : ScoreVars),
      (∀ u ∈ rest, (F q u exact).1 ≤ vars.scoreRes) →
      rangeToSearch F q exact k rest vars = vars
  | [], _, _, _ => rfl
  | u :: rest, k, vars, h => by
    have hu : ¬ (F q u exact).1 > vars.scoreRes := by
      have := h u (List.mem_cons_self _ _)
      omega
    simp only [rangeToSearch, hu, if_false]
    exact rangeToSearch_le F q exact rest (k + 1) vars
      (fun w hw => h w (List.mem_cons_of_mem _ hw))

theorem rangeToSearch_first (F : FuzzyScoreFn) (q : GoString) (exact : Bool) (v : GoString)
    (post : List GoString) (s : Int) (pos : List Int) (st : Int)
    (hv : F q v exact = (s, pos, st)) (hpost : ∀ u ∈ post, (F q u exact).1 ≤ s) :
    ∀ (pre : List GoString) (k : Nat) (vars : ScoreVars), vars.scoreRes < s →
      (∀ u ∈ pre, (F q u exact).1 < s) →
      rangeToSearch F q exact k (pre ++ v :: post) vars
        = ⟨s, pos, st, v, toInt32 ((k + pre.length : Nat) : Int)⟩
  | [], k, vars, hlt, _ => by
    have hgt : (F q v exact).1 > vars.scoreRes := by rw [hv]; exact hlt
    simp only [List.nil_append, rangeToSearch, hgt, if_true, List.length_nil, Nat.add_zero]
    rw [rangeToSearch_le F q exact post (k + 1) _ (by simpa [hv] using hpost)]
    simp [hv]
  | u :: pre, k, vars, hlt, hpre => by
    have hu : (F q u exact).1 < s := hpre u (List.mem_cons_self _ _)
    have hrest : ∀ w ∈ pre, (F q w exact).1 < s := fun w hw => hpre w (List.mem_cons_of_mem _ hw)
    have hidx : k + (u :: pre).length = k + 1 + pre.length := by
      simp only [List.length_cons]; omega
    rw [hidx]
    by_cases hgt : (F q u exact).1 > vars.scoreRes
    · have ih := rangeToSearch_first F q exact v post s pos st hv hpost pre (k + 1)
        ⟨(F q u exact).1, (F q u exact).2.1, (F q u exact).2.2, u, toInt32 k⟩ hu hrest
      simp only [List.cons_append, rangeToSearch, hgt, if_true]
      exact ih
    · have ih := rangeToSearch_first F q exact v post s pos st hv hpost pre (k + 1) vars hlt
        hrest
      simp only [List.cons_append, rangeToSearch, hgt, if_false]
      exact ih

theorem get?_decompose {α : Type} : ∀ (ts : List α) (k : Nat) (v : α), ts.get? k = some v →
    ∃ pre post, ts = pre ++ v :: post ∧ pre.length = k
  | [], _, _, h => by simp at h
  | a :: ts, 0, v, h => by
    simp only [List.get?_cons_zero, Option.some.injEq] at h
    exact ⟨[], ts, by simp [h], rfl⟩
  | a :: ts, k + 1, v, h => by
    obtain ⟨pre, post, h1, h2⟩ := get?_decompose ts k v (by simpa using h)
    exact ⟨a :: pre, post, by simp [h1], by simp [h2]⟩

theorem rangeToSearch_found (F : FuzzyScoreFn) (q : GoString) (exact : Bool)
    (ts : List GoString) (k : Nat) (v : GoString) (s : Int) (pos : List Int) (st : Int)
    (hk : ts.get? k = some v) (hv : F q v exact = (s, pos, st)) (hs : 0 < s)
    (hmax : ∀ j u, ts.get? j = some u → (F q u exact).1 ≤ s)
    (hfirst : ∀ j u, j < k → ts.get? j = some u → (F q u exact).1 < s) :
    rangeToSearch F q exact 0 ts ScoreVars.zero = ⟨s, pos, st, v, toInt32 (k : Int)⟩ := by
  obtain ⟨pre, post, hts, hlen⟩ := get?_decompose ts k v hk
  subst hts
  have hpost : ∀ u ∈ post, (F q u exact).1 ≤ s := by
    intro u hu
    obtain ⟨j, hj⟩ := List.mem_iff_get?.mp
      (List.mem_append_right pre (List.mem_cons_of_mem v hu))
    exact hmax j u hj
  have hpre : ∀ u ∈ pre, (F q u exact).1 < s := by
    intro u hu
    obtain ⟨j, hj⟩ := List.mem_iff_get?.mp hu
    have hjlt : j < pre.length := by
      by_contra hnot
      rw [List.get?_eq_none.mpr (by omega)] at hj
      cases hj
    have hj2 : (pre ++ v :: post).get? j = some u := by
      rw [List.get?_eq_getElem?, List.getElem?_append_left hjlt, ← List.get?_eq_getElem?]; exact hj
    exact hfirst j u (by omega) hj2
  rw [rangeToSearch_first F q exact v post s pos st hv hpost pre 0 ScoreVars.zero hs hpre]
  simp [hlen]

theorem rangeToSearch_none (F : FuzzyScoreFn) (q : GoString) (exact : Bool)
    (ts : List GoString) (h : ∀ u ∈ ts, (F q u exact).1 ≤ 0) :
    rangeToSearch F q exact 0 ts ScoreVars.zero = ScoreVars.zero :=
  rangeToSearch_le F q exact ts 0 ScoreVars.zero h

theorem finishWithModifier_spec (F : FuzzyScoreFn) (q : GoString) (exact : Bool)
    (ts : List GoString) :
    IsMultiFieldResult F q exact ts
      (finishWithModifier (rangeToSearch F q exact 0 ts ScoreVars.zero)) := by
  refine ⟨?_, ?_, ?_⟩
  · intro h
    rw [rangeToSearch_none F q exact ts h]
    rfl
  · intro k v s pos st hk hv hs hmax hfirst
    rw [rangeToSearch_found F q exact ts k v s pos st hk hv hs hmax hfirst]
    have hne : s ≠ 0 := by omega
    simp only [finishWithModifier, hne, if_false, adjustedScore]
  · intro hf
    unfold finishWithModifier at hf ⊢
    split
    · rename_i h0
      simp [h0] at hf
    · exact le_max_right _ _

theorem adjustedScore_exact (s : Int) (k : Nat) (st : Int) (hs0 : 0 < s)
    (hfit : ScoreFits s k st) : adjustedScore s k st = scoreFormula s k st := by
  obtain ⟨hs, hk, hlo, hhi⟩ := hfit
  unfold adjustedScore scoreFormula
  have h1 : toInt32 (k : Int) = k := toInt32_of_range _ (by omega) (by omega)
  have h2 : toInt32 ((k : Int) * 5) = 5 * (k : Int) := by
    rw [toInt32_of_range _ (by omega) (by omega)]
    omega
  have hm : 0 ≤ min (5 * (k : Int)) 50 ∧ min (5 * (k : Int)) 50 ≤ 50 := by
    constructor
    · exact le_min (by omega) (by omega)
    · exact min_le_right _ _
  rw [h1, h2, toInt32_of_range (s - min (5 * (k : Int)) 50) (by omega) (by omega),
    toInt32_of_range _ hlo hhi]

theorem formulaResult_of_result (F : FuzzyScoreFn) (q : GoString) (exact : Bool)
    (ts : List GoString) (r : ScoreResult) (h : IsMultiFieldResult F q exact ts r) :
    IsMultiFieldFormulaResult F q exact ts r := by
  obtain ⟨h1, h2, h3⟩ := h
  refine ⟨h1, ?_, h3⟩
  intro k v s pos st hk hv hs hmax hfirst hfit
  rw [h2 k v s pos st hk hv hs hmax hfirst, adjustedScore_exact s k st hs hfit]

/-- C15 (counterexample). With a scorer that gives the second field (index 1)
the score 1 at start offset 2147483647 and every other field 0,
`menus.calcScore` returns the score 2147483645: the `int32` subtraction
`1 - 5 - 2147483647` wraps around. The formula `max(s - min(5k, 50) - st, 10)`
gives 10. -/
theorem calcScore_multi_field_wraps :
    menus.calcScore overflowScore "q".toList (sampleEntry "zz".toList "abc".toList []) false =
      ⟨"abc".toList, 2147483645, [], 2147483647, true⟩ ∧
    overflowScore "q".toList "zz".toList false = (0, [], 0) ∧
    overflowScore "q".toList "abc".toList false = (1, [], 2147483647) ∧
    scoreFormula 1 1 2147483647 = 10 := by
  refine ⟨by decide, by decide, by decide, by decide⟩

/-- C15 (amended). `calcScore` of the `menus` provider (fields: text,
subtext, then the keywords) and of the `desktopapplications` provider
(fields: the name alone, or name, exec, parent, generic name, joined keywords,
comment), for an arbitrary fuzzy scorer: if no field scores above 0 the result
is ("", 0, nil, 0, false); otherwise, with `s` the maximum per-field score,
`k` the first index attaining it and `st` that field's start, the result is
that field's text, the score, that field's positions and start, and true; a
found result has score at least 10. The score is
`max(s - min(5k, 50) - st, 10)` whenever the computation stays within the
range of `int32` (`s < 2^31`, `5k < 2^31` and
`-2^31 ≤ s - min(5k, 50) - st < 2^31`), and in general that expression with
every operation wrapping around as `int32` operations do. -/
theorem calcScore_multi_field (F : FuzzyScoreFn) (q : GoString) (exact : Bool) (d : Entry)
    (a : Data) (onlySearchTitle : Bool) :
    IsMultiFieldFormulaResult F q exact ([d.text, d.subtext] ++ d.keywords)
      (menus.calcScore F q d exact) ∧
    IsMultiFieldFormulaResult F q exact
      (if onlySearchTitle then [a.name]
        else [a.name, a.exec, a.parent, a.genericName, join a.keywords ",".toList, a.comment])
      (desktopapplications.calcScore F onlySearchTitle q a exact) ∧
    IsMultiFieldResult F q exact ([d.text, d.subtext] ++ d.keywords)
      (menus.calcScore F q d exact) ∧
    IsMultiFieldResult F q exact
      (if onlySearchTitle then [a.name]
        else [a.name, a.exec, a.parent, a.genericName, join a.keywords ",".toList, a.comment])
      (desktopapplications.calcScore F onlySearchTitle q a exact) := by
  have hm : IsMultiFieldResult F q exact ([d.text, d.subtext] ++ d.keywords)
      (menus.calcScore F q d exact) := finishWithModifier_spec F q exact _
  have hd : IsMultiFieldResult F q exact
      (if onlySearchTitle then [a.name]
        else [a.name, a.exec, a.parent, a.genericName, join a.keywords ",".toList, a.comment])
      (desktopapplications.calcScore F onlySearchTitle q a exact) := by
    cases onlySearchTitle
    · exact finishWithModifier_spec F q exact _
    · exact finishWithModifier_spec F q exact _
  exact ⟨formulaResult_of_result F q exact _ _ hm, formulaResult_of_result F q exact _ _ hd,
    hm, hd⟩

theorem calcScore_multi_field_witness :
    ScoreFits 20 2 0 ∧
    menus.calcScore sampleScore "ab".toList
      (sampleEntry "xx".toList "abc".toList ["abcd".toList, "abcd".toList]) false
      = ⟨"abcd".toList, 10, [], 0, true⟩ := by
  have hfit : ScoreFits 20 2 0 := by
    unfold ScoreFits
    norm_num
  have h := (calcScore_multi_field sampleScore "ab".toList false
    (sampleEntry "xx".toList "abc".toList ["abcd".toList, "abcd".toList])
    (sampleData [] []) true).1.2.1 2 "abcd".toList 20 [] 0 rfl rfl (by decide)
    (by
      intro j u hj
      match j, hj with
      | 0, hj => cases hj; decide
      | 1, hj => cases hj; decide
      | 2, hj => cases hj; decide
      | 3, hj => cases hj; decide
      | j + 4, hj => simp [sampleEntry] at hj)
    (by
      intro j u hlt hj
      match j, hlt, hj with
      | 0, _, hj => cases hj; decide
      | 1, _, hj => cases hj; decide
      | j + 2, hlt, _ => omega)
    hfit
  exact ⟨hfit, h.trans (by decide)⟩

/-- C16 (the code at a failing input). `calcScore` of the `windows` provider
and of the `snippets` provider subtract no field penalty: a match found only
in the second field (index 1) with raw score 15 and start 0 is returned with
score 15, where the adjustment `max(s - min(5k, 50) - st, 10)` gives 10. -/
theorem windows_snippets_no_field_penalty :
    windows.calcScore sampleScore "ab".toList ⟨"abc".toList, "zz".toList⟩ false
      = ⟨"abc".toList, 15, [], 0, true⟩ ∧
    snippets.calcScore sampleScore "ab".toList ⟨["abc".toList], "zz".toList, []⟩ false
      = (15, [], 0, true) ∧
    adjustedScore 15 1 0 = 10 ∧
    menus.calcScore sampleScore "ab".toList (sampleEntry "zz".toList "abc".toList []) false
      = ⟨"abc".toList, 10, [], 0, true⟩ := by
  refine ⟨by decide, by decide, by decide, by decide⟩

/-! ## Theorems: copilot filter and message pruning -/

/-- C17 (the code at a failing input). With `min_score` 30, a non-empty query
and an entry whose text scores exactly 30 (the sample scorer gives "status" 30
for the query "st"), `matchAndScore` returns false: the entry, which reaches
the minimum score, is not kept. -/
theorem matchAndScore_drops_equal_score :
    (sampleScore "st".toList (sampleItem "status".toList 0).text false).1 = 30 ∧
    (matchAndScore sampleScore 30 (sampleItem "status".toList 0) "st".toList false).2 = false := by
  constructor <;> decide

/-- What `matchAndScore` does for every scorer, entry and query: it keeps an
entry if and only if the query is empty or the fuzzy score of the entry's text
for the query is strictly greater than `config.MinScore`, so an entry scoring
exactly `MinScore` is dropped for every non-empty query; with an empty query
every entry is kept whatever its score. For a non-empty query the entry's
score becomes that fuzzy score. -/
theorem matchAndScore_keeps_iff (F : FuzzyScoreFn) (minScore : Int) (entry : Item)
    (query : GoString) (exact : Bool) :
    ((matchAndScore F minScore entry query exact).2 = true ↔
      query = [] ∨ (F query entry.text exact).1 > minScore) ∧
    ((F query entry.text exact).1 = minScore → query ≠ [] →
      (matchAndScore F minScore entry query exact).2 = false) ∧
    (query ≠ [] → (matchAndScore F minScore entry query exact).1.score
      = (F query entry.text exact).1) := by
  unfold matchAndScore
  by_cases hq : query = []
  · simp [hq]
  · simp only [hq, if_false, false_or, decide_eq_true_eq, ne_eq, not_false_eq_true,
      forall_const, true_and, decide_eq_false_iff_not]
    exact ⟨fun h => by omega, trivial⟩

theorem matchAndScore_keeps_iff_witness :
    (matchAndScore sampleScore 30 (sampleItem "status".toList 0) "st".toList false).2 = false ∧
    (matchAndScore sampleScore 30 (sampleItem "status".toList 0) "st".toList false).1.score
      = 30 :=
  ⟨(matchAndScore_keeps_iff sampleScore 30 (sampleItem "status".toList 0) "st".toList false).2.1
      (by decide) (by decide),
   ((matchAndScore_keeps_iff sampleScore 30 (sampleItem "status".toList 0) "st".toList
      false).2.2 (by decide)).trans (by decide)⟩

/-- C20. `pruneMessages` for a session with `n` messages and
`MaxStoredMessages = m`: when `m > 0` the session afterwards holds exactly the
last `min(n, m)` messages of the original list, in their original order, and
when `m ≤ 0` the list is unchanged; no other field of the session changes, and
a nil session stays nil. -/
theorem pruneMessages_keeps_last (m : Int) (s : Session) :
    pruneMessages m (some s) =
      some { s with messages :=
        if 0 < m then s.messages.drop (s.messages.length - min s.messages.length m.toNat)
        else s.messages } ∧
    (∀ s2, pruneMessages m (some s) = some s2 → 0 < m →
      s2.messages.length = min s.messages.length m.toNat ∧ s2.messages <:+ s.messages) ∧
    pruneMessages m none = none := by
  have hmain : pruneMessages m (some s) =
      some { s with messages :=
        if 0 < m then s.messages.drop (s.messages.length - min s.messages.length m.toNat)
        else s.messages } := by
    unfold pruneMessages sliceFrom
    by_cases hm : m ≤ 0
    · have : ¬ 0 < m := by omega
      simp [hm, this]
    · have hpos : 0 < m := by omega
      by_cases hle : (s.messages.length : Int) ≤ m
      · have hmin : min s.messages.length m.toNat = s.messages.length := by
          apply min_eq_left
          omega
        simp [hm, hpos, hle, hmin]
      · have hmin : min s.messages.length m.toNat = m.toNat := by
          apply min_eq_right
          omega
        have hidx : ((s.messages.length : Int) - m).toNat = s.messages.length - m.toNat := by
          omega
        simp [hm, hpos, hle, hmin, hidx]
  refine ⟨hmain, ?_, rfl⟩
  intro s2 hs2 hpos
  rw [hmain] at hs2
  simp only [hpos, if_true, Option.some.injEq] at hs2
  subst hs2
  refine ⟨?_, List.drop_suffix _ _⟩
  simp only [List.length_drop]
  omega

theorem pruneMessages_keeps_last_witness :
    (pruneMessages 2 (some (sampleSession
      [sampleMessage "a".toList, sampleMessage "b".toList, sampleMessage "c".toList]))
      = some (sampleSession [sampleMessage "b".toList, sampleMessage "c".toList])) ∧
    (sampleSession [sampleMessage "b".toList, sampleMessage "c".toList]).messages.length
      = min 3 2 := by
  have h := pruneMessages_keeps_last 2 (sampleSession
      [sampleMessage "a".toList, sampleMessage "b".toList, sampleMessage "c".toList])
  have h1 : pruneMessages 2 (some (sampleSession
      [sampleMessage "a".toList, sampleMessage "b".toList, sampleMessage "c".toList]))
      = some (sampleSession [sampleMessage "b".toList, sampleMessage "c".toList]) :=
    h.1.trans (by decide)
  exact ⟨h1, (h.2.1 _ h1 (by decide)).1⟩

/-! ## Theorems: desktop applications `Query` -/

/-- C18 (the code at a failing input). With `history = false`,
`history_when_empty = true` and an empty query, the application entry of
`Query` includes the usage score 5 of `CalcUsageScore` in its score and
carries the "history" state and the history-delete action. -/
theorem query_uses_history_when_disabled :
    (sampleConfig 20 false true false).history = false ∧
    desktopapplications.Query (sampleWorld (sampleConfig 20 false true false)) [] false =
      [{ identifier := "firefox".toList, text := "Firefox".toList, subtext := [], icon := [],
         provider := "desktopapplications".toList, score := 5,
         state := ["history".toList, "unpinned".toList],
         actions := ["start".toList, "erase_history".toList, "pin".toList],
         preview := [], previewType := [], fuzzy := some ⟨"text".toList, 0, []⟩ }] := by
  constructor <;> decide

theorem actionEntries_without_history (w : desktopapplications.World) (query aliased : GoString)
    (exact : Bool) (k : GoString) (v : desktopapplications.DesktopFile) (a : Data)
    (h : w.config.history = false) :
    ∀ item ∈ desktopapplications.actionEntries w query aliased exact k v a,
      "history".toList ∉ item.state := by
  intro item hitem
  unfold desktopapplications.actionEntries at hitem
  simp only [h, Bool.false_and, Bool.false_eq_true, if_false, ne_eq, not_true_eq_false,
    List.nil_append] at hitem
  split_ifs at hitem <;>
    first
    | (simp only [List.not_mem_nil] at hitem)
    | (simp only [List.mem_singleton] at hitem
       subst hitem
       dsimp only
       decide)

theorem appEntries_without_history (w : desktopapplications.World) (query : GoString)
    (exact : Bool) (k : GoString) (v : desktopapplications.DesktopFile)
    (h : w.config.history = false)
    (hq : w.config.historyWhenEmpty = false ∨ query ≠ []) :
    ∀ item ∈ desktopapplications.appEntries w query exact k v,
      "history".toList ∉ item.state := by
  have h2 : (decide (query = []) && w.config.historyWhenEmpty) = false := by
    rcases hq with hq | hq
    · simp [hq]
    · simp [hq]
  intro item hitem
  unfold desktopapplications.appEntries at hitem
  simp only [h, h2, Bool.false_and, Bool.or_self, Bool.false_eq_true, if_false, ne_eq,
    not_true_eq_false, List.nil_append] at hitem
  split_ifs at hitem <;>
    first
    | (simp only [List.not_mem_nil] at hitem)
    | (simp only [List.mem_singleton] at hitem
       subst hitem
       dsimp only
       decide)

/-- C19 (the code at two failing inputs). With `show_actions` on,
`min_score` 30 and a non-empty query: for `action_min_score` 20, the action
"Incog", whose match score 25 is at least `action_min_score`, is not emitted
(nothing is); for `action_min_score` 40, the action "Private", whose match
score 35 is below `action_min_score`, is emitted. The threshold applied to an
action is `min_score`; of `action_min_score` only its sign is used. -/
theorem query_ignores_action_min_score :
    (desktopapplications.calcScore sampleScore true "I".toList
      (sampleData "Incog".toList "incognito".toList) false).score = 25 ∧
    desktopapplications.Query (sampleWorld (sampleConfig 20 false false true)) "I".toList false
      = [] ∧
    (desktopapplications.calcScore sampleScore true "P".toList
      (sampleData "Private".toList "private".toList) false).score = 35 ∧
    desktopapplications.Query (sampleWorld (sampleConfig 40 false false true)) "P".toList false =
      [{ identifier := "firefox:private".toList, text := "Private".toList,
         subtext := "Firefox".toList, icon := [], provider := "desktopapplications".toList,
         score := 35, state := ["unpinned".toList],
         actions := ["start".toList, "pin".toList],
         preview := [], previewType := [], fuzzy := some ⟨"text".toList, 0, []⟩ }] := by
  refine ⟨by decide, by decide, by decide, by decide⟩

/-! ## Theorems: prompt and CLI mode of the copilot provider -/

/-- C21. `buildPrompt` enforces `max_context_messages`: for a session with
`n` messages and `MaxContextMessages = c`, the prompt is the system prompt (if
any), the conversation section and the text "User: <question>\nAssistant:".
The conversation section is absent when `n = 0` and otherwise holds one line
"<Role>: <content>" for each of the last `min(n, c)` messages in order (all
`n` when `c ≤ 0`); these messages are a suffix of the session's list, which
the function does not write to. -/
theorem buildPrompt_context_window (unicodeToTitle : Char → Char) (systemPrompt : GoString)
    (c : Int) (session : Session) (question : GoString) :
    buildPrompt unicodeToTitle systemPrompt c (some session) question =
      some ((if systemPrompt ≠ [] then systemPrompt ++ "\n\n".toList else []) ++
        conversationSection unicodeToTitle c session.messages ++
        "User: ".toList ++ question ++ "\nAssistant:".toList) ∧
    (contextMessages c session.messages).length =
      (if c > 0 then min session.messages.length c.toNat else session.messages.length) ∧
    contextMessages c session.messages <:+ session.messages ∧
    ∃ head : GoString,
      buildPrompt unicodeToTitle systemPrompt c (some session) question =
        some (head ++ ("User: ".toList ++ question ++ "\nAssistant:".toList)) := by
  have hctx : (if c > 0 ∧ (session.messages.length : Int) > c then
        sliceFrom session.messages (session.messages.length - c) else session.messages) =
      contextMessages c session.messages := by
    unfold contextMessages sliceFrom
    by_cases hc : c > 0
    · by_cases hn : (session.messages.length : Int) > c
      · rw [if_pos ⟨hc, hn⟩, if_pos hc]
        congr 1
        omega
      · rw [if_neg (fun h => hn h.2), if_pos hc]
        have : session.messages.length - min session.messages.length c.toNat = 0 := by omega
        rw [this, List.drop_zero]
    · rw [if_neg (fun h => hc h.1), if_neg hc]
  have hlen : (contextMessages c session.messages).length =
      (if c > 0 then min session.messages.length c.toNat else session.messages.length) := by
    unfold contextMessages
    split
    · rw [List.length_drop]; omega
    · rfl
  have heq : buildPrompt unicodeToTitle systemPrompt c (some session) question =
      some ((if systemPrompt ≠ [] then systemPrompt ++ "\n\n".toList else []) ++
        conversationSection unicodeToTitle c session.messages ++
        "User: ".toList ++ question ++ "\nAssistant:".toList) := by
    simp only [buildPrompt, hctx]
    congr 1
    unfold conversationSection
    by_cases hnil : session.messages = []
    · have h0 : ¬ (contextMessages c session.messages).length > 0 := by
        rw [hlen, hnil]; simp
      rw [if_neg h0, if_pos hnil, List.append_nil]
    · have hpos : 0 < session.messages.length := List.length_pos.mpr hnil
      have h1 : (contextMessages c session.messages).length > 0 := by
        rw [hlen]; split <;> omega
      rw [if_pos h1, if_neg hnil]
      have hpl : promptLine unicodeToTitle = fun m =>
          title unicodeToTitle m.role ++ (": ".toList ++ (m.content ++ "\n".toList)) := by
        funext m
        simp only [promptLine, List.append_assoc]
      simp only [List.append_assoc, hpl]
  refine ⟨heq, hlen, ?_, ?_⟩
  · unfold contextMessages
    split
    · exact List.drop_suffix _ _
    · exact List.suffix_refl _
  · refine ⟨(if systemPrompt ≠ [] then systemPrompt ++ "\n\n".toList else []) ++
      conversationSection unicodeToTitle c session.messages, ?_⟩
    rw [heq]
    simp only [List.append_assoc]

/-- C23. `effectiveCliMode` equals the decision table over `cli_mode`
(lower-cased, trimmed), the CLI selected in the state and the two facts
"copilot is installed" and "gh is installed"; its result is "", "copilot" or
"gh", and a non-empty result names an installed CLI. -/
theorem effectiveCliMode_decision_table (unicodeToLower : Char → Char) (cliMode : GoString)
    (state : Option CopilotState) (hasCopilot hasGh : Bool) :
    effectiveCliMode unicodeToLower cliMode state hasCopilot hasGh =
      cliModeTable (toLowerWith unicodeToLower (trimSpace cliMode))
        (state.map (fun st => st.currentCliMode)) hasCopilot hasGh ∧
    (effectiveCliMode unicodeToLower cliMode state hasCopilot hasGh = [] ∨
      (effectiveCliMode unicodeToLower cliMode state hasCopilot hasGh = "copilot".toList ∧
        hasCopilot = true) ∨
      (effectiveCliMode unicodeToLower cliMode state hasCopilot hasGh = "gh".toList ∧
        hasGh = true)) := by
  generalize hm : toLowerWith unicodeToLower (trimSpace cliMode) = m
  have htab : effectiveCliMode unicodeToLower cliMode state hasCopilot hasGh =
      cliModeTable m (state.map (fun st => st.currentCliMode)) hasCopilot hasGh := by
    unfold effectiveCliMode cliModeTable
    simp only [hm]
    cases state with
    | none =>
      cases hasCopilot <;> cases hasGh <;> simp
    | some st =>
      rcases st with ⟨_, _, _, sel, _⟩
      simp only [Option.map]
      by_cases h1 : sel = ['c', 'o', 'p', 'i', 'l', 'o', 't']
      · subst h1
        cases hasCopilot <;> cases hasGh <;> simp
      · by_cases h2 : sel = ['g', 'h']
        · subst h2
          cases hasCopilot <;> cases hasGh <;> simp
        · cases hasCopilot <;> cases hasGh <;> simp [h1, h2]
  refine ⟨htab, ?_⟩
  rw [htab]
  unfold cliModeTable
  cases hasCopilot <;> cases hasGh <;> dsimp only <;> split_ifs <;> simp_all

/-! ## Theorems: items of the menus provider -/

/-- C24. Every item `itemToEntry` builds is tagged with the fully-qualified
provider key: its provider field is "menus:" followed by `me.Menu`, and its
identifier and text are those of `me`. The goroutine started for an entry with
`Async` later rewrites the text of that item only: provider and identifier
stay. -/
theorem itemToEntry_provider_key (menuActions : List (GoString × GoString))
    (namePretty : GoString) (single : Bool) (icon : GoString) (me : Entry) :
    (menus.itemToEntry menuActions namePretty single icon me).item.provider =
      "menus:".toList ++ me.menu ∧
    (menus.itemToEntry menuActions namePretty single icon me).item.identifier = me.identifier ∧
    (menus.itemToEntry menuActions namePretty single icon me).item.text = me.text ∧
    ∀ out : Option GoString,
      (menus.asyncItem (menus.itemToEntry menuActions namePretty single icon me).item out).provider
        = "menus:".toList ++ me.menu ∧
      (menus.asyncItem (menus.itemToEntry menuActions namePretty single icon me).item
        out).identifier = me.identifier := by
  have hp : (menus.itemToEntry menuActions namePretty single icon me).item.provider =
      "menus:".toList ++ me.menu := by
    unfold menus.itemToEntry
    dsimp only
    split <;> rfl
  have hi : (menus.itemToEntry menuActions namePretty single icon me).item.identifier =
      me.identifier := by
    unfold menus.itemToEntry
    dsimp only
    split <;> rfl
  have ht : (menus.itemToEntry menuActions namePretty single icon me).item.text = me.text := by
    unfold menus.itemToEntry
    dsimp only
    split <;> rfl
  refine ⟨hp, hi, ht, ?_⟩
  intro out
  cases out with
  | none => exact ⟨hp, hi⟩
  | some o => exact ⟨hp, hi⟩

/-! ## Theorems: the `ProviderState` client -/

theorem responseFrame_length (status : Byte) (payload : List Byte) :
    (responseFrame status payload).length = 5 + payload.length := by
  simp only [responseFrame, putUint32, List.length_append, List.length_cons, List.length_nil]

theorem providerStateLoop_done (c : Codec) (j : Bool) (fuel : Nat) (rest : List Byte) :
    providerStateLoop c j (fuel + 1) (doneFrame ++ rest) =
      ⟨[], .panicked "invalid protocol prefix".toList⟩ := by
  simp only [doneFrame, StatusDone, List.cons_append, List.nil_append, providerStateLoop]
  rw [if_neg (by decide), if_pos (by decide)]

/-- C25 (the code on the sequence the claim names). Given one `StateItem(3)`
frame whose payload decodes, followed by a `Done(230)` frame of length zero,
`client.ProviderState` prints the decoded state and then panics with "invalid
protocol prefix" on the `Done` frame: it does not return. -/
theorem providerState_client_panics_on_done (c : Codec) (j : Bool) (payload rest : List Byte)
    (resp : ProviderStateResponse) (line : Printed)
    (hlen : 5 + payload.length < 2 ^ 32)
    (hdec : c.jsonUnmarshalStateResponse payload = some resp)
    (hline : (if j then (c.jsonMarshalState resp).map Printed.json
      else some (Printed.text resp)) = some line) :
    ProviderState c j (responseFrame 3 payload ++ doneFrame ++ rest) =
      ⟨[line], .panicked "invalid protocol prefix".toList⟩ := by
  have hl : toUint32 payload.length = payload.length := Nat.mod_eq_of_lt (by omega)
  have hu := uint32BE_putUint32 payload.length (by omega)
  have hsize : toUint32 (5 + payload.length) = (responseFrame 3 payload).length := by
    rw [responseFrame_length]
    exact Nat.mod_eq_of_lt hlen
  have hread : readFull (responseFrame 3 payload).length
      (responseFrame 3 payload ++ (doneFrame ++ rest)) =
      .ok (responseFrame 3 payload) (doneFrame ++ rest) := readFull_append _ _
  have hdrop : (responseFrame 3 payload).drop 5 = payload := by
    simp only [responseFrame, putUint32, List.cons_append, List.nil_append, List.drop_succ_cons,
      List.drop_zero]
  have hfuel : (responseFrame 3 payload ++ doneFrame ++ rest).length =
      (payload.length + rest.length + 9) + 1 := by
    simp only [List.length_append, responseFrame_length, doneFrame, List.length_cons,
      List.length_nil]
    omega
  have hshape : responseFrame 3 payload ++ doneFrame ++ rest =
      (3 : Byte) :: toByte (payload.length / 2 ^ 24) :: toByte (payload.length / 2 ^ 16) ::
        toByte (payload.length / 2 ^ 8) :: toByte payload.length ::
        (payload ++ (doneFrame ++ rest)) := by
    simp only [responseFrame, hl, putUint32, List.cons_append, List.nil_append,
      List.append_assoc]
  unfold ProviderState
  rw [hfuel]
  conv => lhs; rw [providerStateLoop.eq_def]
  simp only []
  rw [hshape]
  simp only [putUint32] at hu
  simp only [hu, Option.getD_some]
  rw [← hshape, List.append_assoc, hsize, hread]
  simp only [hdrop, hdec]
  have hnot : ¬ (responseFrame 3 payload).length < 5 := by
    rw [responseFrame_length]; omega
  have hd : providerStateLoop c j (payload.length + rest.length + 10) (doneFrame ++ rest) =
      ⟨[], .panicked "invalid protocol prefix".toList⟩ :=
    providerStateLoop_done c j (payload.length + rest.length + 9) rest
  simp only [ne_eq, not_true_eq_false, if_false, if_neg hnot, hd]
  cases j with
  | false =>
    simp only [Bool.false_eq_true, if_false, Option.some.injEq] at hline
    simp only [Bool.not_false, if_true, hline]
    exact if_neg (by decide)
  | true =>
    simp only [if_true, Option.map_eq_some'] at hline
    obtain ⟨out, hout, hl2⟩ := hline
    simp only [Bool.not_true, Bool.false_eq_true, if_false, hout, hl2]
    exact if_neg (by decide)

theorem providerState_client_panics_on_done_witness :
    (StateRequest.Handle sampleCodec [("files".toList, fullProvider ⟨[], [], []⟩)] true doneFrame
      1 [102, 105, 108, 101, 115]).writes =
      [responseFrame 3 [102, 105, 108, 101, 115], doneFrame] ∧
    ProviderState sampleCodec false (responseFrame 3 [102, 105, 108, 101, 115] ++ doneFrame ++ [])
      = ⟨[.text ⟨"files".toList, [], []⟩], .panicked "invalid protocol prefix".toList⟩ :=
  ⟨by decide,
   providerState_client_panics_on_done sampleCodec false [102, 105, 108, 101, 115] []
     ⟨"files".toList, [], []⟩ (.text ⟨"files".toList, [], []⟩) (by decide) (by decide)
     (by decide)⟩

/-! ## Theorems: pruning of the stored sessions -/

theorem sessions_foldl_delete (ids : List GoString) (sessions : Sessions) :
    ids.foldl Sessions.delete sessions = sessions.filter (fun e => decide (e.1 ∉ ids)) := by
  induction ids generalizing sessions with
  | nil => simp
  | cons k ks ih =>
    rw [List.foldl_cons, ih]
    simp only [Sessions.delete, List.filter_filter]
    apply List.filter_congr
    intro e _
    by_cases h1 : e.1 = k <;> by_cases h2 : e.1 ∈ ks <;> simp [h1, h2]

theorem eq_of_mem_of_nodup_keys {α β : Type} (l : List (α × β)) (h : (l.map Prod.fst).Nodup)
    (a b : α × β) (ha : a ∈ l) (hb : b ∈ l) (hk : a.1 = b.1) : a = b := by
  induction l with
  | nil => cases ha
  | cons x xs ih =>
    rw [List.map_cons, List.nodup_cons] at h
    rcases List.mem_cons.mp ha with ha | ha <;> rcases List.mem_cons.mp hb with hb | hb
    · rw [ha, hb]
    · exfalso
      apply h.1
      rw [← ha, hk]
      exact List.mem_map_of_mem Prod.fst hb
    · exfalso
      apply h.1
      rw [← hb, ← hk]
      exact List.mem_map_of_mem Prod.fst ha
    · exact ih h.2 ha hb

theorem length_filter_not_mem (keys ids : List GoString) (hk : keys.Nodup) (hi : ids.Nodup)
    (hsub : ∀ a ∈ ids, a ∈ keys) :
    (keys.filter (fun a => decide (a ∉ ids))).length + ids.length = keys.length := by
  have hperm : (keys.filter (fun a => decide (a ∈ ids))).Perm ids := by
    rw [List.perm_ext_iff_of_nodup (hk.filter _) hi]
    intro a
    simp only [List.mem_filter, decide_eq_true_eq]
    exact ⟨fun h => h.2, fun h => ⟨hsub a h, h⟩⟩
  have h1 := List.length_eq_countP_add_countP (fun a => decide (a ∉ ids)) keys
  rw [List.countP_eq_length_filter, List.countP_eq_length_filter] at h1
  have h2 : (keys.filter (fun a => decide ¬ (decide (a ∉ ids) = true))) =
      keys.filter (fun a => decide (a ∈ ids)) := by
    apply List.filter_congr
    intro a _
    by_cases h : a ∈ ids <;> simp [h]
  rw [h2, hperm.length_eq] at h1
  omega

theorem insertSorted_perm {α : Type} (less : α → α → Bool) (x : α) (l : List α) :
    (insertSorted less x l).Perm (x :: l) := by
  induction l with
  | nil => exact List.Perm.refl _
  | cons y ys ih =>
    unfold insertSorted
    split
    · exact (List.Perm.cons y ih).trans (List.Perm.swap x y ys)
    · exact List.Perm.refl _

theorem sortSliceStable_perm {α : Type} (less : α → α → Bool) (l : List α) :
    (sortSliceStable less l).Perm l := by
  induction l with
  | nil => exact List.Perm.refl _
  | cons x xs ih =>
    unfold sortSliceStable at ih ⊢
    rw [List.foldr_cons]
    exact (insertSorted_perm less x _).trans (List.Perm.cons x ih)

theorem insertSorted_pairwise (x : pair) (l : List pair)
    (h : l.Pairwise (fun a b => a.time ≤ b.time)) :
    (insertSorted (fun a b => decide (a.time < b.time)) x l).Pairwise
      (fun a b => a.time ≤ b.time) := by
  induction l with
  | nil => simp [insertSorted]
  | cons y ys ih =>
    rw [List.pairwise_cons] at h
    unfold insertSorted
    split
    · rename_i hlt
      simp only [decide_eq_true_eq] at hlt
      rw [List.pairwise_cons]
      refine ⟨?_, ih h.2⟩
      intro b hb
      rcases List.mem_cons.mp ((insertSorted_perm _ x ys).mem_iff.mp hb) with hb | hb
      · rw [hb]; omega
      · exact h.1 b hb
    · rename_i hlt
      simp only [decide_eq_true_eq, not_lt] at hlt
      rw [List.pairwise_cons]
      refine ⟨?_, List.pairwise_cons.mpr h⟩
      intro b hb
      rcases List.mem_cons.mp hb with hb | hb
      · rw [hb]; exact hlt
      · exact le_trans hlt (h.1 b hb)

theorem sortSliceStable_pairwise (l : List pair) :
    (sortSliceStable (fun a b => decide (a.time < b.time)) l).Pairwise
      (fun a b => a.time ≤ b.time) := by
  induction l with
  | nil => simp [sortSliceStable]
  | cons x xs ih =>
    unfold sortSliceStable at ih ⊢
    rw [List.foldr_cons]
    exact insertSorted_pairwise x _ ih

/-- C22. `pruneSessionsLocked` enforces `max_sessions`: with `MaxSessions = m`
and `n` stored sessions (a map, so with distinct ids), and for whatever
sorted permutation `sort.Slice` leaves, afterwards exactly `min(n, m)` sessions
remain when `m > 0`, the retained sessions are entries of the old map
unchanged and in their old order, every removed session has an `UpdatedAt` no
later than that of every retained one, and nothing is removed when `n ≤ m` or
`m ≤ 0`. -/
theorem pruneSessionsLocked_keeps_newest
    (sortSlice : (pair → pair → Bool) → List pair → List pair) (m : Int) (sessions : Sessions)
    (hkeys : (sessions.map Prod.fst).Nodup)
    (hperm : ∀ l, (sortSlice (fun a b => decide (a.time < b.time)) l).Perm l)
    (hsorted : ∀ l, (sortSlice (fun a b => decide (a.time < b.time)) l).Pairwise
      (fun a b => a.time ≤ b.time)) :
    (0 < m → (pruneSessionsLocked sortSlice m sessions).sessions.length =
      min sessions.length m.toNat) ∧
    (pruneSessionsLocked sortSlice m sessions).sessions.Sublist sessions ∧
    (∀ e ∈ sessions, e ∉ (pruneSessionsLocked sortSlice m sessions).sessions →
      ∀ e2 ∈ (pruneSessionsLocked sortSlice m sessions).sessions,
        e.2.updatedAt ≤ e2.2.updatedAt) ∧
    ((sessions.length : Int) ≤ m ∨ m ≤ 0 →
      (pruneSessionsLocked sortSlice m sessions).sessions = sessions) := by
  by_cases hm : m ≤ 0
  · have hr : (pruneSessionsLocked sortSlice m sessions).sessions = sessions := by
      unfold pruneSessionsLocked
      rw [if_pos hm]
    rw [hr]
    exact ⟨fun h => absurd h (by omega), List.Sublist.refl _, fun e he hne => absurd he hne,
      fun _ => rfl⟩
  by_cases hn : (sessions.length : Int) ≤ m
  · have hr : (pruneSessionsLocked sortSlice m sessions).sessions = sessions := by
      unfold pruneSessionsLocked
      rw [if_neg hm, if_pos hn]
    rw [hr]
    refine ⟨fun _ => ?_, List.Sublist.refl _, fun e he hne => absurd he hne, fun _ => rfl⟩
    omega
  -- the pruning case
  let list : List pair := sessions.map (fun e => ⟨e.1, e.2.updatedAt⟩)
  let sorted := sortSlice (fun a b => decide (a.time < b.time)) list
  let excess := ((sorted.length : Int) - m).toNat
  let ids := (sorted.take excess).map (fun p => p.id)
  have hr : (pruneSessionsLocked sortSlice m sessions).sessions =
      sessions.filter (fun e => decide (e.1 ∉ ids)) := by
    unfold pruneSessionsLocked
    rw [if_neg hm, if_neg hn]
    exact sessions_foldl_delete _ _
  have hps : sorted.Perm list := hperm list
  have hlen : sorted.length = sessions.length := by
    rw [hps.length_eq, List.length_map]
  have hidmap : list.map (fun p => p.id) = sessions.map Prod.fst := by
    simp only [list, List.map_map]
    rfl
  have hnodup : (sorted.map (fun p => p.id)).Nodup := by
    rw [(hps.map _).nodup_iff, hidmap]
    exact hkeys
  have hidsnodup : ids.Nodup := by
    have hsub : ids.Sublist (sorted.map (fun p => p.id)) :=
      (List.take_sublist excess sorted).map _
    exact hnodup.sublist hsub
  have hidskeys : ∀ a ∈ ids, a ∈ sessions.map Prod.fst := by
    intro a ha
    rw [← hidmap]
    obtain ⟨p, hp, rfl⟩ := List.mem_map.mp ha
    exact List.mem_map_of_mem _ (hps.mem_iff.mp (List.mem_of_mem_take hp))
  have hidslen : ids.length = excess := by
    simp only [ids, List.length_map, List.length_take]
    omega
  rw [hr]
  refine ⟨fun _ => ?_, List.filter_sublist _, ?_, fun h => absurd h (by omega)⟩
  · have h1 := length_filter_not_mem (sessions.map Prod.fst) ids hkeys hidsnodup hidskeys
    have h2 : ((sessions.filter (fun e => decide (e.1 ∉ ids))).map Prod.fst) =
        (sessions.map Prod.fst).filter (fun a => decide (a ∉ ids)) := by
      rw [List.filter_map]
      rfl
    have h3 : (sessions.filter (fun e => decide (e.1 ∉ ids))).length =
        ((sessions.map Prod.fst).filter (fun a => decide (a ∉ ids))).length := by
      rw [← h2, List.length_map]
    have h4 : (sessions.map Prod.fst).length = sessions.length := List.length_map _ _
    have hex : excess = ((sorted.length : Int) - m).toNat := rfl
    rw [h3]
    omega
  · intro e he hne e2 he2
    rw [List.mem_filter] at he2
    have hein : e.1 ∈ ids := by
      by_contra hcon
      exact hne (List.mem_filter.mpr ⟨he, by simpa using hcon⟩)
    have he2out : e2.1 ∉ ids := by simpa using he2.2
    obtain ⟨p, hp, hpid⟩ := List.mem_map.mp hein
    have hpl : p ∈ list := hps.mem_iff.mp (List.mem_of_mem_take hp)
    obtain ⟨e0, he0, rfl⟩ := List.mem_map.mp hpl
    have hee : e0 = e := eq_of_mem_of_nodup_keys sessions hkeys e0 e he0 he hpid
    subst hee
    have hp2 : (⟨e2.1, e2.2.updatedAt⟩ : pair) ∈ sorted :=
      hps.mem_iff.mpr (List.mem_map_of_mem _ he2.1)
    rw [← List.take_append_drop excess sorted, List.mem_append] at hp2
    have hp2d : (⟨e2.1, e2.2.updatedAt⟩ : pair) ∈ sorted.drop excess := by
      rcases hp2 with h | h
      · exact absurd (List.mem_map_of_mem (fun p => p.id) h) he2out
      · exact h
    have hpw := hsorted list
    rw [← List.take_append_drop excess (sortSlice _ list), List.pairwise_append] at hpw
    exact hpw.2.2 _ hp _ hp2d

theorem pruneSessionsLocked_keeps_newest_witness :
    (pruneSessionsLocked (fun less l => sortSliceStable less l) 2 sampleSessions).sessions.length
      = min sampleSessions.length 2 ∧
    (pruneSessionsLocked (fun less l => sortSliceStable less l) 2 sampleSessions).sessions.map
      Prod.fst = ["b".toList, "c".toList] :=
  ⟨(pruneSessionsLocked_keeps_newest (fun less l => sortSliceStable less l) 2 sampleSessions
      (by decide) (fun l => sortSliceStable_perm _ l) (fun l => sortSliceStable_pairwise l)).1
      (by decide),
   by decide⟩

/-! ## Theorems: lines of a text, joined and split -/

theorem lines_cons_newline (t : GoString) : lines ('\n' :: t) = [] :: lines t := by
  simp only [lines, if_true]

theorem lines_cons_other (c : Char) (t l : GoString) (ls : List GoString) (hc : c ≠ '\n')
    (h : lines t = l :: ls) : lines (c :: t) = (c :: l) :: ls := by
  simp only [lines, hc, if_false, h]

theorem lines_append_newline (a b : GoString) : lines (a ++ '\n' :: b) = lines a ++ lines b := by
  induction a with
  | nil => rw [List.nil_append, lines_cons_newline]; rfl
  | cons c t ih =>
    by_cases hc : c = '\n'
    · subst hc
      rw [List.cons_append, lines_cons_newline, ih, lines_cons_newline]
      rfl
    · cases hl : lines t with
      | nil => exact absurd hl (lines_ne_nil t)
      | cons l ls =>
        rw [hl] at ih
        rw [List.cons_append, lines_cons_other c _ l (ls ++ lines b) hc ih,
          lines_cons_other c t l ls hc hl]
        rfl

theorem lines_append_left (p s f : GoString) (r : List GoString) (hp : '\n' ∉ p)
    (hs : lines s = f :: r) : lines (p ++ s) = (p ++ f) :: r := by
  induction p with
  | nil => simpa using hs
  | cons c t ih =>
    have hc : c ≠ '\n' := fun h => hp (by rw [h]; exact List.mem_cons_self _ _)
    have ht : '\n' ∉ t := fun h => hp (List.mem_cons_of_mem _ h)
    rw [List.cons_append, lines_cons_other c _ (t ++ f) r hc (ih ht)]
    rfl

theorem intercalate_cons_cons (sep x y : GoString) (ys : List GoString) :
    sep.intercalate (x :: y :: ys) = x ++ sep ++ sep.intercalate (y :: ys) := by
  simp [List.intercalate, List.intersperse]

theorem intercalate_singleton (sep x : GoString) : sep.intercalate [x] = x := by
  simp [List.intercalate, List.intersperse]

theorem join_lines (s : GoString) : join (lines s) "\n".toList = s := by
  unfold join
  induction s with
  | nil => exact intercalate_singleton _ _
  | cons c t ih =>
    by_cases hc : c = '\n'
    · subst hc
      rw [lines_cons_newline]
      cases hl : lines t with
      | nil => exact absurd hl (lines_ne_nil t)
      | cons l ls =>
        rw [intercalate_cons_cons, ← hl, ih]
        rfl
    · cases hl : lines t with
      | nil => exact absurd hl (lines_ne_nil t)
      | cons l ls =>
        rw [lines_cons_other c t l ls hc hl]
        rw [hl] at ih
        cases ls with
        | nil =>
          rw [intercalate_singleton] at ih ⊢
          rw [ih]
        | cons l2 ls2 =>
          rw [intercalate_cons_cons] at ih ⊢
          rw [← ih]
          simp only [List.cons_append]

theorem join_append_empty (ls : List GoString) (h : ls ≠ []) :
    join (ls ++ [[]]) "\n".toList = join ls "\n".toList ++ "\n".toList := by
  unfold join
  induction ls with
  | nil => exact absurd rfl h
  | cons x xs ih =>
    cases xs with
    | nil => simp [List.intercalate, List.intersperse]
    | cons y ys =>
      rw [List.cons_append, List.cons_append, intercalate_cons_cons, intercalate_cons_cons,
        ← List.cons_append, ih (by simp)]
      simp only [List.append_assoc]

theorem mem_of_mem_lines (s l : GoString) (c : Char) (hl : l ∈ lines s) (hc : c ∈ l) : c ∈ s := by
  induction s generalizing l with
  | nil =>
    simp only [lines, List.mem_singleton] at hl
    rw [hl] at hc
    cases hc
  | cons a t ih =>
    by_cases ha : a = '\n'
    · subst ha
      simp only [lines, if_true, List.mem_cons] at hl
      rcases hl with hl | hl
      · rw [hl] at hc; cases hc
      · exact List.mem_cons_of_mem _ (ih l hl hc)
    · simp only [lines, ha, if_false] at hl
      cases hlt : lines t with
      | nil => exact absurd hlt (lines_ne_nil t)
      | cons l1 ls =>
        rw [hlt] at hl ih
        simp only [List.mem_cons] at hl
        rcases hl with hl | hl
        · rw [hl] at hc
          rcases List.mem_cons.mp hc with hc | hc
          · rw [hc]; exact List.mem_cons_self _ _
          · exact List.mem_cons_of_mem _ (ih l1 (List.mem_cons_self _ _) hc)
        · exact List.mem_cons_of_mem _ (ih l (List.mem_cons_of_mem _ hl) hc)

theorem trimSpace_cons_space (c : Char) (s : GoString) (hc : isSpace c = true) :
    trimSpace (c :: s) = trimSpace s := by
  unfold trimSpace
  rw [List.dropWhile_cons_of_pos hc]

theorem trimRightCR_eq_self (s : GoString) (h : '\r' ∉ s) : trimRightCR s = s := by
  unfold trimRightCR
  rw [List.rdropWhile_eq_self_iff]
  intro hl
  have hm := List.getLast_mem hl
  intro hcr
  simp only [beq_iff_eq] at hcr
  rw [hcr] at hm
  exact h hm

/-! ## Theorems: parsing a rendered transcript -/

theorem flush_buffer (now : Nat → Int) (st : ParseState) : (flush now st).buffer = [] := by
  unfold flush
  split
  · rfl
  · dsimp only
    split <;> rfl

theorem flush_append (now : Nat → Int) (st : ParseState) (text : GoString)
    (hrole : st.currentRole ≠ []) (htext : trimSpace (join st.buffer "\n".toList) = text)
    (hne : text ≠ []) :
    flush now st =
      ⟨st.messages ++ [⟨toLower st.currentRole, text, now st.messages.length⟩],
        st.currentRole, []⟩ := by
  unfold flush
  rw [if_neg hrole]
  dsimp only
  rw [htext, if_neg hne]

theorem flush_content_ne_nil (now : Nat → Int) (st : ParseState)
    (h : ∀ m ∈ st.messages, m.content ≠ []) : ∀ m ∈ (flush now st).messages, m.content ≠ [] := by
  unfold flush
  split
  · exact h
  · dsimp only
    split
    · exact h
    · rename_i hne
      intro m hm
      rcases List.mem_append.mp hm with hm | hm
      · exact h m hm
      · simp only [List.mem_singleton] at hm
        rw [hm]
        exact hne

theorem parseLine_content_ne_nil (now : Nat → Int) (st : ParseState) (raw : GoString)
    (h : ∀ m ∈ st.messages, m.content ≠ []) :
    ∀ m ∈ (parseLine now st raw).messages, m.content ≠ [] := by
  unfold parseLine
  dsimp only
  split_ifs <;> first
    | exact flush_content_ne_nil now st h
    | exact h

theorem foldl_parseLine_content_ne_nil (now : Nat → Int) (ls : List GoString) (st : ParseState)
    (h : ∀ m ∈ st.messages, m.content ≠ []) :
    ∀ m ∈ (ls.foldl (parseLine now) st).messages, m.content ≠ [] := by
  induction ls generalizing st with
  | nil => exact h
  | cons l ls ih => exact ih _ (parseLine_content_ne_nil now st l h)

theorem parseLine_plain (now : Nat → Int) (st : ParseState) (l : GoString) (hcr : '\r' ∉ l)
    (hlab : ∀ label ∈ transcriptLabels, hasPrefix l label = false) :
    parseLine now st l = { st with buffer := st.buffer ++ [l] } := by
  have h1 := hlab "User:".toList (by simp [transcriptLabels])
  have h2 := hlab "Assistant:".toList (by simp [transcriptLabels])
  have h3 := hlab "System:".toList (by simp [transcriptLabels])
  have h4 := hlab "Error:".toList (by simp [transcriptLabels])
  unfold parseLine
  simp only [trimRightCR_eq_self l hcr, h1, h2, h3, h4, Bool.false_eq_true, if_false]

theorem foldl_parseLine_plain (now : Nat → Int) (ls : List GoString) (st : ParseState)
    (h : ∀ l ∈ ls, '\r' ∉ l ∧ ∀ label ∈ transcriptLabels, hasPrefix l label = false) :
    ls.foldl (parseLine now) st = { st with buffer := st.buffer ++ ls } := by
  induction ls generalizing st with
  | nil => simp
  | cons l ls ih =>
    rw [List.foldl_cons, parseLine_plain now st l (h l (List.mem_cons_self _ _)).1
      (h l (List.mem_cons_self _ _)).2]
    rw [ih _ (fun x hx => h x (List.mem_cons_of_mem _ hx))]
    simp only [List.append_assoc, List.singleton_append]

theorem title_roles (unicodeToTitle : Char → Char) :
    title unicodeToTitle "user".toList = "User".toList ∧
    title unicodeToTitle "assistant".toList = "Assistant".toList ∧
    title unicodeToTitle "system".toList = "System".toList :=
  ⟨rfl, rfl, rfl⟩

theorem trimSpace_head_not_space (s : GoString) (a : Char) (t : GoString)
    (h : trimSpace s = s) (hs : s = a :: t) : isSpace a = false := by
  subst hs
  unfold trimSpace at h
  by_cases ha : isSpace a = true
  · exfalso
    rw [List.dropWhile_cons_of_pos ha] at h
    have h1 : ((t.dropWhile isSpace).rdropWhile isSpace).length ≤ t.length :=
      le_trans (List.rdropWhile_prefix _ _).length_le (List.dropWhile_suffix _).length_le
    rw [h] at h1
    simp at h1
  · simpa using ha

theorem trimSpace_last_not_space (s : GoString) (h : trimSpace s = s) (c : Char)
    (hc : s.getLast? = some c) : isSpace c = false := by
  have hne : s ≠ [] := by
    intro h0; rw [h0] at hc; simp at hc
  have hne2 : (s.dropWhile isSpace).rdropWhile isSpace ≠ [] := by
    intro h0
    unfold trimSpace at h
    rw [h0] at h
    exact hne h.symm
  have h1 := List.rdropWhile_last_not isSpace (s.dropWhile isSpace) hne2
  have h2 : ((s.dropWhile isSpace).rdropWhile isSpace).getLast? = some c := by
    have : (s.dropWhile isSpace).rdropWhile isSpace = s := h
    rw [this]; exact hc
  rw [List.getLast?_eq_getLast _ hne2] at h2
  rw [Option.some.inj h2] at h1
  simpa using h1

theorem trimSpace_eq_self_of_ends (s : GoString) (a c : Char) (ha : s.head? = some a)
    (hc : s.getLast? = some c) (hsa : isSpace a = false) (hsc : isSpace c = false) :
    trimSpace s = s := by
  cases s with
  | nil => rfl
  | cons b t =>
    simp only [List.head?_cons, Option.some.injEq] at ha
    subst ha
    unfold trimSpace
    rw [dropWhile_eq_self_of_head isSpace b t hsa, List.rdropWhile_eq_self_iff]
    intro hl
    rw [List.getLast?_eq_getLast _ hl] at hc
    rw [Option.some.inj hc]
    simp [hsc]

theorem lines_head_of_cons (a : Char) (t : GoString) (ha : a ≠ '\n') :
    ∃ f r, lines (a :: t) = (a :: f) :: r := by
  cases hl : lines t with
  | nil => exact absurd hl (lines_ne_nil t)
  | cons l ls => exact ⟨l, ls, lines_cons_other a t l ls ha hl⟩

theorem startRole_eq (now : Nat → Int) (st : ParseState) (role label line f : GoString)
    (hp : hasPrefix line label = true) (hd : line.drop label.length = ' ' :: f)
    (hf : trimSpace f = f) :
    startRole now st role label line = ⟨(flush now st).messages, role, [f]⟩ := by
  unfold startRole trimPrefix
  simp only [hp, if_true, hd, flush_buffer, List.nil_append,
    trimSpace_cons_space ' ' f (by decide), hf]

theorem parseLine_entry_first (unicodeToTitle : Char → Char) (now : Nat → Int) (st : ParseState)
    (role f : GoString)
    (hrole : role ∈ ["user".toList, "assistant".toList, "system".toList])
    (hcr : '\r' ∉ f) (hf : trimSpace f = f) :
    parseLine now st (title unicodeToTitle role ++ ": ".toList ++ f) =
      ⟨(flush now st).messages, role, [f]⟩ := by
  simp only [List.mem_cons, List.mem_singleton, List.not_mem_nil, or_false] at hrole
  rcases hrole with h | h | h
  · subst h
    have hline : title unicodeToTitle "user".toList ++ ": ".toList ++ f =
        'U' :: 's' :: 'e' :: 'r' :: ':' :: ' ' :: f := rfl
    have hnocr : '\r' ∉ 'U' :: 's' :: 'e' :: 'r' :: ':' :: ' ' :: f := by
      simp only [List.mem_cons, not_or]
      exact ⟨by decide, by decide, by decide, by decide, by decide, by decide, hcr⟩
    rw [hline]
    unfold parseLine
    simp only [trimRightCR_eq_self _ hnocr]
    have hp : hasPrefix ('U' :: 's' :: 'e' :: 'r' :: ':' :: ' ' :: f) "User:".toList = true := rfl
    rw [if_pos hp]
    exact startRole_eq now st _ _ _ f hp rfl hf
  · subst h
    have hline : title unicodeToTitle "assistant".toList ++ ": ".toList ++ f =
        'A' :: 's' :: 's' :: 'i' :: 's' :: 't' :: 'a' :: 'n' :: 't' :: ':' :: ' ' :: f := rfl
    have hnocr :
        '\r' ∉ 'A' :: 's' :: 's' :: 'i' :: 's' :: 't' :: 'a' :: 'n' :: 't' :: ':' :: ' ' :: f := by
      simp only [List.mem_cons, not_or]
      exact ⟨by decide, by decide, by decide, by decide, by decide, by decide, by decide,
        by decide, by decide, by decide, by decide, hcr⟩
    rw [hline]
    unfold parseLine
    simp only [trimRightCR_eq_self _ hnocr]
    have hn : hasPrefix
        ('A' :: 's' :: 's' :: 'i' :: 's' :: 't' :: 'a' :: 'n' :: 't' :: ':' :: ' ' :: f)
        "User:".toList = false := rfl
    have hp : hasPrefix
        ('A' :: 's' :: 's' :: 'i' :: 's' :: 't' :: 'a' :: 'n' :: 't' :: ':' :: ' ' :: f)
        "Assistant:".toList = true := rfl
    simp only [hn, Bool.false_eq_true, if_false]
    rw [if_pos hp]
    exact startRole_eq now st _ _ _ f hp rfl hf
  · subst h
    have hline : title unicodeToTitle "system".toList ++ ": ".toList ++ f =
        'S' :: 'y' :: 's' :: 't' :: 'e' :: 'm' :: ':' :: ' ' :: f := rfl
    have hnocr : '\r' ∉ 'S' :: 'y' :: 's' :: 't' :: 'e' :: 'm' :: ':' :: ' ' :: f := by
      simp only [List.mem_cons, not_or]
      exact ⟨by decide, by decide, by decide, by decide, by decide, by decide, by decide,
        by decide, hcr⟩
    rw [hline]
    unfold parseLine
    simp only [trimRightCR_eq_self _ hnocr]
    have hn1 : hasPrefix ('S' :: 'y' :: 's' :: 't' :: 'e' :: 'm' :: ':' :: ' ' :: f)
        "User:".toList = false := rfl
    have hn2 : hasPrefix ('S' :: 'y' :: 's' :: 't' :: 'e' :: 'm' :: ':' :: ' ' :: f)
        "Assistant:".toList = false := rfl
    have hp : hasPrefix ('S' :: 'y' :: 's' :: 't' :: 'e' :: 'm' :: ':' :: ' ' :: f)
        "System:".toList = true := rfl
    simp only [hn1, hn2, Bool.false_eq_true, if_false]
    rw [if_pos hp]
    exact startRole_eq now st _ _ _ f hp rfl hf

theorem title_role_no_newline (unicodeToTitle : Char → Char) (role : GoString)
    (hrole : role ∈ ["user".toList, "assistant".toList, "system".toList]) :
    '\n' ∉ title unicodeToTitle role ++ ": ".toList ∧
    ∃ a t, title unicodeToTitle role = a :: t ∧ isSpace a = false := by
  simp only [List.mem_cons, List.mem_singleton, List.not_mem_nil, or_false] at hrole
  rcases hrole with h | h | h <;> subst h
  · exact ⟨by rw [(title_roles unicodeToTitle).1]; decide, 'U', "ser".toList, rfl, by decide⟩
  · exact ⟨by rw [(title_roles unicodeToTitle).2.1]; decide, 'A', "ssistant".toList, rfl,
      by decide⟩
  · exact ⟨by rw [(title_roles unicodeToTitle).2.2]; decide, 'S', "ystem".toList, rfl, by decide⟩

/-- The lines of one rendered message, fed to the parser: the messages so far
are flushed, and the role and the lines of the content are held. -/
theorem foldl_parseLine_entry (unicodeToTitle : Char → Char) (now : Nat → Int) (st : ParseState)
    (m : Message) (hm : RoundTripMessage m) (hfirst : FirstLineTrimmed m) :
    (lines (transcriptEntry unicodeToTitle m)).foldl (parseLine now) st =
      ⟨(flush now st).messages, m.role, lines m.content⟩ := by
  obtain ⟨hrole, hne, htrim, hcr, hlab⟩ := hm
  cases hl : lines m.content with
  | nil => exact absurd hl (lines_ne_nil _)
  | cons f r =>
    have hnl := (title_role_no_newline unicodeToTitle m.role hrole).1
    have hlines : lines (transcriptEntry unicodeToTitle m) =
        (title unicodeToTitle m.role ++ ": ".toList ++ f) :: r := by
      unfold transcriptEntry
      exact lines_append_left _ _ f r hnl hl
    have hfcr : '\r' ∉ f := fun h =>
      hcr (mem_of_mem_lines m.content f '\r' (by rw [hl]; exact List.mem_cons_self _ _) h)
    have hftrim : trimSpace f = f := by
      unfold FirstLineTrimmed at hfirst
      rw [hl] at hfirst
      exact hfirst
    rw [hlines, List.foldl_cons,
      parseLine_entry_first unicodeToTitle now st m.role f hrole hfcr hftrim]
    rw [foldl_parseLine_plain now r _ (fun l hlr =>
      ⟨fun h => hcr (mem_of_mem_lines m.content l '\r'
          (by rw [hl]; exact List.mem_cons_of_mem _ hlr) h),
        hlab l (by rw [hl]; exact List.mem_cons_of_mem _ hlr)⟩)]
    rfl

theorem flatMap_transcript (unicodeToTitle : Char → Char) (ms : List Message) (hne : ms ≠ []) :
    ms.flatMap (fun msg =>
        title unicodeToTitle msg.role ++ ": ".toList ++ msg.content ++ "\n\n".toList) =
      transcriptText unicodeToTitle ms ++ "\n\n".toList := by
  induction ms with
  | nil => exact absurd rfl hne
  | cons m rest ih =>
    cases rest with
    | nil => simp [transcriptText, transcriptEntry, List.flatMap]
    | cons m2 rest2 =>
      rw [List.flatMap_cons, ih (by simp)]
      simp only [transcriptText, transcriptEntry, List.append_assoc]

theorem transcriptEntry_ends (unicodeToTitle : Char → Char) (m : Message)
    (hm : RoundTripMessage m) :
    (∃ a, (transcriptEntry unicodeToTitle m).head? = some a ∧ isSpace a = false) ∧
    (∃ c, (transcriptEntry unicodeToTitle m).getLast? = some c ∧ isSpace c = false) := by
  obtain ⟨hrole, hne, htrim, _, _⟩ := hm
  obtain ⟨_, a, t, hat, ha⟩ := title_role_no_newline unicodeToTitle m.role hrole
  constructor
  · refine ⟨a, ?_, ha⟩
    unfold transcriptEntry
    rw [hat]
    rfl
  · obtain ⟨c, hc⟩ : ∃ c, m.content.getLast? = some c := by
      cases hl : m.content.getLast? with
      | none => exact absurd (List.getLast?_eq_none_iff.mp hl) hne
      | some c => exact ⟨c, rfl⟩
    refine ⟨c, ?_, trimSpace_last_not_space m.content htrim c hc⟩
    unfold transcriptEntry
    rw [List.getLast?_append, hc]
    rfl

theorem transcriptText_ends (unicodeToTitle : Char → Char) (ms : List Message) (hne : ms ≠ [])
    (hms : ∀ m ∈ ms, RoundTripMessage m) :
    (∃ a, (transcriptText unicodeToTitle ms).head? = some a ∧ isSpace a = false) ∧
    (∃ c, (transcriptText unicodeToTitle ms).getLast? = some c ∧ isSpace c = false) := by
  induction ms with
  | nil => exact absurd rfl hne
  | cons m rest ih =>
    have hm := transcriptEntry_ends unicodeToTitle m (hms m (List.mem_cons_self _ _))
    cases rest with
    | nil => exact hm
    | cons m2 rest2 =>
      have ih2 := ih (by simp) (fun x hx => hms x (List.mem_cons_of_mem _ hx))
      obtain ⟨⟨a, ha, hsa⟩, _⟩ := hm
      obtain ⟨_, ⟨c, hc, hsc⟩⟩ := ih2
      constructor
      · refine ⟨a, ?_, hsa⟩
        simp only [transcriptText, List.append_assoc]
        cases he : transcriptEntry unicodeToTitle m with
        | nil => rw [he] at ha; simp at ha
        | cons b t => rw [he] at ha; simpa using ha
      · refine ⟨c, ?_, hsc⟩
        simp only [transcriptText]
        rw [List.getLast?_append, hc]
        rfl

theorem renderTranscript_eq (unicodeToTitle : Char → Char) (session : Session)
    (hms : ∀ m ∈ session.messages, RoundTripMessage m) :
    renderTranscript unicodeToTitle (some session) [] [] [] =
      transcriptText unicodeToTitle session.messages := by
  unfold renderTranscript
  simp only [ne_eq, not_true_eq_false, if_false]
  by_cases hne : session.messages = []
  · rw [hne]
    rfl
  · rw [flatMap_transcript unicodeToTitle _ hne]
    have h1 : transcriptText unicodeToTitle session.messages ++ "\n\n".toList =
        (transcriptText unicodeToTitle session.messages ++ ['\n']) ++ ['\n'] := by
      simp only [List.append_assoc]
      rfl
    rw [h1, trimSpace_concat_space _ _ (by decide), trimSpace_concat_space _ _ (by decide)]
    obtain ⟨⟨a, ha, hsa⟩, ⟨c, hc, hsc⟩⟩ := transcriptText_ends unicodeToTitle _ hne hms
    exact trimSpace_eq_self_of_ends _ a c ha hc hsa hsc

theorem toLower_roles (role : GoString)
    (hrole : role ∈ ["user".toList, "assistant".toList, "system".toList]) :
    toLower role = role ∧ role ≠ [] := by
  simp only [List.mem_cons, List.mem_singleton, List.not_mem_nil, or_false] at hrole
  rcases hrole with h | h | h <;> subst h <;> exact ⟨by decide, by decide⟩

theorem flush_entry (now : Nat → Int) (msgs : List Message) (m : Message)
    (hm : RoundTripMessage m) (pad : List GoString) (hpad : pad = [] ∨ pad = [[]]) :
    rolesAndContents (flush now ⟨msgs, m.role, lines m.content ++ pad⟩).messages =
      rolesAndContents msgs ++ [(m.role, m.content)] := by
  obtain ⟨hrole, hne, htrim, _, _⟩ := hm
  obtain ⟨hlow, hrne⟩ := toLower_roles m.role hrole
  have htext : trimSpace (join (lines m.content ++ pad) "\n".toList) = m.content := by
    rcases hpad with h | h
    · rw [h, List.append_nil, join_lines, htrim]
    · rw [h, join_append_empty _ (lines_ne_nil _), join_lines]
      have : m.content ++ "\n".toList = m.content ++ ['\n'] := rfl
      rw [this, trimSpace_concat_space _ _ (by decide), htrim]
  rw [flush_append now ⟨msgs, m.role, lines m.content ++ pad⟩ m.content hrne htext hne]
  simp only [rolesAndContents, List.map_append, List.map_cons, List.map_nil, hlow]

theorem foldl_parseLine_transcript (unicodeToTitle : Char → Char) (now : Nat → Int)
    (ms : List Message) (hne : ms ≠ [])
    (hms : ∀ m ∈ ms, RoundTripMessage m ∧ FirstLineTrimmed m) (st : ParseState) :
    rolesAndContents
        (flush now ((lines (transcriptText unicodeToTitle ms)).foldl (parseLine now) st)).messages
      = rolesAndContents (flush now st).messages ++ rolesAndContents ms := by
  induction ms generalizing st with
  | nil => exact absurd rfl hne
  | cons m rest ih =>
    obtain ⟨hm, hfirst⟩ := hms m (List.mem_cons_self _ _)
    cases rest with
    | nil =>
      simp only [transcriptText]
      rw [foldl_parseLine_entry unicodeToTitle now st m hm hfirst]
      have h := flush_entry now (flush now st).messages m hm [] (Or.inl rfl)
      rw [List.append_nil] at h
      rw [h]
      rfl
    | cons m2 rest2 =>
      have hsplit : transcriptText unicodeToTitle (m :: m2 :: rest2) =
          transcriptEntry unicodeToTitle m ++
            '\n' :: ('\n' :: transcriptText unicodeToTitle (m2 :: rest2)) := by
        simp only [transcriptText, List.append_assoc]
        rfl
      rw [hsplit, lines_append_newline, lines_cons_newline, List.foldl_append, List.foldl_cons,
        foldl_parseLine_entry unicodeToTitle now st m hm hfirst,
        parseLine_plain now _ [] (by simp) (by decide)]
      rw [ih (by simp) (fun x hx => hms x (List.mem_cons_of_mem _ hx))]
      rw [flush_entry now (flush now st).messages m hm [[]] (Or.inr rfl)]
      simp only [rolesAndContents, List.map_cons, List.append_assoc, List.singleton_append]

theorem filter_not_error (l : List Message) (ms : List Message)
    (h : rolesAndContents l = rolesAndContents ms) (hms : ∀ m ∈ ms, RoundTripMessage m) :
    l.filter (fun msg => msg.role != "error".toList) = l := by
  rw [List.filter_eq_self]
  intro x hx
  have hmem : (x.role, x.content) ∈ rolesAndContents ms := by
    rw [← h]
    exact List.mem_map_of_mem (fun m => (m.role, m.content)) hx
  obtain ⟨m, hm, heq⟩ := List.mem_map.mp hmem
  have hrole : x.role = m.role := (congrArg Prod.fst heq).symm
  have hr := (hms m hm).1
  rw [← hrole] at hr
  simp only [List.mem_cons, List.mem_singleton, List.not_mem_nil, or_false] at hr
  rcases hr with h | h | h <;> rw [h] <;> decide

/-- C26 (counterexample). The message with role "user" and content "a \nb"
(whose first line ends in a space) meets every condition of the claim, and
rendering it and parsing the result returns the content "a\nb": not the same
(role, content) pairs. -/
theorem transcript_round_trip_loses_space :
    RoundTripMessage ⟨"user".toList, "a \nb".toList, 0⟩ ∧
    rolesAndContents (parseTranscript (fun _ => 0)
      (renderTranscript id (some (sampleSession [⟨"user".toList, "a \nb".toList, 0⟩])) [] [] []))
      = [("user".toList, "a\nb".toList)] ∧
    rolesAndContents (parseTranscript (fun _ => 0)
      (renderTranscript id (some (sampleSession [⟨"user".toList, "a \nb".toList, 0⟩])) [] [] []))
      ≠ rolesAndContents (sampleSession [⟨"user".toList, "a \nb".toList, 0⟩]).messages := by
  refine ⟨by decide, by decide, by decide⟩

/-- C26 (amended). Transcript round trip: for every session whose messages
all have a role in {user, assistant, system} and a content that is non-empty,
equal to its own white-space trim, free of carriage returns, without a line
beginning with "User:", "Assistant:", "System:" or "Error:", and whose first
line does not end in white space,
`parseTranscript(renderTranscript(session, "", "", ""))` returns the same
sequence of (role, content) pairs; and for any input text `parseTranscript`
never returns a message with role "error" or with empty content. -/
theorem transcript_round_trip (unicodeToTitle : Char → Char) (now : Nat → Int)
    (session : Session)
    (h : ∀ m ∈ session.messages, RoundTripMessage m ∧ FirstLineTrimmed m) :
    rolesAndContents
        (parseTranscript now (renderTranscript unicodeToTitle (some session) [] [] [])) =
      rolesAndContents session.messages ∧
    ∀ text : GoString, ∀ m ∈ parseTranscript now text,
      m.role ≠ "error".toList ∧ m.content ≠ [] := by
  constructor
  · rw [renderTranscript_eq unicodeToTitle session (fun m hm => (h m hm).1)]
    unfold parseTranscript
    by_cases hne : session.messages = []
    · rw [hne]
      rfl
    · have hfold := foldl_parseLine_transcript unicodeToTitle now session.messages hne h
        ⟨[], [], []⟩
      have hflush0 : (flush now ⟨[], [], []⟩).messages = [] := rfl
      rw [hflush0] at hfold
      simp only [rolesAndContents, List.map_nil, List.nil_append] at hfold
      dsimp only
      rw [filter_not_error _ session.messages hfold (fun m hm => (h m hm).1)]
      exact hfold
  · intro text m hm
    unfold parseTranscript at hm
    dsimp only at hm
    rw [List.mem_filter] at hm
    refine ⟨?_, ?_⟩
    · simpa using hm.2
    · exact flush_content_ne_nil now _
        (foldl_parseLine_content_ne_nil now _ _ (fun x hx => by cases hx)) m hm.1

theorem transcript_round_trip_witness :
    (∀ m ∈ (sampleSession [⟨"user".toList, "list files".toList, 0⟩,
        ⟨"assistant".toList, "Try:\n\n  ls -la".toList, 1⟩]).messages,
      RoundTripMessage m ∧ FirstLineTrimmed m) ∧
    rolesAndContents (parseTranscript (fun _ => 0)
      (renderTranscript id (some (sampleSession [⟨"user".toList, "list files".toList, 0⟩,
        ⟨"assistant".toList, "Try:\n\n  ls -la".toList, 1⟩])) [] [] [])) =
      [("user".toList, "list files".toList), ("assistant".toList, "Try:\n\n  ls -la".toList)] :=
  ⟨by decide,
   (transcript_round_trip id (fun _ => 0)
      (sampleSession [⟨"user".toList, "list files".toList, 0⟩,
        ⟨"assistant".toList, "Try:\n\n  ls -la".toList, 1⟩]) (by decide)).1⟩

/-! ## Theorems: command identifiers -/

theorem digit_toNat (d : Nat) (h : d < 10) : (Char.ofNat (48 + d)).toNat = 48 + d := by
  interval_cases d <;> rfl

theorem parseDigits_append (acc : Nat) (xs ys : GoString) :
    parseDigits acc (xs ++ ys) = (parseDigits acc xs).bind (fun v => parseDigits v ys) := by
  induction xs generalizing acc with
  | nil => rfl
  | cons c t ih =>
    simp only [List.cons_append, parseDigits]
    split
    · exact ih _
    · rfl

theorem parseDigits_digit (acc d : Nat) (h : d < 10) :
    parseDigits acc [Char.ofNat (48 + d)] = some (acc * 10 + d) := by
  simp only [parseDigits, digit_toNat d h]
  rw [if_pos ⟨by omega, by omega⟩]
  congr 2
  omega

theorem parseDigits_formatNatFuel (fuel n : Nat) (h : n < fuel) :
    parseDigits 0 (formatNatFuel fuel n) = some n := by
  induction fuel generalizing n with
  | zero => omega
  | succ fuel ih =>
    unfold formatNatFuel
    split
    · rename_i hlt
      rw [parseDigits_digit 0 n hlt]
      simp
    · rename_i hge
      have hdiv : n / 10 < fuel := by omega
      rw [parseDigits_append, ih (n / 10) hdiv, Option.some_bind,
        parseDigits_digit (n / 10) (n % 10) (Nat.mod_lt _ (by decide))]
      congr 1
      omega

theorem formatNatFuel_digits (fuel n : Nat) :
    ∀ c ∈ formatNatFuel fuel n, 48 ≤ c.toNat ∧ c.toNat ≤ 57 := by
  induction fuel generalizing n with
  | zero => intro c hc; cases hc
  | succ fuel ih =>
    intro c hc
    unfold formatNatFuel at hc
    split at hc
    · rename_i hlt
      simp only [List.mem_singleton] at hc
      rw [hc, digit_toNat n hlt]
      omega
    · rcases List.mem_append.mp hc with hc | hc
      · exact ih _ c hc
      · simp only [List.mem_singleton] at hc
        rw [hc, digit_toNat (n % 10) (Nat.mod_lt _ (by decide))]
        have := Nat.mod_lt n (show 0 < 10 by decide)
        omega

theorem formatNatFuel_ne_nil (fuel n : Nat) : formatNatFuel (fuel + 1) n ≠ [] := by
  unfold formatNatFuel
  split <;> simp

theorem Atoi_formatNat (n : Nat) (h : n < 2 ^ 63) : Atoi (formatNat n) = some (n : Int) := by
  have hne : formatNat n ≠ [] := formatNatFuel_ne_nil n n
  have hparse : parseDigits 0 (formatNat n) = some n :=
    parseDigits_formatNatFuel (n + 1) n (by omega)
  obtain ⟨c, t, hct⟩ : ∃ c t, formatNat n = c :: t := by
    cases hf : formatNat n with
    | nil => exact absurd hf hne
    | cons c t => exact ⟨c, t, rfl⟩
  have hc := formatNatFuel_digits (n + 1) n c (by
    have : formatNatFuel (n + 1) n = c :: t := hct
    rw [this]; exact List.mem_cons_self _ _)
  have hminus : c ≠ '-' := by
    intro h0; rw [h0] at hc; revert hc; decide
  have hplus : c ≠ '+' := by
    intro h0; rw [h0] at hc; revert hc; decide
  unfold Atoi
  rw [hct] at hparse ⊢
  simp only [List.head?_cons, Option.some.injEq, hminus, hplus, or_self, if_false,
    decide_False, hparse, Bool.false_eq_true]
  rw [if_neg (by simp)]
  have h63 : (2 : Int) ^ 63 = 9223372036854775808 := by norm_num
  have h63n : (2 : Nat) ^ 63 = 9223372036854775808 := by norm_num
  rw [if_pos (by constructor <;> omega)]

theorem splitIdentifier_cmd (x : GoString) :
    splitIdentifier ("cmd".toList ++ identifierSep ++ x) = ("cmd".toList, x) := by
  have h : "cmd".toList ++ identifierSep ++ x = 'c' :: 'm' :: 'd' :: ':' :: ':' :: x := rfl
  have hc : cut identifierSep ('c' :: 'm' :: 'd' :: ':' :: ':' :: x) = some ("cmd".toList, x) := by
    simp [cut, identifierSep, hasPrefix]
  rw [h]
  unfold splitIdentifier
  rw [hc]

theorem currentSession_idem (f f2 : Fresh) (g : Globals) :
    currentSession f2 (currentSession f g).2 = currentSession f g := by
  unfold currentSession
  cases hp : selectedPersistent g with
  | some session => simp only [hp]
  | none =>
    cases he : g.ephemeral with
    | some e => simp only [hp, he]
    | none =>
      have hp2 : selectedPersistent { g with ephemeral := some (newTempSession f) } = none := hp
      simp only [hp2]

theorem appendScored_spec (F : FuzzyScoreFn) (minScore : Int) (entry : Item) (score : Int)
    (query : GoString) (exact : Bool) :
    ∃ e, appendScored F minScore entry score query exact = [e] ∧
      e.identifier = entry.identifier ∧ e.preview = entry.preview := by
  unfold appendScored
  by_cases hq : query = []
  · subst hq
    simp only [ne_eq, not_true_eq_false, if_false, matchAndScore, if_true]
    split <;> exact ⟨_, rfl, rfl, rfl⟩
  · rw [if_pos hq]
    exact ⟨_, rfl, rfl, rfl⟩

theorem commandEntriesFrom_mem (F : FuzzyScoreFn) (minScore : Int) (query : GoString)
    (exact : Bool) (cmds : List GoString) (k j : Nat) (c : GoString) (h : cmds[j]? = some c) :
    ∃ e ∈ commandEntriesFrom F minScore query exact k cmds,
      e.identifier = "cmd".toList ++ identifierSep ++ formatNat (k + j) ∧ e.preview = c := by
  induction cmds generalizing k j with
  | nil => simp at h
  | cons cmd rest ih =>
    unfold commandEntriesFrom
    cases j with
    | zero =>
      simp only [List.getElem?_cons_zero, Option.some.injEq] at h
      obtain ⟨e, he, hid, hprev⟩ := appendScored_spec F minScore (commandEntry k cmd)
        (toInt32 (800000000 - (k : Int))) query exact
      refine ⟨e, ?_, ?_, ?_⟩
      · rw [he]; simp
      · rw [hid]; rfl
      · rw [hprev, ← h]; rfl
    | succ j =>
      simp only [List.getElem?_cons_succ] at h
      obtain ⟨e, he, hid, hprev⟩ := ih (k + 1) j h
      refine ⟨e, List.mem_append_right _ he, ?_, hprev⟩
      rw [hid]
      congr 2
      omega

/-- C27. Command identifiers round-trip: for the current session with last
commands `c_0 .. c_{n-1}` (`n` fits an `int`), `buildCommandEntries` returns
entries among which there is, for every `i < n`, one with identifier "cmd::i"
whose preview is `c_i`, and `commandByIdentifier` of that identifier returns
`c_i`; for an identifier whose kind is not "cmd", whose index `Atoi` rejects,
or whose index is outside `0 .. n-1`, `commandByIdentifier` returns "". The
function has no failing path. -/
theorem command_identifiers_round_trip (F : FuzzyScoreFn) (minScore : Int) (f f2 : Fresh)
    (g : Globals) (query : GoString) (exact : Bool)
    (hn : (currentSession f g).1.lastCommands.length < 2 ^ 63) :
    (∃ entries,
      buildCommandEntries F minScore (some (currentSession f g).1) query exact = some entries ∧
      ∀ (i : Nat) (c : GoString), (currentSession f g).1.lastCommands[i]? = some c →
        (∃ e ∈ entries,
          e.identifier = "cmd".toList ++ identifierSep ++ formatNat i ∧ e.preview = c) ∧
        commandByIdentifier f2 (currentSession f g).2
          ("cmd".toList ++ identifierSep ++ formatNat i) = (c, (currentSession f g).2)) ∧
    ∀ identifier : GoString,
      ((splitIdentifier identifier).1 ≠ "cmd".toList ∨
        Atoi (splitIdentifier identifier).2 = none ∨
        ∃ k : Int, Atoi (splitIdentifier identifier).2 = some k ∧
          (k < 0 ∨ ((currentSession f g).1.lastCommands.length : Int) ≤ k)) →
      (commandByIdentifier f2 (currentSession f g).2 identifier).1 = [] := by
  constructor
  · refine ⟨_, rfl, ?_⟩
    intro i c hc
    have hi : i < (currentSession f g).1.lastCommands.length := by
      rcases Nat.lt_or_ge i (currentSession f g).1.lastCommands.length with h | h
      · exact h
      · rw [List.getElem?_eq_none h] at hc; cases hc
    constructor
    · obtain ⟨e, he, hid, hprev⟩ :=
        commandEntriesFrom_mem F minScore query exact _ 0 i c hc
      rw [Nat.zero_add] at hid
      exact ⟨e, List.mem_append_right _ he, hid, hprev⟩
    · unfold commandByIdentifier
      simp only [splitIdentifier_cmd, ne_eq, not_true_eq_false, if_false,
        Atoi_formatNat i (by omega), currentSession_idem]
      rw [if_neg (by omega)]
      simp only [Int.toNat_ofNat, List.getD_eq_getElem?_getD, hc, Option.getD_some]
  · intro identifier h
    unfold commandByIdentifier
    simp only [currentSession_idem]
    rcases h with h | h | ⟨k, hk, hrange⟩
    · rw [if_pos h]
    · split
      · rfl
      · rw [h]
    · split
      · rfl
      · rw [hk]
        dsimp only
        rw [if_pos (by omega)]

theorem command_identifiers_round_trip_witness :
    ((∃ e ∈ (buildCommandEntries sampleScore 30 (some commandSession) [] false).getD [],
        e.identifier = "cmd::1".toList ∧ e.preview = "git status".toList) ∧
      commandByIdentifier ⟨[], 0, []⟩ commandGlobals "cmd::1".toList =
        ("git status".toList, commandGlobals)) ∧
    (commandByIdentifier ⟨[], 0, []⟩ commandGlobals "cmd::2".toList).1 = [] :=
  have h := command_identifiers_round_trip sampleScore 30 ⟨[], 0, []⟩ ⟨[], 0, []⟩ commandGlobals
    [] false (by decide)
  ⟨by
    obtain ⟨entries, he, hall⟩ := h.1
    have h1 := hall 1 "git status".toList (by decide)
    have he2 : buildCommandEntries sampleScore 30 (some commandSession) [] false = some entries :=
      he
    rw [he2]
    exact h1,
   h.2 "cmd::2".toList (Or.inr (Or.inr ⟨2, by decide, Or.inr (by decide)⟩))⟩

/-! ## Theorems: selecting a session from the sessions menu -/

/-- C28 (the code at a failing input). With the stored session "p1" current
and the temporary session "e1", `buildSessionsMenu` lists both, as
"session::p1" and "session::e1". Activating `select_session` with
"session::e1" leaves "p1" the session `currentSession()` returns: the
temporary session cannot be selected through its own identifier. The
identifier "session::ephemeral", which no entry of the menu carries, does
select it. -/
theorem select_session_misses_temporary :
    (buildSessionsMenu sortSliceStable (fun _ => []) menuGlobals).map (fun e => e.identifier) =
      ["mode_chat".toList, "new_temp_session".toList, "new_session".toList,
        "persist_current".toList, "session::p1".toList, "session::e1".toList] ∧
    (currentSession ⟨[], 0, []⟩ menuGlobals).1.id = "p1".toList ∧
    (activateSelectSession id 9 menuGlobals "session::e1".toList).map
      (fun g => (currentSession ⟨[], 0, []⟩ g).1.id) = some "p1".toList ∧
    (activateSelectSession id 9 menuGlobals "session::ephemeral".toList).map
      (fun g => (currentSession ⟨[], 0, []⟩ g).1.id) = some "e1".toList := by
  refine ⟨by decide, by decide, by decide, by decide⟩

theorem splitIdentifier_session (x : GoString) :
    splitIdentifier ("session".toList ++ identifierSep ++ x) = ("session".toList, x) := by
  have h : "session".toList ++ identifierSep ++ x =
      's' :: 'e' :: 's' :: 's' :: 'i' :: 'o' :: 'n' :: ':' :: ':' :: x := rfl
  have hc : cut identifierSep ('s' :: 'e' :: 's' :: 's' :: 'i' :: 'o' :: 'n' :: ':' :: ':' :: x) =
      some ("session".toList, x) := by
    simp [cut, identifierSep, hasPrefix]
  rw [h]
  unfold splitIdentifier
  rw [hc]

theorem setMode_sessions (unicodeToLower : Char → Char) (now : Int) (g g2 : Globals)
    (mode : GoString) (h : setMode unicodeToLower now g mode = some g2) :
    selectedPersistent g2 = selectedPersistent g ∧ g2.ephemeral = g.ephemeral := by
  unfold setMode at h
  dsimp only at h
  split at h
  · cases hs : g.state with
    | none => rw [hs] at h; cases h
    | some st =>
      rw [hs] at h
      dsimp only at h
      split at h
      · injection h with h
        subst h
        exact ⟨by simp [selectedPersistent, hs], rfl⟩
      · injection h with h
        subst h
        exact ⟨rfl, rfl⟩
  · injection h with h
    subst h
    exact ⟨rfl, rfl⟩

/-- The branch of `selectSession` for stored sessions does what the menu
needs: the identifier "session::<id>" of a stored session (other than the
literal id "ephemeral" while a temporary session exists) makes that session
the current one. -/
theorem select_session_stored (unicodeToLower : Char → Char) (now : Int) (f : Fresh)
    (g : Globals) (st : CopilotState) (id : GoString) (s : Session)
    (hstate : g.state = some st) (hl : g.sessions.lookup id = some s)
    (hid : id ≠ "ephemeral".toList ∨ g.ephemeral = none) :
    ∃ g2, activateSelectSession unicodeToLower now g ("session".toList ++ identifierSep ++ id) =
        some g2 ∧ (currentSession f g2).1 = s := by
  have hsel : selectSession g id =
      some { g with
        state := some { st with currentSessionID := id, currentSessionPersistent := true } } := by
    unfold selectSession
    have heph : (if id = "ephemeral".toList then g.ephemeral else none) = none := by
      rcases hid with h | h
      · rw [if_neg h]
      · rw [h]; simp
    simp only [heph, hl, hstate]
  have hsome : ∃ g2, setMode unicodeToLower now
      { g with
        state := some { st with currentSessionID := id, currentSessionPersistent := true } }
      "chat".toList = some g2 := by
    unfold setMode
    dsimp only
    split
    · split <;> exact ⟨_, rfl⟩
    · exact ⟨_, rfl⟩
  obtain ⟨g2, hg2⟩ := hsome
  refine ⟨g2, ?_, ?_⟩
  · unfold activateSelectSession
    simp only [splitIdentifier_session, ne_eq, not_true_eq_false, if_false, hsel, hg2]
  · obtain ⟨hp, _⟩ := setMode_sessions unicodeToLower now _ g2 _ hg2
    have hp2 : selectedPersistent g2 = some s := by
      rw [hp]
      simp [selectedPersistent, hl]
    unfold currentSession
    rw [hp2]

end Elephant
